import Mathlib

/-!
# symdump: the exported functions of `symdump_exports.cpp`

A shallow embedding of `setAddrType` and `dumpSymbols`.

* Bytes are natural numbers below 256, C strings are the lists of their bytes
  before the terminating NUL, the mapped file is the list of its bytes.
* Pointers into the mapping are offsets relative to `map_base`; pointer
  arithmetic is addition modulo `2 ^ ptrBits` (the width of `uintptr_t`).
* The source dereferences pointers without any check. An access outside
  `[0, size)` of the mapping is undefined behaviour in C; the embedding stops
  there with `Fault.outOfBounds`. Likewise a division by zero stops with
  `Fault.divideByZero`.
* Every run carries the list of the effects it performed (system calls and
  reads of the mapping), in program order.
* Multi-byte fields are read little-endian, with the field offsets of the
  32-bit ELF structures `Elf32_Ehdr`, `Elf32_Shdr` and `Elf32_Sym`.
* What the host supplies (the loader, the file system, `PyDict_New`,
  `Py_BuildValue`, `PyDict_SetItemString`) is a parameter, `Host`.
-/

set_option maxRecDepth 100000

namespace Symdump

/-! ## Effects, faults and results -/

/-- The fields and strings of the mapped file that the source reads. -/
inductive Field where
  | e_shoff
  | e_shstrndx
  | e_shnum
  | sh_name
  | sh_offset
  | sh_size
  | sh_entsize
  | section_name
  | st_info
  | st_name
  | st_shndx
  | st_value
  | sym_name
  deriving DecidableEq, Repr

/-- All the fields. -/
def Field.all : List Field :=
  [.e_shoff, .e_shstrndx, .e_shnum, .sh_name, .sh_offset, .sh_size, .sh_entsize, .section_name,
    .st_info, .st_name, .st_shndx, .st_value, .sym_name]

/-- Effects of a run, in program order. `linkMap` is a read of a field of the `link_map` that
`dlopen` handed back (`l_name`, `l_addr`); `read f off len` is the read of `len` bytes at
`map_base + off`, made by the source expression that reads `f`. -/
inductive Event where
  | dlopen (path : List Nat)
  | dlclose
  | linkMap
  | openFile (name : List Nat)
  | fstat
  | close
  | mmap (size : Nat)
  | munmap (size : Nat)
  | read (f : Field) (off len : Nat)
  deriving DecidableEq, Repr

/-- Undefined behaviour the source can reach. -/
inductive Fault where
  | outOfBounds (off len : Nat)
  | divideByZero
  deriving DecidableEq, Repr

/-- Exceptions raised through `PyErr_Format`. -/
inductive PyExc where
  | ValueError
  | NotImplementedError
  deriving DecidableEq, Repr

/-- What an exported function hands back to the interpreter: `None`, a dictionary
(keys in insertion order), or `NULL` with an exception set. -/
inductive PyResult (V : Type) where
  | None
  | dict (d : List (List Nat × V))
  | raise (exc : PyExc)
  deriving DecidableEq, Repr

/-- A computation with its effects: the effects performed so far, and either a value
or the fault that stopped it. -/
structure Step (α : Type) where
  log : List Event
  val : Except Fault α

namespace Step

/-- A computation without effect. -/
def ret {α : Type} (a : α) : Step α := ⟨[], .ok a⟩

/-- Sequencing: the effects of the second computation follow those of the first;
a fault stops the run. -/
def andThen {α β : Type} (s : Step α) (f : α → Step β) : Step β :=
  match s.val with
  | .error e => ⟨s.log, .error e⟩
  | .ok a => ⟨s.log ++ (f a).log, (f a).val⟩

instance : Monad Step where
  pure := ret
  bind := andThen

end Step

/-- One effect. -/
def emit (e : Event) : Step Unit := ⟨[e], .ok ()⟩

/-- Undefined behaviour reached. -/
def fault {α : Type} (f : Fault) : Step α := ⟨[], .error f⟩

/-! ## Reading the mapping -/

/-- The byte at an offset of the file. -/
def byteAt (img : List Nat) (off : Nat) : Nat := img.getD off 0 % 256

/-- Little-endian value of `len` bytes starting at `off`. -/
def le (img : List Nat) (off : Nat) : Nat → Nat
  | 0 => 0
  | len + 1 => byteAt img off + 256 * le img (off + 1) len

/-- Pointer arithmetic on `uintptr_t`: `p + o` modulo `2 ^ W`. -/
def ptr (W p o : Nat) : Nat := (p + o) % 2 ^ W

/-- Read of a `len`-byte field at `map_base + p`. -/
def load (img : List Nat) (f : Field) (p len : Nat) : Step Nat :=
  ⟨[.read f p len],
    if p + len ≤ img.length then .ok (le img p len) else .error (.outOfBounds p len)⟩

/-- Body of `strcmp(s, lit) == 0` for a literal `lit` without NUL: bytes of `s` are read one by
one up to the first difference or the terminator. -/
def strcmp (img : List Nat) : Nat → List Nat → Step Bool
  | p, [] => do
    let c ← load img .section_name p 1
    pure (decide (c = 0))
  | p, l :: ls => do
    let c ← load img .section_name p 1
    if c = l then strcmp img (p + 1) ls else pure false

/-- Read of the NUL-terminated string that starts at offset `p`, `rest` being the bytes of the
mapping from `p` on. -/
def cstrFrom : List Nat → Nat → Step (List Nat)
  | [], p => ⟨[.read .sym_name p 1], .error (.outOfBounds p 1)⟩
  | b :: rest, p =>
    if b % 256 = 0 then ⟨[.read .sym_name p 1], .ok []⟩
    else emit (.read .sym_name p 1) >>= fun _ =>
      cstrFrom rest (p + 1) >>= fun s => pure (b % 256 :: s)

/-- Read of the C string at `map_base + p`. -/
def cstring (img : List Nat) (p : Nat) : Step (List Nat) := cstrFrom (img.drop p) p

/-! ## The dictionary -/

/-- Insertion as `PyDict_SetItemString` does it when it succeeds: an existing key keeps its place
and takes the new value, a new key goes last. Keys are compared as the bytes of the C string. -/
def PyDict_SetItemString {V : Type} : List (List Nat × V) → List Nat → V → List (List Nat × V)
  | [], k, v => [(k, v)]
  | (k', v') :: t, k, v =>
    if k' = k then (k', v) :: t else (k', v') :: PyDict_SetItemString t k v

/-- Value stored under a key. -/
def PyDict_GetItemString {V : Type} : List (List Nat × V) → List Nat → Option V
  | [], _ => none
  | (k', v') :: t, k => if k' = k then some v' else PyDict_GetItemString t k

/-! ## ELF constants -/

/-- Section index of an undefined symbol, and the "no string table" index. -/
def SHN_UNDEF : Nat := 0

/-- Symbol type: data object. -/
def STT_OBJECT : Nat := 1

/-- Symbol type: function. -/
def STT_FUNC : Nat := 2

/-- The macro `ELF32_ST_TYPE(i)`, that is `i & 0xf`. -/
def ELF32_ST_TYPE (info : Nat) : Nat := info % 16

/-- The bytes of ".symtab". -/
def dotSymtab : List Nat := [46, 115, 121, 109, 116, 97, 98]

/-- The bytes of ".strtab". -/
def dotStrtab : List Nat := [46, 115, 116, 114, 116, 97, 98]

/-! ## The host -/

/-- The entry of the loaded-module list that `dlopen` hands back. -/
structure LinkMap where
  l_addr : Nat
  l_name : List Nat
  deriving DecidableEq, Repr

/-- What the platform and the interpreter supply to one call.
`PyDict_New` tells whether the dictionary is allocated.
`Py_BuildValue fmt p` is the object built from the pointer-sized argument `p` under the
format string `fmt`, or `none` when it returns `NULL`.
`setItemOk key` tells whether `PyDict_SetItemString` succeeds on the C string `key` (it has to
turn the key into a Python string first); when it fails the dictionary is left as it was, and
the source does not look at its result. -/
structure Host (V : Type) where
  linux : Bool
  ptrBits : Nat
  dlopen : List Nat → Option LinkMap
  openFile : List Nat → Option (List Nat)
  fstatOk : Bool
  mmapOk : Bool
  PyDict_New : Bool
  Py_BuildValue : List Nat → Nat → Option V
  setItemOk : List Nat → Bool

/-! ## The exported functions -/

/-- The initial value of the global `g_szAddrType`: "k". -/
def g_szAddrType_init : List Nat := [107]

/-- The function `setAddrType`. `args` is what `PyArg_ParseTuple(args, "s", ...)` yields: `none`
when it fails. The result is paired with the new value of `g_szAddrType`. -/
def setAddrType (g_szAddrType : List Nat) (args : Option (List Nat)) :
    PyResult Unit × List Nat :=
  match args with
  | none => (.None, g_szAddrType)
  | some szAddrType =>
    if szAddrType.length ≠ 1 then (.raise .ValueError, g_szAddrType)
    else (.None, szAddrType)

/-- The section loop of `dumpSymbols` (lines 117-127): `n` headers remain, `i` is the index of the
next one; the accumulators are `symtab_hdr` and `strtab_hdr` (`none` for `NULL`). -/
def dumpSymbols_sections (W : Nat) (img : List Nat) (sections shstrtab : Nat) :
    Nat → Nat → Option Nat → Option Nat → Step (Option Nat × Option Nat)
  | 0, _, symtab_hdr, strtab_hdr => pure (symtab_hdr, strtab_hdr)
  | n + 1, i, symtab_hdr, strtab_hdr => do
    let hdr := ptr W sections (40 * i)
    let sh_name ← load img .sh_name (ptr W hdr 0) 4
    let section_name := ptr W shstrtab sh_name
    let isSymtab ← strcmp img section_name dotSymtab
    if isSymtab then
      dumpSymbols_sections W img sections shstrtab n (i + 1) (some hdr) strtab_hdr
    else do
      let isStrtab ← strcmp img section_name dotStrtab
      if isStrtab then
        dumpSymbols_sections W img sections shstrtab n (i + 1) symtab_hdr (some hdr)
      else
        dumpSymbols_sections W img sections shstrtab n (i + 1) symtab_hdr strtab_hdr

/-- The symbol loop of `dumpSymbols` (lines 150-167): `n` entries remain, `i` is the index of the
next one, `pDict` the dictionary so far. `build` is `Py_BuildValue` under the current
`g_szAddrType`; the name of a symbol is read when `PyDict_SetItemString` is called. -/
def dumpSymbols_symbols {V : Type} (W : Nat) (build : Nat → Option V)
    (setOk : List Nat → Bool) (l_addr : Nat) (img : List Nat) (symtab strtab : Nat) :
    Nat → Nat → List (List Nat × V) → Step (List (List Nat × V))
  | 0, _, pDict => pure pDict
  | n + 1, i, pDict => do
    let sym := ptr W symtab (16 * i)
    let st_info ← load img .st_info (ptr W sym 12) 1
    let sym_type := ELF32_ST_TYPE st_info
    let st_name ← load img .st_name (ptr W sym 0) 4
    let sym_name := ptr W strtab st_name
    let st_shndx ← load img .st_shndx (ptr W sym 14) 2
    if st_shndx = SHN_UNDEF ∨ (sym_type ≠ STT_FUNC ∧ sym_type ≠ STT_OBJECT) then
      dumpSymbols_symbols W build setOk l_addr img symtab strtab n (i + 1) pDict
    else do
      emit .linkMap
      let st_value ← load img .st_value (ptr W sym 4) 4
      match build ((l_addr + st_value) % 2 ^ W) with
      | none => dumpSymbols_symbols W build setOk l_addr img symtab strtab n (i + 1) pDict
      | some pValue => do
        let name ← cstring img sym_name
        if setOk name = true then
          dumpSymbols_symbols W build setOk l_addr img symtab strtab n (i + 1)
            (PyDict_SetItemString pDict name pValue)
        else
          dumpSymbols_symbols W build setOk l_addr img symtab strtab n (i + 1) pDict

/-- The part of `dumpSymbols` that runs on the mapping (lines 104-171). -/
def dumpSymbols_mapped {V : Type} (W : Nat) (build : Nat → Option V)
    (setOk : List Nat → Bool) (dictOk : Bool) (l_addr : Nat) (img : List Nat) :
    Step (PyResult V) := do
  let e_shoff ← load img .e_shoff 32 4
  let malformed ←
    (if e_shoff = 0 then pure true
     else do
      let e_shstrndx ← load img .e_shstrndx 50 2
      pure (decide (e_shstrndx = SHN_UNDEF)) : Step Bool)
  if malformed then do
    emit (.munmap img.length)
    pure .None
  else do
    let e_shoff ← load img .e_shoff 32 4
    let sections := ptr W 0 e_shoff
    let section_count ← load img .e_shnum 48 2
    let e_shstrndx ← load img .e_shstrndx 50 2
    let shstrtab_hdr := ptr W sections (40 * e_shstrndx)
    let sh_offset ← load img .sh_offset (ptr W shstrtab_hdr 16) 4
    let shstrtab := ptr W 0 sh_offset
    let found ← dumpSymbols_sections W img sections shstrtab section_count 0 none none
    match found with
    | (some symtab_hdr, some strtab_hdr) => do
      let symtab_off ← load img .sh_offset (ptr W symtab_hdr 16) 4
      let symtab := ptr W 0 symtab_off
      let strtab_off ← load img .sh_offset (ptr W strtab_hdr 16) 4
      let strtab := ptr W 0 strtab_off
      let sh_size ← load img .sh_size (ptr W symtab_hdr 20) 4
      let sh_entsize ← load img .sh_entsize (ptr W symtab_hdr 36) 4
      if sh_entsize = 0 then fault .divideByZero
      else do
        let symbol_count := sh_size / sh_entsize
        if dictOk = false then do
          emit (.munmap img.length)
          pure .None
        else do
          let pDict ←
            dumpSymbols_symbols W build setOk l_addr img symtab strtab symbol_count 0 []
          emit (.munmap img.length)
          pure (.dict pDict)
    | _ => do
      emit (.munmap img.length)
      pure .None

/-- The function `dumpSymbols`. `args` is what `PyArg_ParseTuple(args, "s", ...)` yields: `none`
when it fails. `mmap` fails on an empty file and on a file that does not fit the address
space, besides the failures the host decides. -/
def dumpSymbols {V : Type} (h : Host V) (g_szAddrType : List Nat) (args : Option (List Nat)) :
    Step (PyResult V) :=
  if h.linux = false then pure (.raise .NotImplementedError)
  else
    match args with
    | none => pure .None
    | some szPath =>
      match h.dlopen szPath with
      | none => do
        emit (.dlopen szPath)
        pure .None
      | some dlmap => do
        emit (.dlopen szPath)
        emit .dlclose
        emit .linkMap
        emit (.openFile dlmap.l_name)
        match h.openFile dlmap.l_name with
        | none => do
          emit .close
          pure .None
        | some img => do
          emit .fstat
          if h.fstatOk = false then do
            emit .close
            pure .None
          else do
            emit (.mmap img.length)
            if h.mmapOk = false ∨ img.length = 0 ∨ 2 ^ h.ptrBits ≤ img.length then do
              emit .close
              pure .None
            else do
              emit .close
              dumpSymbols_mapped h.ptrBits (h.Py_BuildValue g_szAddrType) h.setItemOk
                h.PyDict_New dlmap.l_addr img

/-! ## The file as the ELF structures lay it out

The same offsets as in the functions above, as plain functions of the file, without pointer
wrap-around: they say what a table entry is, the functions above say what the source reads. -/

/-- Field `e_shoff` of the file header. -/
def e_shoff (img : List Nat) : Nat := le img 32 4

/-- Field `e_shnum` of the file header. -/
def e_shnum (img : List Nat) : Nat := le img 48 2

/-- Field `e_shstrndx` of the file header. -/
def e_shstrndx (img : List Nat) : Nat := le img 50 2

/-- Offset of section header `k`. -/
def shdr (img : List Nat) (k : Nat) : Nat := e_shoff img + 40 * k

/-- Field `sh_name` of section header `k`. -/
def sh_name (img : List Nat) (k : Nat) : Nat := le img (shdr img k) 4

/-- Field `sh_offset` of section header `k`. -/
def sh_offset (img : List Nat) (k : Nat) : Nat := le img (shdr img k + 16) 4

/-- Field `sh_size` of section header `k`. -/
def sh_size (img : List Nat) (k : Nat) : Nat := le img (shdr img k + 20) 4

/-- Field `sh_entsize` of section header `k`. -/
def sh_entsize (img : List Nat) (k : Nat) : Nat := le img (shdr img k + 36) 4

/-- The NUL-terminated string at the head of a list of bytes, if it is terminated. -/
def strAt : List Nat → Option (List Nat)
  | [] => none
  | b :: rest => if b % 256 = 0 then some [] else (strAt rest).map (fun s => b % 256 :: s)

/-- The NUL-terminated string at an offset of the file, if it ends inside the file. -/
def stringAt (img : List Nat) (p : Nat) : Option (List Nat) := strAt (img.drop p)

/-- Name of section `k`: the string at `sh_name` in the section-header string table. -/
def sectionName (img : List Nat) (k : Nat) : Option (List Nat) :=
  stringAt img (sh_offset img (e_shstrndx img) + sh_name img k)

/-- Greatest index below `n` of a section named `lit`. -/
def lastNamed (img : List Nat) (lit : List Nat) : Nat → Option Nat
  | 0 => none
  | n + 1 => if sectionName img n = some lit then some n else lastNamed img lit n

/-- Offset of entry `i` of the symbol table held by section `a`, entries taken 16 bytes apart. -/
def symOff (img : List Nat) (a i : Nat) : Nat := sh_offset img a + 16 * i

/-- Field `st_name` of symbol `i`. -/
def st_name (img : List Nat) (a i : Nat) : Nat := le img (symOff img a i) 4

/-- Field `st_value` of symbol `i`. -/
def st_value (img : List Nat) (a i : Nat) : Nat := le img (symOff img a i + 4) 4

/-- Field `st_info` of symbol `i`. -/
def st_info (img : List Nat) (a i : Nat) : Nat := le img (symOff img a i + 12) 1

/-- Field `st_shndx` of symbol `i`. -/
def st_shndx (img : List Nat) (a i : Nat) : Nat := le img (symOff img a i + 14) 2

/-- The number of symbols: `sh_size / sh_entsize` of the symbol table section. -/
def symbol_count (img : List Nat) (a : Nat) : Nat := sh_size img a / sh_entsize img a

/-- The filter of line 157: the symbol is defined and is a function or an object. -/
def passes (img : List Nat) (a i : Nat) : Prop :=
  st_shndx img a i ≠ SHN_UNDEF ∧
    (ELF32_ST_TYPE (st_info img a i) = STT_FUNC ∨ ELF32_ST_TYPE (st_info img a i) = STT_OBJECT)

instance (img : List Nat) (a i : Nat) : Decidable (passes img a i) := by
  unfold passes; infer_instance

/-- Name of symbol `i`: the string at `st_name` in the string table held by section `b`. -/
def symName (img : List Nat) (a b i : Nat) : Option (List Nat) :=
  stringAt img (sh_offset img b + st_name img a i)

/-- The address recorded for symbol `i`: `l_addr + st_value` on `W` bits. -/
def symAddr (W l_addr : Nat) (img : List Nat) (a i : Nat) : Nat :=
  (l_addr + st_value img a i) % 2 ^ W

/-- The dictionary after the first `n` symbols, as a plain function of the file. -/
def symDict {V : Type} (W : Nat) (build : Nat → Option V) (setOk : List Nat → Bool)
    (l_addr : Nat) (img : List Nat) (a b : Nat) : Nat → List (List Nat × V)
  | 0 => []
  | n + 1 =>
    if passes img a n then
      match build (symAddr W l_addr img a n), symName img a b n with
      | some v, some name =>
        if setOk name = true then
          PyDict_SetItemString (symDict W build setOk l_addr img a b n) name v
        else symDict W build setOk l_addr img a b n
      | _, _ => symDict W build setOk l_addr img a b n
    else symDict W build setOk l_addr img a b n

/-- The headers are inside the file and every section name is a terminated string: the file
header is present, `e_shoff` and `e_shstrndx` are set, the section header array and the header
of the section-header string table lie in the file. -/
structure SectionsOk (img : List Nat) : Prop where
  header : 52 ≤ img.length
  shoff : e_shoff img ≠ 0
  shstrndx : e_shstrndx img ≠ SHN_UNDEF
  headers : e_shoff img + 40 * e_shnum img ≤ img.length
  shstrtab : e_shstrndx img < e_shnum img
  names : ∀ k < e_shnum img, (sectionName img k).isSome = true

/-- A well-formed image: the headers are in bounds, section `a` is the one taken as `.symtab`
and section `b` the one taken as `.strtab`, `sh_entsize` is not zero, the entries read lie in
the file and the name of every symbol that passes the filter is a terminated string. -/
structure WellFormed (img : List Nat) (a b : Nat) : Prop where
  sections : SectionsOk img
  symtab : lastNamed img dotSymtab (e_shnum img) = some a
  strtab : lastNamed img dotStrtab (e_shnum img) = some b
  entsize : sh_entsize img a ≠ 0
  entries : sh_offset img a + 16 * symbol_count img a ≤ img.length
  symNames : ∀ i < symbol_count img a, passes img a i → (symName img a b i).isSome = true

/-- The host loads the library at `szPath` as `dlmap` and maps its file, whose bytes are `img`. -/
def Host.Maps {V : Type} (h : Host V) (szPath : List Nat) (dlmap : LinkMap) (img : List Nat) :
    Prop :=
  h.linux = true ∧ h.dlopen szPath = some dlmap ∧ h.openFile dlmap.l_name = some img ∧
    h.fstatOk = true ∧ h.mmapOk = true ∧ 0 < img.length ∧ img.length < 2 ^ h.ptrBits

/-- The calls into the interpreter succeed on this file: `PyDict_New` allocates the dictionary,
`Py_BuildValue` builds an object from every address under the format `g`, and
`PyDict_SetItemString` accepts the name of every symbol of the table. -/
def Host.Serves {V : Type} (h : Host V) (g : List Nat) (img : List Nat) (a b : Nat) : Prop :=
  h.PyDict_New = true ∧ (∀ p, (h.Py_BuildValue g p).isSome = true) ∧
    ∀ i, i < symbol_count img a → (symName img a b i).all h.setItemOk = true

/-- The effects of `dumpSymbols` up to the point where the file is mapped. -/
def mapEvents (szPath : List Nat) (dlmap : LinkMap) (img : List Nat) : List Event :=
  [.dlopen szPath, .dlclose, .linkMap, .openFile dlmap.l_name, .fstat, .mmap img.length, .close]

/-- An effect stays inside a mapping of `size` bytes and reads only fields of `fs`. -/
def Event.allowed (size : Nat) (fs : List Field) : Event → Prop
  | .read f off len => off + len ≤ size ∧ f ∈ fs
  | _ => True

/-- The offset of a read of `st_info`: one per symbol entry visited. -/
def Event.entry? : Event → Option Nat
  | .read .st_info off _ => some off
  | _ => none

/-- The offsets at which a run read `st_info`, in order. -/
def Step.entries {α : Type} (s : Step α) : List Nat := s.log.filterMap Event.entry?

/-- The run ends with value `x`, all its effects are allowed, and it visited the symbol entries
whose `st_info` lie at `es`. -/
def Step.Runs {α : Type} (s : Step α) (size : Nat) (fs : List Field) (x : α) (es : List Nat) :
    Prop :=
  s.val = .ok x ∧ (∀ e ∈ s.log, e.allowed size fs) ∧ s.entries = es

/-! ## Example files -/

deriving instance DecidableEq for Except

/-- A 16-bit value as the file stores it. -/
def u16 (n : Nat) : List Nat := [n % 256, n / 256 % 256]

/-- A 32-bit value as the file stores it. -/
def u32 (n : Nat) : List Nat := [n % 256, n / 256 % 256, n / 65536 % 256, n / 16777216 % 256]

/-- The magic number: 0x7f, E, L, F. -/
def ELFMAG : List Nat := [127, 69, 76, 70]

/-- The first four bytes of the file are the magic number. -/
def hasMagic (img : List Nat) : Prop := img.take 4 = ELFMAG

instance (img : List Nat) : Decidable (hasMagic img) := by
  unfold hasMagic; infer_instance

/-- The 52 bytes of an `Elf32_Ehdr` that starts with `magic`. -/
def ehdrBytes (magic : List Nat) (e_shoff e_shnum e_shstrndx : Nat) : List Nat :=
  magic ++ [1, 1, 1, 0, 0, 0, 0, 0, 0, 0, 0, 0] ++ u16 3 ++ u16 3 ++ u32 1 ++ u32 0 ++ u32 0 ++
    u32 e_shoff ++ u32 0 ++ u16 52 ++ u16 0 ++ u16 0 ++ u16 40 ++ u16 e_shnum ++ u16 e_shstrndx

/-- The 40 bytes of an `Elf32_Shdr`. -/
def shdrBytes (sh_name sh_offset sh_size sh_entsize : Nat) : List Nat :=
  u32 sh_name ++ u32 0 ++ u32 0 ++ u32 0 ++ u32 sh_offset ++ u32 sh_size ++ u32 0 ++ u32 0 ++
    u32 0 ++ u32 sh_entsize

/-- The 16 bytes of an `Elf32_Sym`. -/
def symBytes (st_name st_value st_size st_info st_other st_shndx : Nat) : List Nat :=
  u32 st_name ++ u32 st_value ++ u32 st_size ++ [st_info % 256, st_other % 256] ++ u16 st_shndx

/-- The section-header string table of the examples: "", ".shstrtab", ".symtab", ".strtab". -/
def shstrtabBytes : List Nat :=
  [0, 46, 115, 104, 115, 116, 114, 116, 97, 98, 0] ++ dotSymtab ++ [0] ++ dotStrtab ++ [0]

/-- A shared library with four sections (null, `.shstrtab`, `.symtab`, `.strtab`): the header,
the section headers at 52, the section names at 212, the symbols at 239, then their names. -/
def elfFile (magic : List Nat) (entsize : Nat) (syms : List (List Nat)) (strtab : List Nat) :
    List Nat :=
  ehdrBytes magic 52 4 1 ++ shdrBytes 0 0 0 0 ++ shdrBytes 1 212 27 0 ++
    shdrBytes 11 239 (16 * syms.length) entsize ++
    shdrBytes 19 (239 + 16 * syms.length) strtab.length 0 ++
    shstrtabBytes ++ syms.flatten ++ strtab

/-- The symbols of `libfoo`: the null symbol, the global function `foo` at 0x1000 in section 5,
the undefined function `und`. -/
def fooSyms : List (List Nat) :=
  [symBytes 0 0 0 0 0 0, symBytes 1 0x1000 0 0x12 0 5, symBytes 5 0 0 0x12 0 0]

/-- The names of `libfoo`: "", "foo", "und". -/
def fooNames : List Nat := [0, 102, 111, 111, 0, 117, 110, 100, 0]

/-- A library that exports the function `foo` at link-time value 0x1000. -/
def libfoo : List Nat := elfFile ELFMAG 16 fooSyms fooNames

/-- A library with two defined function symbols named `bar`, at 0x2000 and then at 0x3000. -/
def libbar : List Nat :=
  elfFile ELFMAG 16
    [symBytes 0 0 0 0 0 0, symBytes 1 0x2000 0 0x12 0 5, symBytes 1 0x3000 0 0x12 0 5]
    [0, 98, 97, 114, 0]

/-- The file `libfoo` cut after 100 bytes. -/
def libfooTruncated : List Nat := libfoo.take 100

/-- The file `libfoo` with its magic number overwritten. -/
def libfooNoMagic : List Nat := elfFile [0, 0, 0, 0] 16 fooSyms fooNames

/-- The file `libfoo` with `sh_entsize = 0` in the header of `.symtab`. -/
def libfooNoEntsize : List Nat := elfFile ELFMAG 0 fooSyms fooNames

/-- A stripped library: the null section and `.shstrtab` only. -/
def libStripped : List Nat :=
  ehdrBytes ELFMAG 52 2 1 ++ shdrBytes 0 0 0 0 ++ shdrBytes 1 132 11 0 ++
    [0, 46, 115, 104, 115, 116, 114, 116, 97, 98, 0]

/-- A file header without section header table: `e_shoff = 0`. -/
def libNoSections : List Nat := ehdrBytes ELFMAG 0 0 0

/-- The path given in the examples: "lib". -/
def examplePath : List Nat := [108, 105, 98]

/-- A 64-bit Linux host on which every call succeeds, the library is loaded at `l_addr` and its
file holds `img`. Under the format "k" its `Py_BuildValue` builds the argument as a Python
integer, as documented; under any other format string it returns `NULL`, which is what the
interpreter does for a character that is no format unit (the examples use no other kind). Its
`PyDict_SetItemString` succeeds on the keys that are plain ASCII. -/
def exampleHost (img : List Nat) (l_addr : Nat) : Host Nat where
  linux := true
  ptrBits := 64
  dlopen := fun path => some ⟨l_addr, path⟩
  openFile := fun _ => some img
  fstatOk := true
  mmapOk := true
  PyDict_New := true
  Py_BuildValue := fun fmt p => if fmt = [107] then some p else none
  setItemOk := fun key => key.all (fun c => decide (c < 128))

/-- The bytes of "foo". -/
def fooName : List Nat := [102, 111, 111]

/-- The bytes of "bar". -/
def barName : List Nat := [98, 97, 114]

/-! ## Calls in sequence -/

/-- The one-character format units that the documentation of `Py_BuildValue` lists:
s z y u U i b h l B H I k L K n c C d f D O S N. A token is a recognized format token when it
is one of these characters. -/
def formatUnits : List Nat :=
  [115, 122, 121, 117, 85, 105, 98, 104, 108, 66, 72, 73, 107, 76, 75, 110, 99, 67, 100, 102, 68,
    79, 83, 78]

/-- A call of one of the two exported functions, with what `PyArg_ParseTuple` yields. -/
inductive Call where
  | set (args : Option (List Nat))
  | dump (args : Option (List Nat))

/-- The value of `g_szAddrType` after a call: `setAddrType` may assign it, `dumpSymbols` only
reads it. -/
def Call.selector (g_szAddrType : List Nat) : Call → List Nat
  | .set args => (setAddrType g_szAddrType args).2
  | .dump _ => g_szAddrType

/-- The value of `g_szAddrType` after a sequence of calls. -/
def selectorAfter (g_szAddrType : List Nat) (calls : List Call) : List Nat :=
  calls.foldl Call.selector g_szAddrType

/-- A host whose loader loads nothing: `dlopen` returns `NULL` for every path. -/
def unloadableHost : Host Nat where
  linux := true
  ptrBits := 64
  dlopen := fun _ => none
  openFile := fun _ => some libfoo
  fstatOk := true
  mmapOk := true
  PyDict_New := true
  Py_BuildValue := fun fmt p => if fmt = [107] then some p else none
  setItemOk := fun _ => true

/-! ## Release of the mapping -/

/-- The effect is a call of `munmap`. -/
def Event.isMunmap : Event → Bool
  | .munmap _ => true
  | _ => false

/-- The run performs no `munmap`. -/
def Step.Keeps {α : Type} (s : Step α) : Prop := s.log.filter Event.isMunmap = []

/-- The run performs `munmap` on `size` bytes exactly once if it ends with a value, and not at
all if it stops in undefined behaviour. -/
def Step.Releases {α : Type} (s : Step α) (size : Nat) : Prop :=
  (∀ r, s.val = .ok r → s.log.filter Event.isMunmap = [.munmap size]) ∧
    (∀ e, s.val = .error e → s.log.filter Event.isMunmap = [])

/-! ## Files for the section scan -/

/-- A file whose four sections are named ".symta", ".shstrtab", ".symtab2" and ".dynstr": the
header, the section headers at 52, the section names at 212. -/
def libLookalike : List Nat :=
  ehdrBytes ELFMAG 52 4 1 ++ shdrBytes 0 0 0 0 ++ shdrBytes 7 212 34 0 ++ shdrBytes 17 0 0 16 ++
    shdrBytes 26 0 0 0 ++
    [46, 115, 121, 109, 116, 97, 0] ++
    [46, 115, 104, 115, 116, 114, 116, 97, 98, 0] ++
    [46, 115, 121, 109, 116, 97, 98, 50, 0] ++
    [46, 100, 121, 110, 115, 116, 114, 0]

/-- Section `k` is the last of the sections named `lit`. -/
def IsLastNamed (img lit : List Nat) (k : Nat) : Prop :=
  k < e_shnum img ∧ sectionName img k = some lit ∧
    ∀ j, j < e_shnum img → k < j → sectionName img j ≠ some lit

instance (img lit : List Nat) (k : Nat) : Decidable (IsLastNamed img lit k) := by
  unfold IsLastNamed; infer_instance

/-! ## The reads of one field -/

/-- The offset and the width of a read of the field `fld`. -/
def Event.readOf (fld : Field) : Event → Option (Nat × Nat)
  | .read f off len => if f = fld then some (off, len) else none
  | _ => none

/-- The run ends with value `x` and its reads of the field `fld` are `offs`, offset and width,
in this order. -/
def Step.Reads {α : Type} (s : Step α) (fld : Field) (x : α) (offs : List (Nat × Nat)) : Prop :=
  s.val = .ok x ∧ s.log.filterMap (Event.readOf fld) = offs

/-- The end of a read of a field of a symbol entry: the offset after its last byte. -/
def Event.symEnd? : Event → Option Nat
  | .read .st_info off len => some (off + len)
  | .read .st_name off len => some (off + len)
  | .read .st_shndx off len => some (off + len)
  | .read .st_value off len => some (off + len)
  | _ => none

/-- The file `libfoo` with a second section named `.symtab`, section 3, whose table gives `foo`
the value 0x2222 where the table of section 2 gives 0x1111: the header, five section headers at
52, the section names at 252, the two tables at 279 and 311, the symbol names at 343. -/
def libTwoSymtabs : List Nat :=
  ehdrBytes ELFMAG 52 5 1 ++ shdrBytes 0 0 0 0 ++ shdrBytes 1 252 27 0 ++
    shdrBytes 11 279 32 16 ++ shdrBytes 11 311 32 16 ++ shdrBytes 19 343 5 0 ++
    shstrtabBytes ++
    symBytes 0 0 0 0 0 0 ++ symBytes 1 0x1111 0 0x12 0 5 ++
    symBytes 0 0 0 0 0 0 ++ symBytes 1 0x2222 0 0x12 0 5 ++
    [0, 102, 111, 111, 0]

/-- The file `libfoo` with `sh_entsize = 15` and `sh_size = 29` in the header of `.symtab`. -/
def libOddEntsize : List Nat :=
  ehdrBytes ELFMAG 52 4 1 ++ shdrBytes 0 0 0 0 ++ shdrBytes 1 212 27 0 ++
    shdrBytes 11 239 29 15 ++ shdrBytes 19 287 9 0 ++
    shstrtabBytes ++ fooSyms.flatten ++ fooNames

/-- The file `libfoo` with `sh_size = 16` and `sh_entsize = 8` in the header of `.symtab`: two
declared entries of 8 bytes. -/
def libHalfEntsize : List Nat :=
  ehdrBytes ELFMAG 52 4 1 ++ shdrBytes 0 0 0 0 ++ shdrBytes 1 212 27 0 ++
    shdrBytes 11 239 16 8 ++ shdrBytes 19 287 9 0 ++
    shstrtabBytes ++ fooSyms.flatten ++ fooNames

/-! ## Two files under the same run -/

/-- The host `h` with the bytes `img` in every file it opens. -/
def Host.withFile {V : Type} (h : Host V) (img : List Nat) : Host V :=
  { h with openFile := fun name => (h.openFile name).map (fun _ => img) }

/-- Two files agree on a read: the field has the same value in both; for `st_info`, of which
the source uses `ELF32_ST_TYPE` only, the same low four bits. -/
def Agree (img1 img2 : List Nat) : Event → Prop
  | .read f off len =>
    if f = .st_info then le img1 off len % 16 = le img2 off len % 16
    else le img1 off len = le img2 off len
  | _ => True

/-- Provided every effect of the run `s1` satisfies `P`, the run `s2` is the run `s1`: same
effects, same end. -/
def Step.SameIf {α : Type} (P : Event → Prop) (s2 s1 : Step α) : Prop :=
  (∀ e ∈ s1.log, P e) → s2 = s1

/-- The read covers the byte at offset `o` of the file. -/
def Event.covers (o : Nat) : Event → Prop
  | .read _ off len => off ≤ o ∧ o < off + len
  | _ => False

instance (o : Nat) (e : Event) : Decidable (e.covers o) := by
  cases e <;> unfold Event.covers <;> infer_instance

/-- The field a read is a read of. -/
def Event.field? : Event → Option Field
  | .read f _ _ => some f
  | _ => none

/-- A file whose `.strtab` header has `sh_offset = 0`, so that the symbol names are taken from
the file header: the one defined symbol, a function at 0x1000, has `st_name = 4`, the offset of
`e_ident[EI_CLASS]`, which is `cls` here. The next bytes of the header are 1, 1, 0. -/
def libClassName (cls : Nat) : List Nat :=
  (ehdrBytes ELFMAG 52 4 1 ++ shdrBytes 0 0 0 0 ++ shdrBytes 1 212 27 0 ++
    shdrBytes 11 239 32 16 ++ shdrBytes 19 0 8 0 ++ shstrtabBytes ++
    symBytes 0 0 0 0 0 0 ++ symBytes 4 0x1000 0 0x12 0 5).set 4 cls

/-- A file whose `.strtab` header has the `sh_offset` of `.symtab`, 239, so that the symbol
names are taken from the symbol table: the one defined symbol, a function at 0x1000, has
`st_name = 40`, the offset of `st_size` of entry 2 in the table; entry 2 is undefined and has
`st_size = size`. -/
def libOverlap (size : Nat) : List Nat :=
  ehdrBytes ELFMAG 52 4 1 ++ shdrBytes 0 0 0 0 ++ shdrBytes 1 212 27 0 ++
    shdrBytes 11 239 48 16 ++ shdrBytes 19 239 48 0 ++ shstrtabBytes ++
    symBytes 0 0 0 0 0 0 ++ symBytes 40 0x1000 0 0x12 0 5 ++ symBytes 0 0 size 0 0 0

/-- The file `libfoo` with `foo` made a weak symbol of size 7 and `st_other = 2`, and `und` a
local one. -/
def libfooWeak : List Nat :=
  elfFile ELFMAG 16
    [symBytes 0 0 0 0 0 0, symBytes 1 0x1000 7 0x22 2 5, symBytes 5 0 0 0x02 0 0] fooNames

/-- The file `libOverlap` with the bytes of "foo" as `st_size` of entry 2. -/
def libOverlapFoo : List Nat := libOverlap 0x6f6f66

/-- The file `libOverlap` with the bytes of "bar" as `st_size` of entry 2. -/
def libOverlapBar : List Nat := libOverlap 0x726162

/-- Offset of the class byte in `e_ident` (`elf.h`); the source does not name it. -/
def EI_CLASS : Nat := 4

/-- Class of a 32-bit object (`elf.h`). -/
def ELFCLASS32 : Nat := 1

/-- Class of a 64-bit object (`elf.h`). -/
def ELFCLASS64 : Nat := 2

/-! ## Where the reads start -/

/-- The read starts at file offset `lo` or later. -/
def Event.beyond (lo : Nat) : Event → Prop
  | .read _ off _ => lo ≤ off
  | _ => True

/-- Every read of the run starts at file offset `lo` or later. -/
def Step.Beyond {α : Type} (s : Step α) (lo : Nat) : Prop := ∀ e ∈ s.log, e.beyond lo

/-- Nothing that the headers of the file locate starts before file offset `lo`. Either the file
header names no section table (`e_shoff = 0` or `e_shstrndx = SHN_UNDEF`), or the section
headers are in bounds, the section header table and the section-header string table start at
`lo` or later, and, if both `.symtab` and `.strtab` are present, the image is well formed and
the symbol table and the string table start at `lo` or later. -/
def TablesFrom (lo : Nat) (img : List Nat) : Prop :=
  (e_shoff img = 0 ∨ e_shstrndx img = SHN_UNDEF) ∨
    (SectionsOk img ∧ lo ≤ e_shoff img ∧ lo ≤ sh_offset img (e_shstrndx img) ∧
      ∀ a b, lastNamed img dotSymtab (e_shnum img) = some a →
        lastNamed img dotStrtab (e_shnum img) = some b →
        WellFormed img a b ∧ lo ≤ sh_offset img a ∧ lo ≤ sh_offset img b)

/-! ## Runs of the building blocks -/

theorem runs_pure {α : Type} (size : Nat) (fs : List Field) (x : α) :
    (pure x : Step α).Runs size fs x [] :=
  ⟨rfl, fun _ he => (List.not_mem_nil _ he).elim, rfl⟩

theorem runs_bind {α β : Type} {s : Step α} {f : α → Step β} {size : Nat} {fs : List Field}
    {a : α} {b : β} {es1 es2 : List Nat} (h1 : s.Runs size fs a es1)
    (h2 : (f a).Runs size fs b es2) : (s >>= f).Runs size fs b (es1 ++ es2) := by
  obtain ⟨hv1, hl1, he1⟩ := h1
  obtain ⟨hv2, hl2, he2⟩ := h2
  have hb : (s >>= f) = ⟨s.log ++ (f a).log, (f a).val⟩ := by
    show Step.andThen s f = _
    unfold Step.andThen
    rw [hv1]
  rw [hb]
  refine ⟨hv2, ?_, ?_⟩
  · intro e he
    rcases List.mem_append.1 he with h | h
    · exact hl1 e h
    · exact hl2 e h
  · show List.filterMap Event.entry? (s.log ++ (f a).log) = es1 ++ es2
    rw [List.filterMap_append]
    exact congrArg₂ (· ++ ·) he1 he2

theorem runs_then {α β : Type} {s : Step α} {f : α → Step β} {size : Nat} {fs : List Field}
    {a : α} {b : β} {es : List Nat} (h1 : s.Runs size fs a [])
    (h2 : (f a).Runs size fs b es) : (s >>= f).Runs size fs b es :=
  runs_bind h1 h2

theorem runs_cast {α : Type} {s : Step α} {size : Nat} {fs : List Field} {x y : α}
    {es es' : List Nat} (h : s.Runs size fs x es) (hx : x = y) (he : es = es') :
    s.Runs size fs y es' := by
  subst hx; subst he; exact h

theorem runs_emit {size : Nat} {fs : List Field} (e : Event) (he : e.allowed size fs)
    (hn : e.entry? = none) : (emit e).Runs size fs () [] := by
  refine ⟨rfl, ?_, ?_⟩
  · intro e' he'
    have : e' = e := by simpa [emit] using he'
    rw [this]; exact he
  · show List.filterMap Event.entry? [e] = []
    simp [List.filterMap_cons, hn]

theorem runs_load (img : List Nat) (f : Field) (p len : Nat) (fs : List Field)
    (hb : p + len ≤ img.length) (hf : f ∈ fs) (hn : f ≠ .st_info) :
    (load img f p len).Runs img.length fs (le img p len) [] := by
  refine ⟨?_, ?_, ?_⟩
  · simp [load, hb]
  · intro e he
    have : e = .read f p len := by simpa [load] using he
    rw [this]; exact ⟨hb, hf⟩
  · show List.filterMap Event.entry? [.read f p len] = []
    cases f <;> simp_all [Event.entry?]

theorem runs_load_info (img : List Nat) (p len : Nat) (fs : List Field)
    (hb : p + len ≤ img.length) (hf : Field.st_info ∈ fs) :
    (load img .st_info p len).Runs img.length fs (le img p len) [p] := by
  refine ⟨?_, ?_, ?_⟩
  · simp [load, hb]
  · intro e he
    have : e = .read .st_info p len := by simpa [load] using he
    rw [this]; exact ⟨hb, hf⟩
  · show List.filterMap Event.entry? [.read .st_info p len] = [p]
    simp [Event.entry?]

theorem ptr_eq {W p o : Nat} (h : p + o < 2 ^ W) : ptr W p o = p + o :=
  Nat.mod_eq_of_lt h

theorem ptr_base {W x o : Nat} (h : x + o < 2 ^ W) : ptr W (ptr W 0 x) o = x + o := by
  unfold ptr
  rw [Nat.zero_add, Nat.mod_add_mod]
  exact Nat.mod_eq_of_lt h

theorem ptr_base_field {W x o c : Nat} (h : x + o + c < 2 ^ W) :
    ptr W (ptr W (ptr W 0 x) o) c = x + o + c := by
  unfold ptr
  rw [Nat.zero_add, Nat.mod_add_mod, Nat.add_assoc, Nat.mod_add_mod, ← Nat.add_assoc]
  exact Nat.mod_eq_of_lt h

theorem le_one (img : List Nat) (p : Nat) : le img p 1 = byteAt img p := by
  simp [le]

/-- A terminated string starts inside the file, and is either empty or a byte followed by a
terminated string. -/
theorem stringAt_cases {img : List Nat} {p : Nat} {s : List Nat} (h : stringAt img p = some s) :
    p < img.length ∧ ((byteAt img p = 0 ∧ s = []) ∨
      (byteAt img p ≠ 0 ∧ ∃ t, s = byteAt img p :: t ∧ stringAt img (p + 1) = some t)) := by
  unfold stringAt at h
  by_cases hp : p < img.length
  · refine ⟨hp, ?_⟩
    rw [List.drop_eq_getElem_cons hp] at h
    have hb : byteAt img p = img[p] % 256 := by
      unfold byteAt; rw [List.getD_eq_getElem img 0 hp]
    rw [hb]
    unfold strAt at h
    by_cases hz : img[p] % 256 = 0
    · left
      rw [if_pos hz] at h
      exact ⟨hz, (Option.some.inj h).symm⟩
    · right
      rw [if_neg hz] at h
      refine ⟨hz, ?_⟩
      cases ht : strAt (List.drop (p + 1) img) with
      | none => rw [ht] at h; simp at h
      | some t =>
        rw [ht] at h
        exact ⟨t, (Option.some.inj h).symm, ht⟩
  · rw [List.drop_eq_nil_of_le (Nat.le_of_not_lt hp)] at h
    simp [strAt] at h

theorem runs_strcmp (img : List Nat) (fs : List Field) (hfs : Field.section_name ∈ fs) :
    ∀ (lit : List Nat), (∀ c ∈ lit, c ≠ 0) → ∀ (p : Nat) (s : List Nat),
      stringAt img p = some s →
      (strcmp img p lit).Runs img.length fs (decide (s = lit)) [] := by
  intro lit
  induction lit with
  | nil =>
    intro _ p s hs
    obtain ⟨hp, hcase⟩ := stringAt_cases hs
    unfold strcmp
    refine runs_cast (runs_bind (runs_load img .section_name p 1 fs (by omega) hfs (by decide))
      (runs_pure _ _ _)) ?_ rfl
    rw [le_one]
    rcases hcase with ⟨hz, hs'⟩ | ⟨hz, t, hs', _⟩
    · simp [hz, hs']
    · simp [hz, hs']
  | cons l ls ih =>
    intro hlit p s hs
    obtain ⟨hp, hcase⟩ := stringAt_cases hs
    have hl : l ≠ 0 := hlit l (List.mem_cons_self _ _)
    unfold strcmp
    refine runs_then (runs_load img .section_name p 1 fs (by omega) hfs (by decide))
      (b := decide (s = l :: ls)) ?_
    rw [le_one]
    rcases hcase with ⟨hz, hs'⟩ | ⟨hz, t, hs', ht⟩
    · have hne : ¬ byteAt img p = l := by rw [hz]; exact fun h => hl h.symm
      simp only [hne, if_false]
      refine runs_cast (runs_pure _ _ _) ?_ rfl
      simp [hs']
    · by_cases hc : byteAt img p = l
      · simp only [hc, if_true]
        refine runs_cast (ih (fun c hc' => hlit c (List.mem_cons_of_mem _ hc')) (p + 1) t ht)
          ?_ rfl
        simp [hs', hc]
      · simp only [hc, if_false]
        refine runs_cast (runs_pure _ _ _) ?_ rfl
        simp [hs', hc]

theorem runs_cstrFrom (size : Nat) (fs : List Field) (hfs : Field.sym_name ∈ fs) :
    ∀ (rest : List Nat) (p : Nat) (s : List Nat), strAt rest = some s →
      p + rest.length ≤ size → (cstrFrom rest p).Runs size fs s [] := by
  intro rest
  induction rest with
  | nil => intro p s hs; simp [strAt] at hs
  | cons b rest ih =>
    intro p s hs hlen
    have hlen' : p + 1 + rest.length ≤ size := by simp at hlen; omega
    have hal : (Event.read .sym_name p 1).allowed size fs := ⟨by simp at hlen; omega, hfs⟩
    unfold strAt at hs
    unfold cstrFrom
    by_cases hz : b % 256 = 0
    · rw [if_pos hz] at hs
      rw [if_pos hz]
      have := runs_emit (Event.read .sym_name p 1) hal rfl
      refine ⟨?_, this.2.1, this.2.2⟩
      rw [← Option.some.inj hs]
    · rw [if_neg hz] at hs
      rw [if_neg hz]
      cases ht : strAt rest with
      | none => rw [ht] at hs; simp at hs
      | some t =>
        rw [ht] at hs
        refine runs_cast (runs_bind (runs_emit (Event.read .sym_name p 1) hal rfl)
          (runs_bind (ih (p + 1) t ht hlen') (runs_pure _ _ _))) ?_ rfl
        exact Option.some.inj hs

theorem runs_cstring (img : List Nat) (fs : List Field) (hfs : Field.sym_name ∈ fs) (p : Nat)
    (s : List Nat) (hs : stringAt img p = some s) :
    (cstring img p).Runs img.length fs s [] := by
  have hp := (stringAt_cases hs).1
  refine runs_cstrFrom img.length fs hfs (img.drop p) p s hs ?_
  rw [List.length_drop]; omega

/-! ## The section scan -/

theorem SectionsOk.shdr_bound {img : List Nat} (hok : SectionsOk img) {k : Nat}
    (hk : k < e_shnum img) : shdr img k + 40 ≤ img.length := by
  have h := hok.headers
  have : 40 * (k + 1) ≤ 40 * e_shnum img := Nat.mul_le_mul_left 40 hk
  unfold shdr; omega

theorem dotSymtab_ne_dotStrtab : dotSymtab ≠ dotStrtab := by decide

theorem dotSymtab_nonzero : ∀ c ∈ dotSymtab, c ≠ 0 := by decide

theorem dotStrtab_nonzero : ∀ c ∈ dotStrtab, c ≠ 0 := by decide

theorem lastNamed_lt (img lit : List Nat) :
    ∀ (n k : Nat), lastNamed img lit n = some k → k < n := by
  intro n
  induction n with
  | zero => intro k h; simp [lastNamed] at h
  | succ n ih =>
    intro k h
    unfold lastNamed at h
    by_cases hn : sectionName img n = some lit
    · rw [if_pos hn] at h
      have := Option.some.inj h
      omega
    · rw [if_neg hn] at h
      have := ih k h
      omega

theorem runs_sections (W : Nat) (img : List Nat) (fs : List Field) (hfit : img.length < 2 ^ W)
    (hok : SectionsOk img) (h1 : Field.sh_name ∈ fs) (h2 : Field.section_name ∈ fs) :
    ∀ (n i : Nat), i + n = e_shnum img →
      (dumpSymbols_sections W img (ptr W 0 (e_shoff img))
        (ptr W 0 (sh_offset img (e_shstrndx img))) n i
        ((lastNamed img dotSymtab i).map (shdr img))
        ((lastNamed img dotStrtab i).map (shdr img))).Runs img.length fs
        ((lastNamed img dotSymtab (e_shnum img)).map (shdr img),
          (lastNamed img dotStrtab (e_shnum img)).map (shdr img)) [] := by
  intro n
  induction n with
  | zero =>
    intro i hi
    have hi' : i = e_shnum img := by omega
    subst hi'
    unfold dumpSymbols_sections
    exact runs_pure _ _ _
  | succ n ih =>
    intro i hi
    have hik : i < e_shnum img := by omega
    have hb := hok.shdr_bound hik
    obtain ⟨s, hs⟩ := Option.isSome_iff_exists.1 (hok.names i hik)
    have hs' : stringAt img (sh_offset img (e_shstrndx img) + sh_name img i) = some s := hs
    have hp := (stringAt_cases hs').1
    have hhdr : ptr W (ptr W 0 (e_shoff img)) (40 * i) = shdr img i :=
      ptr_base (by unfold shdr at hb; omega)
    have hhdr0 : ptr W (shdr img i) 0 = shdr img i := ptr_eq (by omega)
    have hnm : ptr W (ptr W 0 (sh_offset img (e_shstrndx img))) (sh_name img i)
        = sh_offset img (e_shstrndx img) + sh_name img i := ptr_base (by omega)
    have ih' := ih (i + 1) (by omega)
    unfold dumpSymbols_sections
    simp only [hhdr, hhdr0]
    refine runs_then (runs_load img .sh_name (shdr img i) 4 fs (by omega) h1 (by decide))
      (runs_then (a := decide (s = dotSymtab)) ?_ ?_)
    · show (strcmp img (ptr W (ptr W 0 (sh_offset img (e_shstrndx img))) (sh_name img i))
        dotSymtab).Runs img.length fs (decide (s = dotSymtab)) []
      rw [hnm]
      exact runs_strcmp img fs h2 dotSymtab dotSymtab_nonzero _ s hs'
    · by_cases hsym : s = dotSymtab
      · have e1 : lastNamed img dotSymtab (i + 1) = some i := by
          unfold lastNamed; rw [if_pos (by rw [← hsym]; exact hs)]
        have e2 : lastNamed img dotStrtab (i + 1) = lastNamed img dotStrtab i := by
          conv => lhs; unfold lastNamed
          rw [if_neg]
          intro hh
          rw [hs] at hh
          exact dotSymtab_ne_dotStrtab (hsym.symm.trans (Option.some.inj hh))
        rw [e1, e2] at ih'
        simpa [hsym] using ih'
      · have e1 : lastNamed img dotSymtab (i + 1) = lastNamed img dotSymtab i := by
          conv => lhs; unfold lastNamed
          rw [if_neg]
          intro hh
          rw [hs] at hh
          exact hsym (Option.some.inj hh)
        simp only [hsym, decide_False, Bool.false_eq_true, if_false]
        refine runs_then (a := decide (s = dotStrtab)) ?_ ?_
        · show (strcmp img (ptr W (ptr W 0 (sh_offset img (e_shstrndx img))) (sh_name img i))
            dotStrtab).Runs img.length fs (decide (s = dotStrtab)) []
          rw [hnm]
          exact runs_strcmp img fs h2 dotStrtab dotStrtab_nonzero _ s hs'
        · by_cases hstr : s = dotStrtab
          · have e2 : lastNamed img dotStrtab (i + 1) = some i := by
              unfold lastNamed; rw [if_pos (by rw [← hstr]; exact hs)]
            rw [e1, e2] at ih'
            simpa [hstr] using ih'
          · have e2 : lastNamed img dotStrtab (i + 1) = lastNamed img dotStrtab i := by
              conv => lhs; unfold lastNamed
              rw [if_neg]
              intro hh
              rw [hs] at hh
              exact hstr (Option.some.inj hh)
            rw [e1, e2] at ih'
            simpa [hstr] using ih'

/-! ## The symbol loop -/

theorem symDict_succ_skip {V : Type} (W : Nat) (build : Nat → Option V)
    (setOk : List Nat → Bool) (l_addr : Nat) (img : List Nat) (a b n : Nat)
    (hp : ¬ passes img a n) :
    symDict W build setOk l_addr img a b (n + 1) = symDict W build setOk l_addr img a b n := by
  conv => lhs; unfold symDict
  rw [if_neg hp]

theorem symDict_succ_none {V : Type} (W : Nat) (build : Nat → Option V)
    (setOk : List Nat → Bool) (l_addr : Nat) (img : List Nat) (a b n : Nat)
    (hb : build (symAddr W l_addr img a n) = none) :
    symDict W build setOk l_addr img a b (n + 1) = symDict W build setOk l_addr img a b n := by
  conv => lhs; unfold symDict
  rw [hb]
  split <;> rfl

theorem symDict_succ_some {V : Type} (W : Nat) (build : Nat → Option V)
    (setOk : List Nat → Bool) (l_addr : Nat) (img : List Nat) (a b n : Nat) (v : V)
    (name : List Nat) (hp : passes img a n)
    (hb : build (symAddr W l_addr img a n) = some v) (hn : symName img a b n = some name)
    (hk : setOk name = true) :
    symDict W build setOk l_addr img a b (n + 1)
      = PyDict_SetItemString (symDict W build setOk l_addr img a b n) name v := by
  conv => lhs; unfold symDict
  rw [if_pos hp, hb, hn]
  simp only [hk, if_true]

theorem symDict_succ_reject {V : Type} (W : Nat) (build : Nat → Option V)
    (setOk : List Nat → Bool) (l_addr : Nat) (img : List Nat) (a b n : Nat) (name : List Nat)
    (hn : symName img a b n = some name) (hk : ¬ setOk name = true) :
    symDict W build setOk l_addr img a b (n + 1) = symDict W build setOk l_addr img a b n := by
  conv => lhs; unfold symDict
  by_cases hp : passes img a n
  · rw [if_pos hp, hn]
    cases build (symAddr W l_addr img a n) with
    | none => rfl
    | some v =>
      show (if setOk name = true then _ else _) = _
      rw [if_neg hk]
  · rw [if_neg hp]

theorem WellFormed.entry_bound {img : List Nat} {a b : Nat} (hwf : WellFormed img a b) {i : Nat}
    (hi : i < symbol_count img a) : symOff img a i + 16 ≤ img.length := by
  have h := hwf.entries
  have : 16 * (i + 1) ≤ 16 * symbol_count img a := Nat.mul_le_mul_left 16 hi
  unfold symOff; omega

theorem runs_symbols {V : Type} (W : Nat) (build : Nat → Option V) (setOk : List Nat → Bool)
    (l_addr : Nat) (img : List Nat) (a b : Nat) (fs : List Field) (hfit : img.length < 2 ^ W)
    (hwf : WellFormed img a b)
    (hfs : ∀ f ∈ [Field.st_info, .st_name, .st_shndx, .st_value, .sym_name], f ∈ fs) :
    ∀ (n i : Nat), i + n = symbol_count img a →
      (dumpSymbols_symbols W build setOk l_addr img (ptr W 0 (sh_offset img a))
        (ptr W 0 (sh_offset img b)) n i (symDict W build setOk l_addr img a b i)).Runs img.length fs
        (symDict W build setOk l_addr img a b (symbol_count img a))
        ((List.range' i n).map (fun j => symOff img a j + 12)) := by
  intro n
  induction n with
  | zero =>
    intro i hi
    have hi' : i = symbol_count img a := by omega
    subst hi'
    unfold dumpSymbols_symbols
    exact runs_pure _ _ _
  | succ n ih =>
    intro i hi
    have hik : i < symbol_count img a := by omega
    have hb := hwf.entry_bound hik
    have h12 : ptr W (ptr W (ptr W 0 (sh_offset img a)) (16 * i)) 12 = symOff img a i + 12 :=
      ptr_base_field (by unfold symOff at hb; omega)
    have h0 : ptr W (ptr W (ptr W 0 (sh_offset img a)) (16 * i)) 0 = symOff img a i :=
      ptr_base_field (by unfold symOff at hb; omega)
    have h14 : ptr W (ptr W (ptr W 0 (sh_offset img a)) (16 * i)) 14 = symOff img a i + 14 :=
      ptr_base_field (by unfold symOff at hb; omega)
    have h4 : ptr W (ptr W (ptr W 0 (sh_offset img a)) (16 * i)) 4 = symOff img a i + 4 :=
      ptr_base_field (by unfold symOff at hb; omega)
    have ih' := ih (i + 1) (by omega)
    unfold dumpSymbols_symbols
    simp only [h12, h0, h14, h4]
    refine runs_cast (runs_bind (runs_load_info img (symOff img a i + 12) 1 fs (by omega)
      (hfs _ (by simp))) (runs_then (runs_load img .st_name (symOff img a i) 4 fs (by omega)
      (hfs _ (by simp)) (by decide)) (runs_then (runs_load img .st_shndx (symOff img a i + 14) 2
      fs (by omega) (hfs _ (by simp)) (by decide)) ?_))) rfl
      (by rw [List.range'_succ]; rfl)
    dsimp only
    by_cases hp : passes img a i
    · have hcond : ¬ (le img (symOff img a i + 14) 2 = SHN_UNDEF ∨
          (ELF32_ST_TYPE (le img (symOff img a i + 12) 1) ≠ STT_FUNC ∧
            ELF32_ST_TYPE (le img (symOff img a i + 12) 1) ≠ STT_OBJECT)) := by
        unfold passes st_shndx st_info at hp
        tauto
      rw [if_neg hcond]
      refine runs_then (runs_emit .linkMap trivial rfl) (runs_then (runs_load img .st_value
        (symOff img a i + 4) 4 fs (by omega) (hfs _ (by simp)) (by decide)) ?_)
      dsimp only
      have hv : (l_addr + le img (symOff img a i + 4) 4) % 2 ^ W = symAddr W l_addr img a i := rfl
      rw [hv]
      cases hbv : build (symAddr W l_addr img a i) with
      | none =>
        dsimp only
        rw [symDict_succ_none W build setOk l_addr img a b i hbv] at ih'
        exact ih'
      | some v =>
        dsimp only
        obtain ⟨name, hname⟩ := Option.isSome_iff_exists.1 (hwf.symNames i hik hp)
        have hname' : stringAt img (sh_offset img b + st_name img a i) = some name := hname
        have hnp := (stringAt_cases hname').1
        have hptr : ptr W (ptr W 0 (sh_offset img b)) (le img (symOff img a i) 4)
            = sh_offset img b + st_name img a i := ptr_base (by unfold st_name at hnp; omega)
        rw [hptr]
        refine runs_then (runs_cstring img fs (hfs _ (by simp)) _ name hname') ?_
        by_cases hk : setOk name = true
        · rw [if_pos hk]
          rw [symDict_succ_some W build setOk l_addr img a b i v name hp hbv hname hk] at ih'
          exact ih'
        · rw [if_neg hk]
          rw [symDict_succ_reject W build setOk l_addr img a b i name hname hk] at ih'
          exact ih'
    · have hcond : le img (symOff img a i + 14) 2 = SHN_UNDEF ∨
          (ELF32_ST_TYPE (le img (symOff img a i + 12) 1) ≠ STT_FUNC ∧
            ELF32_ST_TYPE (le img (symOff img a i + 12) 1) ≠ STT_OBJECT) := by
        unfold passes st_shndx st_info at hp
        tauto
      rw [if_pos hcond]
      rw [symDict_succ_skip W build setOk l_addr img a b i hp] at ih'
      exact ih'

/-! ## The run on the mapping -/

/-- The reads up to the end of the section scan, for headers that are in bounds. -/
theorem runs_scan (W : Nat) (img : List Nat) (fs : List Field) (hfit : img.length < 2 ^ W)
    (hok : SectionsOk img) (hfs : ∀ f ∈ [Field.e_shoff, .e_shstrndx, .e_shnum, .sh_offset,
      .sh_name, .section_name], f ∈ fs) {β : Type}
    (k : Option Nat × Option Nat → Step β) (x : β) (es : List Nat)
    (hk : (k ((lastNamed img dotSymtab (e_shnum img)).map (shdr img),
      (lastNamed img dotStrtab (e_shnum img)).map (shdr img))).Runs img.length fs x es) :
    (do
      let e_shoff ← load img .e_shoff 32 4
      let sections := ptr W 0 e_shoff
      let section_count ← load img .e_shnum 48 2
      let e_shstrndx ← load img .e_shstrndx 50 2
      let shstrtab_hdr := ptr W sections (40 * e_shstrndx)
      let sh_offset ← load img .sh_offset (ptr W shstrtab_hdr 16) 4
      let shstrtab := ptr W 0 sh_offset
      let found ← dumpSymbols_sections W img sections shstrtab section_count 0 none none
      k found : Step β).Runs img.length fs x es := by
  have hh := hok.header
  have hb := hok.shdr_bound hok.shstrtab
  have hptr : ptr W (ptr W (ptr W 0 (e_shoff img)) (40 * e_shstrndx img)) 16
      = shdr img (e_shstrndx img) + 16 := ptr_base_field (by unfold shdr at hb; omega)
  refine runs_then (runs_load img .e_shoff 32 4 fs (by omega) (hfs _ (by simp)) (by decide))
    (runs_then (runs_load img .e_shnum 48 2 fs (by omega) (hfs _ (by simp)) (by decide))
    (runs_then (runs_load img .e_shstrndx 50 2 fs (by omega) (hfs _ (by simp)) (by decide)) ?_))
  show (load img .sh_offset (ptr W (ptr W (ptr W 0 (e_shoff img)) (40 * e_shstrndx img)) 16) 4
    >>= _).Runs img.length fs x es
  rw [hptr]
  refine runs_then (runs_load img .sh_offset _ 4 fs (by omega) (hfs _ (by simp)) (by decide))
    (runs_then (runs_sections W img fs hfit hok (hfs _ (by simp)) (hfs _ (by simp))
      (e_shnum img) 0 (by omega)) hk)

/-- The check of line 104 lets pass a header with `e_shoff` and `e_shstrndx` set. -/
theorem runs_check (img : List Nat) (fs : List Field) (hh : 52 ≤ img.length)
    (h1 : e_shoff img ≠ 0) (h2 : e_shstrndx img ≠ SHN_UNDEF)
    (hfs : ∀ f ∈ [Field.e_shoff, .e_shstrndx], f ∈ fs) {β : Type}
    (k : Bool → Step β) (x : β) (es : List Nat) (hk : (k false).Runs img.length fs x es) :
    (do
      let e_shoff ← load img .e_shoff 32 4
      let malformed ←
        (if e_shoff = 0 then pure true
         else do
          let e_shstrndx ← load img .e_shstrndx 50 2
          pure (decide (e_shstrndx = SHN_UNDEF)) : Step Bool)
      k malformed : Step β).Runs img.length fs x es := by
  refine runs_then (runs_load img .e_shoff 32 4 fs (by omega) (hfs _ (by simp)) (by decide))
    (runs_then (a := false) ?_ hk)
  have h1' : ¬ le img 32 4 = 0 := h1
  rw [if_neg h1']
  refine runs_then (runs_load img .e_shstrndx 50 2 fs (by omega) (hfs _ (by simp)) (by decide))
    (runs_cast (runs_pure _ _ _) ?_ rfl)
  have h2' : ¬ le img 50 2 = SHN_UNDEF := h2
  simp [h2']

/-- A header with `e_shoff = 0` or `e_shstrndx = SHN_UNDEF`: `None`, after reading these two
fields at most. -/
theorem runs_mapped_noSections {V : Type} (W : Nat) (build : Nat → Option V)
    (setOk : List Nat → Bool) (dictOk : Bool) (l_addr : Nat) (img : List Nat) (fs : List Field)
    (hh : 52 ≤ img.length)
    (hz : e_shoff img = 0 ∨ e_shstrndx img = SHN_UNDEF)
    (hfs : ∀ f ∈ [Field.e_shoff, .e_shstrndx], f ∈ fs) :
    (dumpSymbols_mapped W build setOk dictOk l_addr img).Runs img.length fs .None [] := by
  unfold dumpSymbols_mapped
  refine runs_then (runs_load img .e_shoff 32 4 fs (by omega) (hfs _ (by simp)) (by decide))
    (runs_then (a := true) ?_ ?_)
  · by_cases h1 : le img 32 4 = 0
    · rw [if_pos h1]; exact runs_pure _ _ _
    · rw [if_neg h1]
      have h2 : le img 50 2 = SHN_UNDEF := by
        rcases hz with h | h
        · exact absurd h h1
        · exact h
      refine runs_then (runs_load img .e_shstrndx 50 2 fs (by omega) (hfs _ (by simp))
        (by decide)) (runs_cast (runs_pure _ _ _) ?_ rfl)
      simp [h2]
  · simp only [if_true]
    exact runs_then (runs_emit _ trivial rfl) (runs_pure _ _ _)

/-- Headers in bounds, but no `.symtab` or no `.strtab`: `None`, after the section scan. -/
theorem runs_mapped_stripped {V : Type} (W : Nat) (build : Nat → Option V)
    (setOk : List Nat → Bool) (dictOk : Bool) (l_addr : Nat) (img : List Nat) (fs : List Field)
    (hfit : img.length < 2 ^ W)
    (hok : SectionsOk img)
    (hno : lastNamed img dotSymtab (e_shnum img) = none ∨
      lastNamed img dotStrtab (e_shnum img) = none)
    (hfs : ∀ f ∈ [Field.e_shoff, .e_shstrndx, .e_shnum, .sh_offset, .sh_name, .section_name],
      f ∈ fs) :
    (dumpSymbols_mapped W build setOk dictOk l_addr img).Runs img.length fs .None [] := by
  unfold dumpSymbols_mapped
  refine runs_check img fs hok.header hok.shoff hok.shstrndx
    (fun f hf => hfs f (by simp at hf ⊢; tauto)) _ _ _ ?_
  simp only [Bool.false_eq_true, if_false]
  refine runs_scan W img fs hfit hok hfs _ _ _ ?_
  rcases hno with h | h
  · rw [h]
    cases lastNamed img dotStrtab (e_shnum img) <;>
      exact runs_then (runs_emit _ trivial rfl) (runs_pure _ _ _)
  · rw [h]
    cases lastNamed img dotSymtab (e_shnum img) <;>
      exact runs_then (runs_emit _ trivial rfl) (runs_pure _ _ _)

/-- A well-formed image: the dictionary of its symbols, every read inside the file, the
entries visited 16 bytes apart. -/
theorem runs_mapped_wellFormed {V : Type} (W : Nat) (build : Nat → Option V)
    (setOk : List Nat → Bool) (dictOk : Bool) (l_addr : Nat) (img : List Nat) (a b : Nat)
    (fs : List Field) (hfit : img.length < 2 ^ W)
    (hwf : WellFormed img a b) (hfs : ∀ f : Field, f ∈ fs) :
    (dumpSymbols_mapped W build setOk dictOk l_addr img).Runs img.length fs
      (if dictOk = true then .dict (symDict W build setOk l_addr img a b (symbol_count img a))
        else .None)
      (if dictOk = true then (List.range (symbol_count img a)).map (fun j => symOff img a j + 12)
        else []) := by
  have hok := hwf.sections
  have ha := hok.shdr_bound (lastNamed_lt img dotSymtab _ a hwf.symtab)
  have hb := hok.shdr_bound (lastNamed_lt img dotStrtab _ b hwf.strtab)
  have pa16 : ptr W (shdr img a) 16 = shdr img a + 16 := ptr_eq (by omega)
  have pa20 : ptr W (shdr img a) 20 = shdr img a + 20 := ptr_eq (by omega)
  have pa36 : ptr W (shdr img a) 36 = shdr img a + 36 := ptr_eq (by omega)
  have pb16 : ptr W (shdr img b) 16 = shdr img b + 16 := ptr_eq (by omega)
  unfold dumpSymbols_mapped
  refine runs_check img fs hok.header hok.shoff hok.shstrndx (fun f _ => hfs f) _ _ _ ?_
  simp only [Bool.false_eq_true, if_false]
  refine runs_scan W img fs hfit hok (fun f _ => hfs f) _ _ _ ?_
  rw [hwf.symtab, hwf.strtab]
  simp only [Option.map_some', pa16, pa20, pa36, pb16]
  refine runs_then (runs_load img .sh_offset _ 4 fs (by omega) (hfs _) (by decide))
    (runs_then (runs_load img .sh_offset _ 4 fs (by omega) (hfs _) (by decide))
    (runs_then (runs_load img .sh_size _ 4 fs (by omega) (hfs _) (by decide))
    (runs_then (runs_load img .sh_entsize _ 4 fs (by omega) (hfs _) (by decide)) ?_)))
  have hent : ¬ le img (shdr img a + 36) 4 = 0 := hwf.entsize
  rw [if_neg hent]
  cases dictOk with
  | false =>
    simp only [Bool.false_eq_true, if_false, if_true]
    exact runs_then (runs_emit _ trivial rfl) (runs_pure _ _ _)
  | true =>
    simp only [Bool.true_eq_false, if_false, if_true]
    have hloop := runs_symbols W build setOk l_addr img a b fs hfit hwf (fun f _ => hfs f)
      (symbol_count img a) 0 (by omega)
    rw [← List.range_eq_range'] at hloop
    refine runs_cast (runs_bind hloop (runs_then (runs_emit _ trivial rfl) (runs_pure _ _ _)))
      rfl (by simp)

/-! ## From the mapping to `dumpSymbols` -/

theorem dumpSymbols_of_maps {V : Type} (h : Host V) (g : List Nat) (szPath : List Nat)
    (dlmap : LinkMap) (img : List Nat) (hm : h.Maps szPath dlmap img) :
    dumpSymbols h g (some szPath) =
      ⟨mapEvents szPath dlmap img ++
        (dumpSymbols_mapped h.ptrBits (h.Py_BuildValue g) h.setItemOk h.PyDict_New
          dlmap.l_addr img).log,
        (dumpSymbols_mapped h.ptrBits (h.Py_BuildValue g) h.setItemOk h.PyDict_New
          dlmap.l_addr img).val⟩ := by
  obtain ⟨h1, h2, h3, h4, h5, h6, h7⟩ := hm
  have hc : ¬ (h.mmapOk = false ∨ img.length = 0 ∨ 2 ^ h.ptrBits ≤ img.length) := by
    rintro (hc | hc | hc)
    · rw [h5] at hc; cases hc
    · omega
    · exact absurd h7 (Nat.not_lt.2 hc)
  unfold dumpSymbols
  simp only [h1, h2, h3, h4, Bool.true_eq_false, if_false]
  rw [if_neg hc]
  rfl

theorem runs_dumpSymbols {V : Type} (h : Host V) (g : List Nat) (szPath : List Nat)
    (dlmap : LinkMap) (img : List Nat) (hm : h.Maps szPath dlmap img) (fs : List Field)
    (x : PyResult V) (es : List Nat)
    (hr : (dumpSymbols_mapped h.ptrBits (h.Py_BuildValue g) h.setItemOk h.PyDict_New dlmap.l_addr
      img).Runs img.length fs x es) :
    (dumpSymbols h g (some szPath)).Runs img.length fs x es := by
  rw [dumpSymbols_of_maps h g szPath dlmap img hm]
  obtain ⟨hv, hl, he⟩ := hr
  refine ⟨hv, ?_, ?_⟩
  · intro e hmem
    rcases List.mem_append.1 hmem with hpre | hrest
    · simp only [mapEvents, List.mem_cons, List.mem_singleton, List.not_mem_nil, or_false] at hpre
      rcases hpre with r | r | r | r | r | r | r <;> rw [r] <;> trivial
    · exact hl e hrest
  · show List.filterMap Event.entry? (mapEvents szPath dlmap img ++ _) = es
    rw [List.filterMap_append]
    exact he

theorem runs_wellFormed {V : Type} (h : Host V) (g szPath : List Nat) (dlmap : LinkMap)
    (img : List Nat) (a b : Nat) (hm : h.Maps szPath dlmap img) (hwf : WellFormed img a b) :
    (dumpSymbols h g (some szPath)).Runs img.length Field.all
      (if h.PyDict_New = true then
        .dict (symDict h.ptrBits (h.Py_BuildValue g) h.setItemOk dlmap.l_addr img a b
          (symbol_count img a))
        else .None)
      (if h.PyDict_New = true then
        (List.range (symbol_count img a)).map (fun j => symOff img a j + 12)
        else []) :=
  runs_dumpSymbols h g szPath dlmap img hm Field.all _ _
    (runs_mapped_wellFormed h.ptrBits (h.Py_BuildValue g) h.setItemOk h.PyDict_New dlmap.l_addr
      img a b _ hm.2.2.2.2.2.2 hwf (fun f => by cases f <;> decide))

theorem runs_stripped {V : Type} (h : Host V) (g szPath : List Nat) (dlmap : LinkMap)
    (img : List Nat) (hm : h.Maps szPath dlmap img) (hok : SectionsOk img)
    (hno : lastNamed img dotSymtab (e_shnum img) = none ∨
      lastNamed img dotStrtab (e_shnum img) = none) :
    (dumpSymbols h g (some szPath)).Runs img.length
      [.e_shoff, .e_shstrndx, .e_shnum, .sh_offset, .sh_name, .section_name] .None [] :=
  runs_dumpSymbols h g szPath dlmap img hm _ _ _
    (runs_mapped_stripped h.ptrBits (h.Py_BuildValue g) h.setItemOk h.PyDict_New dlmap.l_addr
      img _ hm.2.2.2.2.2.2 hok hno (fun _ hf => hf))

theorem runs_noSections {V : Type} (h : Host V) (g szPath : List Nat) (dlmap : LinkMap)
    (img : List Nat) (hm : h.Maps szPath dlmap img) (hh : 52 ≤ img.length)
    (hz : e_shoff img = 0 ∨ e_shstrndx img = SHN_UNDEF) :
    (dumpSymbols h g (some szPath)).Runs img.length [.e_shoff, .e_shstrndx] .None [] :=
  runs_dumpSymbols h g szPath dlmap img hm _ _ _
    (runs_mapped_noSections h.ptrBits (h.Py_BuildValue g) h.setItemOk h.PyDict_New dlmap.l_addr
      img _ hh hz (fun _ hf => hf))

/-! ## The dictionary -/

theorem keys_set {V : Type} (d : List (List Nat × V)) (k : List Nat) (v : V) (n : List Nat) :
    n ∈ (PyDict_SetItemString d k v).map Prod.fst ↔ n = k ∨ n ∈ d.map Prod.fst := by
  induction d with
  | nil => simp [PyDict_SetItemString]
  | cons hd t ih =>
    obtain ⟨k', v'⟩ := hd
    unfold PyDict_SetItemString
    by_cases hk : k' = k
    · rw [if_pos hk]
      simp only [List.map_cons, List.mem_cons]
      subst hk
      tauto
    · rw [if_neg hk]
      simp only [List.map_cons, List.mem_cons, ih]
      tauto

theorem mem_set {V : Type} (d : List (List Nat × V)) (k : List Nat) (v : V) (n : List Nat)
    (w : V) (h : (n, w) ∈ PyDict_SetItemString d k v) : (n = k ∧ w = v) ∨ (n, w) ∈ d := by
  induction d with
  | nil =>
    simp only [PyDict_SetItemString, List.mem_singleton, Prod.mk.injEq] at h
    exact Or.inl h
  | cons hd t ih =>
    obtain ⟨k', v'⟩ := hd
    unfold PyDict_SetItemString at h
    by_cases hk : k' = k
    · rw [if_pos hk] at h
      rcases List.mem_cons.1 h with h | h
      · left
        simp only [Prod.mk.injEq] at h
        exact ⟨h.1.trans hk, h.2⟩
      · right; exact List.mem_cons_of_mem _ h
    · rw [if_neg hk] at h
      rcases List.mem_cons.1 h with h | h
      · right; rw [h]; exact List.mem_cons_self _ _
      · rcases ih h with h' | h'
        · exact Or.inl h'
        · right; exact List.mem_cons_of_mem _ h'

theorem get_set {V : Type} (d : List (List Nat × V)) (k : List Nat) (v : V) (n : List Nat) :
    PyDict_GetItemString (PyDict_SetItemString d k v) n
      = if k = n then some v else PyDict_GetItemString d n := by
  induction d with
  | nil => simp [PyDict_SetItemString, PyDict_GetItemString]
  | cons hd t ih =>
    obtain ⟨k', v'⟩ := hd
    unfold PyDict_SetItemString
    by_cases hk : k' = k
    · rw [if_pos hk]
      subst hk
      by_cases hn : k' = n
      · simp [PyDict_GetItemString, hn]
      · simp [PyDict_GetItemString, hn]
    · rw [if_neg hk]
      by_cases hn : k' = n
      · have : ¬ k = n := fun e => hk (hn.trans e.symm)
        simp [PyDict_GetItemString, hn, this]
      · simp [PyDict_GetItemString, hn, ih]

theorem symDict_keys {V : Type} (W : Nat) (build : Nat → Option V) (setOk : List Nat → Bool)
    (l_addr : Nat) (img : List Nat) (a b : Nat) (n : List Nat) : ∀ (N : Nat),
    n ∈ (symDict W build setOk l_addr img a b N).map Prod.fst ↔
      ∃ i, i < N ∧ passes img a i ∧ symName img a b i = some n ∧
        (build (symAddr W l_addr img a i)).isSome = true ∧ setOk n = true := by
  intro N
  induction N with
  | zero => simp [symDict]
  | succ N ih =>
    have step : (∃ i, i < N + 1 ∧ passes img a i ∧ symName img a b i = some n ∧
        (build (symAddr W l_addr img a i)).isSome = true ∧ setOk n = true) ↔
        ((passes img a N ∧ symName img a b N = some n ∧
          (build (symAddr W l_addr img a N)).isSome = true ∧ setOk n = true) ∨
          ∃ i, i < N ∧ passes img a i ∧ symName img a b i = some n ∧
            (build (symAddr W l_addr img a i)).isSome = true ∧ setOk n = true) := by
      constructor
      · rintro ⟨i, hi, hrest⟩
        rcases Nat.lt_succ_iff_lt_or_eq.1 hi with h | h
        · exact Or.inr ⟨i, h, hrest⟩
        · subst h; exact Or.inl hrest
      · rintro (h | ⟨i, hi, hrest⟩)
        · exact ⟨N, Nat.lt_succ_self _, h⟩
        · exact ⟨i, Nat.lt_succ_of_lt hi, hrest⟩
    rw [step, ← ih]
    by_cases hp : passes img a N
    · cases hb : build (symAddr W l_addr img a N) with
      | none =>
        rw [symDict_succ_none W build setOk l_addr img a b N hb]
        simp
      | some v =>
        cases hn : symName img a b N with
        | none =>
          have : symDict W build setOk l_addr img a b (N + 1)
              = symDict W build setOk l_addr img a b N := by
            conv => lhs; unfold symDict
            rw [if_pos hp, hb, hn]
          rw [this]; simp
        | some name =>
          by_cases hk : setOk name = true
          · rw [symDict_succ_some W build setOk l_addr img a b N v name hp hb hn hk, keys_set]
            constructor
            · rintro (h | h)
              · exact Or.inl ⟨hp, by rw [h], rfl, by rw [h]; exact hk⟩
              · exact Or.inr h
            · rintro (h | h)
              · exact Or.inl (Option.some.inj h.2.1).symm
              · exact Or.inr h
          · rw [symDict_succ_reject W build setOk l_addr img a b N name hn hk]
            constructor
            · exact Or.inr
            · rintro (h | h)
              · exact absurd (by rw [Option.some.inj h.2.1]; exact h.2.2.2) hk
              · exact h
    · rw [symDict_succ_skip W build setOk l_addr img a b N hp]
      simp [hp]

theorem symDict_mem {V : Type} (W : Nat) (build : Nat → Option V) (setOk : List Nat → Bool)
    (l_addr : Nat) (img : List Nat) (a b : Nat) (n : List Nat) (w : V) : ∀ (N : Nat),
    (n, w) ∈ symDict W build setOk l_addr img a b N →
      ∃ i, i < N ∧ passes img a i ∧ symName img a b i = some n ∧
        build (symAddr W l_addr img a i) = some w := by
  intro N
  induction N with
  | zero => intro h; simp [symDict] at h
  | succ N ih =>
    intro h
    have lift : (∃ i, i < N ∧ passes img a i ∧ symName img a b i = some n ∧
        build (symAddr W l_addr img a i) = some w) →
        ∃ i, i < N + 1 ∧ passes img a i ∧ symName img a b i = some n ∧
          build (symAddr W l_addr img a i) = some w := by
      rintro ⟨i, hi, hrest⟩
      exact ⟨i, Nat.lt_succ_of_lt hi, hrest⟩
    by_cases hp : passes img a N
    · cases hb : build (symAddr W l_addr img a N) with
      | none =>
        rw [symDict_succ_none W build setOk l_addr img a b N hb] at h
        exact lift (ih h)
      | some v =>
        cases hn : symName img a b N with
        | none =>
          have : symDict W build setOk l_addr img a b (N + 1)
              = symDict W build setOk l_addr img a b N := by
            conv => lhs; unfold symDict
            rw [if_pos hp, hb, hn]
          rw [this] at h
          exact lift (ih h)
        | some name =>
          by_cases hk : setOk name = true
          · rw [symDict_succ_some W build setOk l_addr img a b N v name hp hb hn hk] at h
            rcases mem_set _ _ _ _ _ h with ⟨h1, h2⟩ | h'
            · exact ⟨N, Nat.lt_succ_self _, hp, by rw [hn, h1], by rw [hb, h2]⟩
            · exact lift (ih h')
          · rw [symDict_succ_reject W build setOk l_addr img a b N name hn hk] at h
            exact lift (ih h)
    · rw [symDict_succ_skip W build setOk l_addr img a b N hp] at h
      exact lift (ih h)

theorem symDict_get {V : Type} (W : Nat) (build : Nat → Option V) (setOk : List Nat → Bool)
    (l_addr : Nat) (img : List Nat) (a b : Nat) (n : List Nat) (j : Nat) (w : V)
    (hp : passes img a j) (hn : symName img a b j = some n)
    (hb : build (symAddr W l_addr img a j) = some w) (hk : setOk n = true) :
    ∀ (N : Nat), j < N →
      (∀ i, j < i → i < N → ¬ (passes img a i ∧ symName img a b i = some n ∧
        (build (symAddr W l_addr img a i)).isSome = true)) →
      PyDict_GetItemString (symDict W build setOk l_addr img a b N) n = some w := by
  intro N
  induction N with
  | zero => intro h; omega
  | succ N ih =>
    intro hj hlast
    rcases Nat.lt_succ_iff_lt_or_eq.1 hj with hlt | heq
    · have hN := hlast N hlt (Nat.lt_succ_self _)
      have ih' := ih hlt (fun i h1 h2 => hlast i h1 (Nat.lt_succ_of_lt h2))
      by_cases hpN : passes img a N
      · cases hbN : build (symAddr W l_addr img a N) with
        | none =>
          rw [symDict_succ_none W build setOk l_addr img a b N hbN]; exact ih'
        | some v =>
          cases hnN : symName img a b N with
          | none =>
            have : symDict W build setOk l_addr img a b (N + 1)
                = symDict W build setOk l_addr img a b N := by
              conv => lhs; unfold symDict
              rw [if_pos hpN, hbN, hnN]
            rw [this]; exact ih'
          | some name =>
            have hne : ¬ name = n := by
              intro e
              exact hN ⟨hpN, by rw [hnN, e], by rw [hbN]; rfl⟩
            by_cases hkN : setOk name = true
            · rw [symDict_succ_some W build setOk l_addr img a b N v name hpN hbN hnN hkN,
                get_set, if_neg hne]
              exact ih'
            · rw [symDict_succ_reject W build setOk l_addr img a b N name hnN hkN]
              exact ih'
      · rw [symDict_succ_skip W build setOk l_addr img a b N hpN]; exact ih'
    · subst heq
      rw [symDict_succ_some W build setOk l_addr img a b j w n hp hb hn hk, get_set, if_pos rfl]

/-! ## The example files are what they are said to be -/

theorem exampleHost_maps (img : List Nat) (l_addr : Nat) (h0 : 0 < img.length)
    (h1 : img.length < 2 ^ 64) :
    (exampleHost img l_addr).Maps examplePath ⟨l_addr, examplePath⟩ img :=
  ⟨rfl, rfl, rfl, rfl, rfl, h0, h1⟩

theorem libfoo_wellFormed : WellFormed libfoo 2 3 :=
  ⟨⟨by decide, by decide, by decide, by decide, by decide, by decide⟩,
    by decide, by decide, by decide, by decide, by decide⟩

theorem libbar_wellFormed : WellFormed libbar 2 3 :=
  ⟨⟨by decide, by decide, by decide, by decide, by decide, by decide⟩,
    by decide, by decide, by decide, by decide, by decide⟩

theorem libfooNoMagic_wellFormed : WellFormed libfooNoMagic 2 3 :=
  ⟨⟨by decide, by decide, by decide, by decide, by decide, by decide⟩,
    by decide, by decide, by decide, by decide, by decide⟩

theorem libStripped_sectionsOk : SectionsOk libStripped :=
  ⟨by decide, by decide, by decide, by decide, by decide, by decide⟩

theorem exampleHost_serves_libfoo (l_addr : Nat) :
    (exampleHost libfoo l_addr).Serves g_szAddrType_init libfoo 2 3 := by
  refine ⟨rfl, fun _ => rfl, ?_⟩
  show ∀ i, i < symbol_count libfoo 2 →
    (symName libfoo 2 3 i).all (fun key => key.all (fun c => decide (c < 128))) = true
  decide

theorem exampleHost_serves_libbar (l_addr : Nat) :
    (exampleHost libbar l_addr).Serves g_szAddrType_init libbar 2 3 := by
  refine ⟨rfl, fun _ => rfl, ?_⟩
  show ∀ i, i < symbol_count libbar 2 →
    (symName libbar 2 3 i).all (fun key => key.all (fun c => decide (c < 128))) = true
  decide

theorem lastNamed_eq_none (img lit : List Nat) : ∀ (n : Nat),
    (∀ k, k < n → sectionName img k ≠ some lit) → lastNamed img lit n = none := by
  intro n
  induction n with
  | zero => intro _; rfl
  | succ n ih =>
    intro h
    unfold lastNamed
    rw [if_neg (h n (Nat.lt_succ_self _))]
    exact ih (fun k hk => h k (Nat.lt_succ_of_lt hk))

theorem log_mapped_first {V : Type} (W : Nat) (build : Nat → Option V)
    (setOk : List Nat → Bool) (dictOk : Bool) (l_addr : Nat) (img : List Nat) :
    ∃ rest, (dumpSymbols_mapped W build setOk dictOk l_addr img).log
      = Event.read .e_shoff 32 4 :: rest := by
  unfold dumpSymbols_mapped
  show ∃ rest, (Step.andThen (load img .e_shoff 32 4) _).log = _
  unfold Step.andThen
  split
  · exact ⟨[], rfl⟩
  · exact ⟨_, rfl⟩

/-! ## The claims -/

/-- C1. On a host whose calls succeed, for a well-formed image with `sh_entsize = 16` and any
load bias, `dumpSymbols` returns a dictionary, and a name is one of its keys if and only if some
symbol-table entry below `symbol_count` is defined (`st_shndx` is not `SHN_UNDEF`), has type
`STT_FUNC` or `STT_OBJECT` and carries that name; so names carried only by undefined entries or
by entries of other types are absent. -/
theorem dumpSymbols_keys_iff {V : Type} (h : Host V) (g szPath : List Nat) (dlmap : LinkMap)
    (img : List Nat) (a b : Nat) (hm : h.Maps szPath dlmap img) (hs : h.Serves g img a b)
    (hwf : WellFormed img a b) (hent : sh_entsize img a = 16) :
    ∃ d, (dumpSymbols h g (some szPath)).val = .ok (.dict d) ∧
      ∀ n, n ∈ d.map Prod.fst ↔
        ∃ i, i < sh_size img a / 16 ∧ passes img a i ∧ symName img a b i = some n := by
  have hr := runs_wellFormed h g szPath dlmap img a b hm hwf
  rw [hs.1] at hr
  have hcount : symbol_count img a = sh_size img a / 16 := by unfold symbol_count; rw [hent]
  refine ⟨_, hr.1, fun n => ?_⟩
  rw [symDict_keys, ← hcount]
  constructor
  · rintro ⟨i, hi, hp, hn, _⟩
    exact ⟨i, hi, hp, hn⟩
  · rintro ⟨i, hi, hp, hn⟩
    have hk := hs.2.2 i hi
    rw [hn] at hk
    exact ⟨i, hi, hp, hn, hs.2.1 _, hk⟩

/-- Witness of C1: the library `libfoo` on the example host. -/
theorem dumpSymbols_keys_iff_witness :
    WellFormed libfoo 2 3 ∧ sh_entsize libfoo 2 = 16 ∧
    ∃ d, (dumpSymbols (exampleHost libfoo 4096) g_szAddrType_init (some examplePath)).val
        = .ok (.dict d) ∧
      ∀ n, n ∈ d.map Prod.fst ↔
        ∃ i, i < sh_size libfoo 2 / 16 ∧ passes libfoo 2 i ∧ symName libfoo 2 3 i = some n :=
  ⟨libfoo_wellFormed, by decide,
    dumpSymbols_keys_iff (exampleHost libfoo 4096) g_szAddrType_init examplePath
      ⟨4096, examplePath⟩ libfoo 2 3 (exampleHost_maps libfoo 4096 (by decide) (by decide))
      (exampleHost_serves_libfoo 4096) libfoo_wellFormed (by decide)⟩

/-- C2. On a host whose calls succeed, for a well-formed image and any load bias, every pair
(name, value) of the dictionary that `dumpSymbols` returns comes from a symbol-table entry that
passes the filter and carries that name, and the value is the object `Py_BuildValue` builds from
`l_addr + st_value` of that entry, the sum taken on pointer width. In particular the function
`foo` with `st_value` 0x1000 in a library loaded at 0x7f0000000000 yields
`foo -> 0x7f0000001000` under the initial format "k". -/
theorem dumpSymbols_address {V : Type} (h : Host V) (g szPath : List Nat) (dlmap : LinkMap)
    (img : List Nat) (a b : Nat) (hm : h.Maps szPath dlmap img) (hdict : h.PyDict_New = true)
    (hwf : WellFormed img a b) (hent : sh_entsize img a = 16) :
    (∃ d, (dumpSymbols h g (some szPath)).val = .ok (.dict d) ∧
      ∀ n v, (n, v) ∈ d →
        ∃ i, i < sh_size img a / 16 ∧ passes img a i ∧ symName img a b i = some n ∧
          h.Py_BuildValue g ((dlmap.l_addr + st_value img a i) % 2 ^ h.ptrBits) = some v) ∧
    (dumpSymbols (exampleHost libfoo 0x7f0000000000) g_szAddrType_init (some examplePath)).val
      = .ok (.dict [(fooName, 0x7f0000001000)]) := by
  have hr := runs_wellFormed h g szPath dlmap img a b hm hwf
  rw [hdict] at hr
  have hcount : symbol_count img a = sh_size img a / 16 := by unfold symbol_count; rw [hent]
  refine ⟨⟨_, hr.1, fun n v hmem => ?_⟩, by decide⟩
  have := symDict_mem _ _ _ _ _ _ _ n v _ hmem
  rw [hcount] at this
  exact this

/-- Witness of C2: the library `libbar` loaded at 0x10000. -/
theorem dumpSymbols_address_witness :
    WellFormed libbar 2 3 ∧ sh_entsize libbar 2 = 16 ∧
    ((∃ d, (dumpSymbols (exampleHost libbar 0x10000) g_szAddrType_init (some examplePath)).val
        = .ok (.dict d) ∧
      ∀ n v, (n, v) ∈ d →
        ∃ i, i < sh_size libbar 2 / 16 ∧ passes libbar 2 i ∧ symName libbar 2 3 i = some n ∧
          (exampleHost libbar 0x10000).Py_BuildValue g_szAddrType_init
            ((0x10000 + st_value libbar 2 i) % 2 ^ 64) = some v) ∧
    (dumpSymbols (exampleHost libfoo 0x7f0000000000) g_szAddrType_init (some examplePath)).val
      = .ok (.dict [(fooName, 0x7f0000001000)])) :=
  ⟨libbar_wellFormed, by decide,
    dumpSymbols_address (exampleHost libbar 0x10000) g_szAddrType_init examplePath
      ⟨0x10000, examplePath⟩ libbar 2 3 (exampleHost_maps libbar 0x10000 (by decide) (by decide))
      rfl libbar_wellFormed (by decide)⟩

/-- C3. On a host whose calls succeed, for a well-formed image in which entries that pass the
filter share a name, the value stored under that name in the dictionary that `dumpSymbols`
returns is the one built from `l_addr + st_value` of the entry with the greatest table index
among them: the later entry overwrites the earlier one. -/
theorem dumpSymbols_last_wins {V : Type} (h : Host V) (g szPath : List Nat) (dlmap : LinkMap)
    (img : List Nat) (a b : Nat) (hm : h.Maps szPath dlmap img) (hs : h.Serves g img a b)
    (hwf : WellFormed img a b)
    (hent : sh_entsize img a = 16) (n : List Nat) (j : Nat) (hj : j < sh_size img a / 16)
    (hp : passes img a j) (hn : symName img a b j = some n)
    (hlast : ∀ i, j < i → i < sh_size img a / 16 →
      ¬ (passes img a i ∧ symName img a b i = some n)) :
    ∃ d v, (dumpSymbols h g (some szPath)).val = .ok (.dict d) ∧
      h.Py_BuildValue g ((dlmap.l_addr + st_value img a j) % 2 ^ h.ptrBits) = some v ∧
      PyDict_GetItemString d n = some v := by
  have hr := runs_wellFormed h g szPath dlmap img a b hm hwf
  rw [hs.1] at hr
  have hcount : symbol_count img a = sh_size img a / 16 := by unfold symbol_count; rw [hent]
  obtain ⟨v, hv⟩ := Option.isSome_iff_exists.1
    (hs.2.1 ((dlmap.l_addr + st_value img a j) % 2 ^ h.ptrBits))
  have hk := hs.2.2 j (by rw [hcount]; exact hj)
  rw [hn] at hk
  refine ⟨_, v, hr.1, hv, ?_⟩
  refine symDict_get _ _ _ _ _ _ _ n j v hp hn hv hk _ (by rw [hcount]; exact hj) ?_
  intro i h1 h2 hcon
  rw [hcount] at h2
  exact hlast i h1 h2 ⟨hcon.1, hcon.2.1⟩

/-- Witness of C3: in `libbar` the second `bar`, entry 2, is the last one. -/
theorem dumpSymbols_last_wins_witness :
    WellFormed libbar 2 3 ∧ passes libbar 2 1 ∧ symName libbar 2 3 1 = some barName ∧
    passes libbar 2 2 ∧ symName libbar 2 3 2 = some barName ∧
    ∃ d v, (dumpSymbols (exampleHost libbar 0x7000) g_szAddrType_init (some examplePath)).val
        = .ok (.dict d) ∧
      (exampleHost libbar 0x7000).Py_BuildValue g_szAddrType_init
        ((0x7000 + st_value libbar 2 2) % 2 ^ 64) = some v ∧
      PyDict_GetItemString d barName = some v :=
  ⟨libbar_wellFormed, by decide, by decide, by decide, by decide,
    dumpSymbols_last_wins (exampleHost libbar 0x7000) g_szAddrType_init examplePath
      ⟨0x7000, examplePath⟩ libbar 2 3 (exampleHost_maps libbar 0x7000 (by decide) (by decide))
      (exampleHost_serves_libbar 0x7000) libbar_wellFormed (by decide) barName 2
      (by decide) (by decide) (by decide)
      (fun i h1 h2 _ => by
        have h3 : sh_size libbar 2 / 16 = 3 := by decide
        omega)⟩

/-- C4, counterexample. `libfoo` cut after 100 bytes keeps `e_shoff = 52` and `e_shstrndx = 1`:
`dumpSymbols` reads `sh_offset` of section header 1 at offsets 108 to 111, beyond the 100 bytes
of the mapping, and does not return `None`. -/
theorem dumpSymbols_truncated_out_of_bounds :
    libfooTruncated.length = 100 ∧
    Event.read .sh_offset 108 4 ∈
      (dumpSymbols (exampleHost libfooTruncated 0) g_szAddrType_init (some examplePath)).log ∧
    (dumpSymbols (exampleHost libfooTruncated 0) g_szAddrType_init (some examplePath)).val
      = .error (.outOfBounds 108 4) := by
  decide

/-- C4, amended. The source checks no offset. For a well-formed image (the header-derived
offsets are in bounds) every read that `dumpSymbols` performs lies inside `[0, file size)` and
the call ends with a result: the dictionary, or `None` when `PyDict_New` fails. -/
theorem dumpSymbols_reads_in_bounds {V : Type} (h : Host V) (g szPath : List Nat)
    (dlmap : LinkMap) (img : List Nat) (a b : Nat) (hm : h.Maps szPath dlmap img)
    (hwf : WellFormed img a b) :
    (∀ f off len, Event.read f off len ∈ (dumpSymbols h g (some szPath)).log →
      off + len ≤ img.length) ∧
    ∃ r, (dumpSymbols h g (some szPath)).val = .ok r := by
  have hr := runs_wellFormed h g szPath dlmap img a b hm hwf
  exact ⟨fun f off len hmem => (hr.2.1 _ hmem).1, _, hr.1⟩

/-- Witness of C4, amended: the whole file `libfoo`. -/
theorem dumpSymbols_reads_in_bounds_witness :
    WellFormed libfoo 2 3 ∧
    (∀ f off len, Event.read f off len ∈
        (dumpSymbols (exampleHost libfoo 0) g_szAddrType_init (some examplePath)).log →
      off + len ≤ libfoo.length) ∧
    ∃ r, (dumpSymbols (exampleHost libfoo 0) g_szAddrType_init (some examplePath)).val = .ok r :=
  ⟨libfoo_wellFormed,
    dumpSymbols_reads_in_bounds (exampleHost libfoo 0) g_szAddrType_init examplePath
      ⟨0, examplePath⟩ libfoo 2 3 (exampleHost_maps libfoo 0 (by decide) (by decide))
      libfoo_wellFormed⟩

/-- C5, counterexample. `libfooNoMagic` starts with four zero bytes: `dumpSymbols` reads
`e_shoff`, `e_shstrndx` and `e_shnum` all the same and returns the dictionary of its symbols. -/
theorem dumpSymbols_bad_magic_accepted :
    ¬ hasMagic libfooNoMagic ∧
    Event.read .e_shnum 48 2 ∈
      (dumpSymbols (exampleHost libfooNoMagic 0) g_szAddrType_init (some examplePath)).log ∧
    (dumpSymbols (exampleHost libfooNoMagic 0) g_szAddrType_init (some examplePath)).val
      = .ok (.dict [(fooName, 0x1000)]) := by
  decide

/-- C5, amended. `dumpSymbols` does not look at the magic number: on every mapped file the first
read of the mapping is the read of `e_shoff` at offset 32, and a file without the magic number
that is well formed apart from that yields the dictionary of its symbols (`None` only when
`PyDict_New` fails), not the outcome of a malformed image. -/
theorem dumpSymbols_ignores_magic {V : Type} (h : Host V) (g szPath : List Nat)
    (dlmap : LinkMap) (img : List Nat) (hm : h.Maps szPath dlmap img) :
    (∃ rest, (dumpSymbols h g (some szPath)).log
      = mapEvents szPath dlmap img ++ Event.read .e_shoff 32 4 :: rest) ∧
    ∀ a b, ¬ hasMagic img → WellFormed img a b →
      (dumpSymbols h g (some szPath)).val
        = .ok (if h.PyDict_New = true then
            .dict (symDict h.ptrBits (h.Py_BuildValue g) h.setItemOk dlmap.l_addr img a b
              (symbol_count img a))
          else .None) := by
  refine ⟨?_, fun a b _ hwf => (runs_wellFormed h g szPath dlmap img a b hm hwf).1⟩
  obtain ⟨rest, hrest⟩ := log_mapped_first h.ptrBits (h.Py_BuildValue g) h.setItemOk h.PyDict_New
    dlmap.l_addr img
  refine ⟨rest, ?_⟩
  rw [dumpSymbols_of_maps h g szPath dlmap img hm]
  show mapEvents szPath dlmap img ++ _ = _
  rw [hrest]

/-- Witness of C5, amended: `libfooNoMagic`. -/
theorem dumpSymbols_ignores_magic_witness :
    (exampleHost libfooNoMagic 0).Maps examplePath ⟨0, examplePath⟩ libfooNoMagic ∧
    ¬ hasMagic libfooNoMagic ∧ WellFormed libfooNoMagic 2 3 ∧
    (∃ rest, (dumpSymbols (exampleHost libfooNoMagic 0) g_szAddrType_init
        (some examplePath)).log
      = mapEvents examplePath ⟨0, examplePath⟩ libfooNoMagic ++
        Event.read .e_shoff 32 4 :: rest) ∧
    (dumpSymbols (exampleHost libfooNoMagic 0) g_szAddrType_init (some examplePath)).val
      = .ok (.dict [(fooName, 0x1000)]) :=
  ⟨exampleHost_maps libfooNoMagic 0 (by decide) (by decide), by decide,
    libfooNoMagic_wellFormed,
    (dumpSymbols_ignores_magic (exampleHost libfooNoMagic 0) g_szAddrType_init examplePath
      ⟨0, examplePath⟩ libfooNoMagic
      (exampleHost_maps libfooNoMagic 0 (by decide) (by decide))).1,
    ((dumpSymbols_ignores_magic (exampleHost libfooNoMagic 0) g_szAddrType_init examplePath
      ⟨0, examplePath⟩ libfooNoMagic
      (exampleHost_maps libfooNoMagic 0 (by decide) (by decide))).2 2 3 (by decide)
      libfooNoMagic_wellFormed).trans (by decide)⟩

/-- C6, counterexample. In `libfooNoEntsize` the header of `.symtab`, section 2, has
`sh_entsize = 0`: `dumpSymbols` reads it and divides by it; the run ends in the division by
zero, not with `None`. -/
theorem dumpSymbols_zero_entsize_divides :
    sh_entsize libfooNoEntsize 2 = 0 ∧
    lastNamed libfooNoEntsize dotSymtab (e_shnum libfooNoEntsize) = some 2 ∧
    (dumpSymbols (exampleHost libfooNoEntsize 0) g_szAddrType_init (some examplePath)).val
      = .error .divideByZero := by
  decide

/-- C6, amended. `dumpSymbols` does not check `sh_entsize`. For a well-formed image, whose
`sh_entsize` is not zero, the number of symbol entries it visits is `sh_size / sh_entsize`,
rounded down. -/
theorem dumpSymbols_symbol_count {V : Type} (h : Host V) (g szPath : List Nat)
    (dlmap : LinkMap) (img : List Nat) (a b : Nat) (hm : h.Maps szPath dlmap img)
    (hdict : h.PyDict_New = true) (hwf : WellFormed img a b) :
    sh_entsize img a ≠ 0 ∧
    (dumpSymbols h g (some szPath)).entries.length = sh_size img a / sh_entsize img a := by
  have hr := runs_wellFormed h g szPath dlmap img a b hm hwf
  rw [hdict] at hr
  refine ⟨hwf.entsize, ?_⟩
  rw [hr.2.2]
  simp [symbol_count]

/-- Witness of C6, amended: `libfoo`, whose three entries are visited. -/
theorem dumpSymbols_symbol_count_witness :
    WellFormed libfoo 2 3 ∧ sh_size libfoo 2 / sh_entsize libfoo 2 = 3 ∧
    sh_entsize libfoo 2 ≠ 0 ∧
    (dumpSymbols (exampleHost libfoo 0) g_szAddrType_init (some examplePath)).entries.length
      = sh_size libfoo 2 / sh_entsize libfoo 2 :=
  ⟨libfoo_wellFormed, by decide,
    dumpSymbols_symbol_count (exampleHost libfoo 0) g_szAddrType_init examplePath
      ⟨0, examplePath⟩ libfoo 2 3 (exampleHost_maps libfoo 0 (by decide) (by decide)) rfl
      libfoo_wellFormed⟩

/-- C7. For every mapped image whose header has `e_shoff = 0` or `e_shstrndx = SHN_UNDEF`,
`dumpSymbols` returns `None`, no dictionary, and reads nothing of the file but the header fields
`e_shoff` and `e_shstrndx`: no section header is read. -/
theorem dumpSymbols_no_section_table {V : Type} (h : Host V) (g szPath : List Nat)
    (dlmap : LinkMap) (img : List Nat) (hm : h.Maps szPath dlmap img) (hh : 52 ≤ img.length)
    (hz : e_shoff img = 0 ∨ e_shstrndx img = SHN_UNDEF) :
    (dumpSymbols h g (some szPath)).val = .ok .None ∧
    ∀ f off len, Event.read f off len ∈ (dumpSymbols h g (some szPath)).log →
      (f = .e_shoff ∨ f = .e_shstrndx) ∧ off + len ≤ 52 := by
  have hr := runs_noSections h g szPath dlmap img hm hh hz
  refine ⟨hr.1, fun f off len hmem => ?_⟩
  have hfield : f = .e_shoff ∨ f = .e_shstrndx := by
    have := (hr.2.1 _ hmem).2
    simpa using this
  refine ⟨hfield, ?_⟩
  rw [dumpSymbols_of_maps h g szPath dlmap img hm] at hmem
  rcases List.mem_append.1 hmem with hpre | hrest
  · simp [mapEvents] at hpre
  · have hsub : ∀ e ∈ (dumpSymbols_mapped h.ptrBits (h.Py_BuildValue g) h.setItemOk h.PyDict_New
        dlmap.l_addr img).log, e = .read .e_shoff 32 4 ∨ e = .read .e_shstrndx 50 2 ∨
        e = .munmap img.length := by
      intro e he
      unfold dumpSymbols_mapped at he
      by_cases h1 : le img 32 4 = 0
      · have : e ∈ [Event.read .e_shoff 32 4, .munmap img.length] := by
          simpa [bind, Step.andThen, load, hh, h1, pure, Step.ret, emit,
            show 36 ≤ img.length by omega] using he
        simp at this; tauto
      · have h2 : le img 50 2 = SHN_UNDEF := by
          rcases hz with hz | hz
          · exact absurd hz h1
          · exact hz
        have : e ∈ [Event.read .e_shoff 32 4, .read .e_shstrndx 50 2,
            .munmap img.length] := by
          simpa [bind, Step.andThen, load, hh, h1, h2, pure, Step.ret, emit,
            show 36 ≤ img.length by omega] using he
        simp at this; tauto
    rcases hsub _ hrest with e | e | e
    · cases e; omega
    · cases e; omega
    · cases e

/-- Witness of C7: the bare file header `libNoSections`. -/
theorem dumpSymbols_no_section_table_witness :
    52 ≤ libNoSections.length ∧ e_shoff libNoSections = 0 ∧
    (dumpSymbols (exampleHost libNoSections 0) g_szAddrType_init (some examplePath)).val
      = .ok .None ∧
    ∀ f off len, Event.read f off len ∈
        (dumpSymbols (exampleHost libNoSections 0) g_szAddrType_init (some examplePath)).log →
      (f = .e_shoff ∨ f = .e_shstrndx) ∧ off + len ≤ 52 :=
  ⟨by decide, by decide,
    dumpSymbols_no_section_table (exampleHost libNoSections 0) g_szAddrType_init examplePath
      ⟨0, examplePath⟩ libNoSections (exampleHost_maps libNoSections 0 (by decide) (by decide))
      (by decide) (Or.inl (by decide))⟩

/-- C8. For every mapped image with in-bounds section headers in which no section is named
`.symtab` or no section is named `.strtab`, `dumpSymbols` returns `None`, no dictionary; it
reads header fields, `sh_name` and `sh_offset` of section headers and section names only, and
visits no symbol-table entry. -/
theorem dumpSymbols_stripped {V : Type} (h : Host V) (g szPath : List Nat) (dlmap : LinkMap)
    (img : List Nat) (hm : h.Maps szPath dlmap img) (hok : SectionsOk img)
    (hno : (∀ k, k < e_shnum img → sectionName img k ≠ some dotSymtab) ∨
      (∀ k, k < e_shnum img → sectionName img k ≠ some dotStrtab)) :
    (dumpSymbols h g (some szPath)).val = .ok .None ∧
    (∀ f off len, Event.read f off len ∈ (dumpSymbols h g (some szPath)).log →
      f ∈ [Field.e_shoff, .e_shstrndx, .e_shnum, .sh_offset, .sh_name, .section_name]) ∧
    (dumpSymbols h g (some szPath)).entries = [] := by
  have hno' : lastNamed img dotSymtab (e_shnum img) = none ∨
      lastNamed img dotStrtab (e_shnum img) = none := by
    rcases hno with hs | hs
    · exact Or.inl (lastNamed_eq_none img dotSymtab _ hs)
    · exact Or.inr (lastNamed_eq_none img dotStrtab _ hs)
  have hr := runs_stripped h g szPath dlmap img hm hok hno'
  exact ⟨hr.1, fun f off len hmem => (hr.2.1 _ hmem).2, hr.2.2⟩

/-- Witness of C8: `libStripped` has no section named `.symtab`. -/
theorem dumpSymbols_stripped_witness :
    SectionsOk libStripped ∧
    (∀ k, k < e_shnum libStripped → sectionName libStripped k ≠ some dotSymtab) ∧
    (dumpSymbols (exampleHost libStripped 0) g_szAddrType_init (some examplePath)).val
      = .ok .None ∧
    (∀ f off len, Event.read f off len ∈
        (dumpSymbols (exampleHost libStripped 0) g_szAddrType_init (some examplePath)).log →
      f ∈ [Field.e_shoff, .e_shstrndx, .e_shnum, .sh_offset, .sh_name, .section_name]) ∧
    (dumpSymbols (exampleHost libStripped 0) g_szAddrType_init (some examplePath)).entries
      = [] :=
  ⟨libStripped_sectionsOk, by decide,
    dumpSymbols_stripped (exampleHost libStripped 0) g_szAddrType_init examplePath
      ⟨0, examplePath⟩ libStripped (exampleHost_maps libStripped 0 (by decide) (by decide))
      libStripped_sectionsOk (Or.inl (by decide))⟩

/-- C9, counterexample. The stripped library `libStripped` and the malformed file
`libNoSections`, whose `e_shoff` is 0, get the same result from `dumpSymbols`. -/
theorem dumpSymbols_stripped_same_as_malformed :
    SectionsOk libStripped ∧
    (∀ k, k < e_shnum libStripped → sectionName libStripped k ≠ some dotSymtab) ∧
    e_shoff libNoSections = 0 ∧
    (dumpSymbols (exampleHost libStripped 0) g_szAddrType_init (some examplePath)).val
      = (dumpSymbols (exampleHost libNoSections 0) g_szAddrType_init (some examplePath)).val :=
  ⟨libStripped_sectionsOk, by decide, by decide, by decide⟩

/-- C9, amended. `dumpSymbols` returns the same value, `None`, for a stripped library (section
headers in bounds, no section named `.symtab`) and for a malformed image whose `e_shoff` is 0 or
whose `e_shstrndx` is `SHN_UNDEF`: the returned value alone does not tell the two apart. -/
theorem dumpSymbols_failures_alike {V : Type} (h1 h2 : Host V) (g1 g2 p1 p2 : List Nat)
    (m1 m2 : LinkMap) (stripped malformed : List Nat) (hm1 : h1.Maps p1 m1 stripped)
    (hm2 : h2.Maps p2 m2 malformed) (hok : SectionsOk stripped)
    (hno : ∀ k, k < e_shnum stripped → sectionName stripped k ≠ some dotSymtab)
    (hh : 52 ≤ malformed.length)
    (hz : e_shoff malformed = 0 ∨ e_shstrndx malformed = SHN_UNDEF) :
    (dumpSymbols h1 g1 (some p1)).val = .ok .None ∧
    (dumpSymbols h2 g2 (some p2)).val = .ok .None ∧
    (dumpSymbols h1 g1 (some p1)).val = (dumpSymbols h2 g2 (some p2)).val := by
  have r1 := runs_stripped h1 g1 p1 m1 stripped hm1 hok
    (Or.inl (lastNamed_eq_none stripped dotSymtab _ hno))
  have r2 := runs_noSections h2 g2 p2 m2 malformed hm2 hh hz
  exact ⟨r1.1, r2.1, r1.1.trans r2.1.symm⟩

/-- Witness of C9, amended: `libStripped` and `libNoSections`. -/
theorem dumpSymbols_failures_alike_witness :
    SectionsOk libStripped ∧ e_shoff libNoSections = 0 ∧
    ((dumpSymbols (exampleHost libStripped 0) g_szAddrType_init (some examplePath)).val
      = .ok .None ∧
    (dumpSymbols (exampleHost libNoSections 0) g_szAddrType_init (some examplePath)).val
      = .ok .None ∧
    (dumpSymbols (exampleHost libStripped 0) g_szAddrType_init (some examplePath)).val
      = (dumpSymbols (exampleHost libNoSections 0) g_szAddrType_init
        (some examplePath)).val) :=
  ⟨libStripped_sectionsOk, by decide,
    dumpSymbols_failures_alike (exampleHost libStripped 0) (exampleHost libNoSections 0)
      g_szAddrType_init g_szAddrType_init examplePath examplePath ⟨0, examplePath⟩
      ⟨0, examplePath⟩ libStripped libNoSections
      (exampleHost_maps libStripped 0 (by decide) (by decide))
      (exampleHost_maps libNoSections 0 (by decide) (by decide)) libStripped_sectionsOk
      (by decide) (by decide) (Or.inl (by decide))⟩

/-- C10. For every token whose length is not exactly 1, `setAddrType` fails with `ValueError`
and leaves `g_szAddrType` as it was. -/
theorem setAddrType_rejects (g_szAddrType token : List Nat) (hlen : token.length ≠ 1) :
    setAddrType g_szAddrType (some token) = (.raise .ValueError, g_szAddrType) := by
  show (if token.length ≠ 1 then (PyResult.raise PyExc.ValueError, g_szAddrType)
    else (PyResult.None, token)) = _
  rw [if_pos hlen]

/-- Witness of C10: the empty token and the token "kk" against the initial selector. -/
theorem setAddrType_rejects_witness :
    setAddrType g_szAddrType_init (some []) = (.raise .ValueError, g_szAddrType_init) ∧
    setAddrType g_szAddrType_init (some [107, 107]) = (.raise .ValueError, g_szAddrType_init) :=
  ⟨setAddrType_rejects g_szAddrType_init [] (by decide),
    setAddrType_rejects g_szAddrType_init [107, 107] (by decide)⟩

/-- C11, counterexample. The character "!" is no format unit, yet `setAddrType` stores it, and
the next `dumpSymbols` passes it to `Py_BuildValue` and returns a dictionary built under it
(empty on the example host, where `Py_BuildValue` returns `NULL` under "!"). -/
theorem setAddrType_accepts_unrecognized :
    33 ∉ formatUnits ∧
    setAddrType g_szAddrType_init (some [33]) = (.None, [33]) ∧
    (dumpSymbols (exampleHost libfoo 0) (setAddrType g_szAddrType_init (some [33])).2
      (some examplePath)).val = .ok (.dict []) := by
  decide

/-- C11, amended. `setAddrType` rejects a token for its length only: a token of one character
that is no recognized format unit is stored as the selector, and on a well-formed image the next
`dumpSymbols` returns the dictionary built with it, in which a symbol is present when
`Py_BuildValue` returns an object under that token. -/
theorem setAddrType_stores_unrecognized {V : Type} (h : Host V) (g szPath : List Nat)
    (dlmap : LinkMap) (img : List Nat) (a b : Nat) (c : Nat) (_hun : c ∉ formatUnits)
    (hm : h.Maps szPath dlmap img) (hdict : h.PyDict_New = true) (hwf : WellFormed img a b) :
    setAddrType g (some [c]) = (.None, [c]) ∧
    (dumpSymbols h (setAddrType g (some [c])).2 (some szPath)).val =
      .ok (.dict (symDict h.ptrBits (h.Py_BuildValue [c]) h.setItemOk dlmap.l_addr img a b
        (symbol_count img a))) := by
  refine ⟨rfl, ?_⟩
  have hr := runs_wellFormed h [c] szPath dlmap img a b hm hwf
  rw [hdict] at hr
  exact hr.1

/-- Witness of C11, amended: the token "!" and `libfoo`. -/
theorem setAddrType_stores_unrecognized_witness :
    33 ∉ formatUnits ∧ WellFormed libfoo 2 3 ∧
    (setAddrType g_szAddrType_init (some [33]) = (.None, [33]) ∧
    (dumpSymbols (exampleHost libfoo 0) (setAddrType g_szAddrType_init (some [33])).2
      (some examplePath)).val =
      .ok (.dict (symDict 64 ((exampleHost libfoo 0).Py_BuildValue [33])
        (exampleHost libfoo 0).setItemOk 0 libfoo 2 3 (symbol_count libfoo 2)))) :=
  ⟨by decide, libfoo_wellFormed,
    setAddrType_stores_unrecognized (exampleHost libfoo 0) g_szAddrType_init examplePath
      ⟨0, examplePath⟩ libfoo 2 3 33 (by decide)
      (exampleHost_maps libfoo 0 (by decide) (by decide)) rfl libfoo_wellFormed⟩

/-- C12. For every token of length exactly 1, `setAddrType` returns `None` without raising and
`g_szAddrType` afterwards is that token; before any call `g_szAddrType` is "k". -/
theorem setAddrType_accepts (g_szAddrType token : List Nat) (hlen : token.length = 1) :
    setAddrType g_szAddrType (some token) = (.None, token) ∧ g_szAddrType_init = [107] := by
  refine ⟨?_, rfl⟩
  show (if token.length ≠ 1 then (PyResult.raise PyExc.ValueError, g_szAddrType)
    else (PyResult.None, token)) = _
  rw [if_neg (fun hne => hne hlen)]

/-- Witness of C12: the token "i" against the initial selector. -/
theorem setAddrType_accepts_witness :
    setAddrType g_szAddrType_init (some [105]) = (.None, [105]) ∧ g_szAddrType_init = [107] :=
  setAddrType_accepts g_szAddrType_init [105] (by decide)

/-- C14. On Linux, for every path that `dlopen` does not load, `dumpSymbols` returns `None` and
its only effect is the call of `dlopen`: no file is opened, nothing is mapped and no field of a
`link_map` is read. -/
theorem dumpSymbols_not_loaded {V : Type} (h : Host V) (g szPath : List Nat)
    (hl : h.linux = true) (hd : h.dlopen szPath = none) :
    dumpSymbols h g (some szPath) = ⟨[.dlopen szPath], .ok .None⟩ := by
  unfold dumpSymbols
  simp only [hl, hd, Bool.true_eq_false, if_false]
  rfl

/-- Witness of C14: the host whose loader loads nothing. -/
theorem dumpSymbols_not_loaded_witness :
    unloadableHost.linux = true ∧ unloadableHost.dlopen examplePath = none ∧
    dumpSymbols unloadableHost g_szAddrType_init (some examplePath)
      = ⟨[.dlopen examplePath], .ok .None⟩ :=
  ⟨rfl, rfl, dumpSymbols_not_loaded unloadableHost g_szAddrType_init examplePath rfl rfl⟩

theorem selectorAfter_quiet (calls : List Call) : ∀ (g : List Nat),
    (∀ c ∈ calls, ∀ t, c = Call.set (some t) → t.length ≠ 1) → selectorAfter g calls = g := by
  induction calls with
  | nil => intro g _; rfl
  | cons c cs ih =>
    intro g hq
    have hc : Call.selector g c = g := by
      cases c with
      | dump args => rfl
      | set args =>
        cases args with
        | none => rfl
        | some t =>
          have ht := hq (Call.set (some t)) (List.mem_cons_self _ _) t rfl
          show (setAddrType g (some t)).2 = g
          show (if t.length ≠ 1 then (PyResult.raise PyExc.ValueError, g)
            else (PyResult.None, t)).2 = g
          rw [if_pos ht]
    show selectorAfter (Call.selector g c) cs = g
    rw [hc]
    exact ih g (fun c' hc' => hq c' (List.mem_cons_of_mem _ hc'))

/-- C15, counterexample. Between two runs on `libfoo` at the same load bias, the call
`setAddrType("!")` is made: the first run returns `foo -> 0x7f0000001000`, the second an empty
dictionary. -/
theorem dumpSymbols_differs_after_setAddrType :
    (dumpSymbols (exampleHost libfoo 0x7f0000000000) g_szAddrType_init (some examplePath)).val
      = .ok (.dict [(fooName, 0x7f0000001000)]) ∧
    (dumpSymbols (exampleHost libfoo 0x7f0000000000)
      (selectorAfter g_szAddrType_init [Call.set (some [33])]) (some examplePath)).val
      = .ok (.dict []) := by
  decide

/-- C15, amended. Two runs of `dumpSymbols` on the same host (same file bytes, same load bias,
same answers of the calls) return the same result and perform the same effects when no call
made between them is a `setAddrType` with a token of length 1: calls of `dumpSymbols` and
rejected calls of `setAddrType` leave `g_szAddrType` as it was. -/
theorem dumpSymbols_repeatable {V : Type} (h : Host V) (g : List Nat)
    (args : Option (List Nat)) (calls : List Call)
    (hq : ∀ c ∈ calls, ∀ t, c = Call.set (some t) → t.length ≠ 1) :
    selectorAfter g calls = g ∧
    dumpSymbols h (selectorAfter g calls) args = dumpSymbols h g args := by
  have hs := selectorAfter_quiet calls g hq
  exact ⟨hs, by rw [hs]⟩

/-- Witness of C15, amended: a run, a rejected `setAddrType` and a failed parse in between. -/
theorem dumpSymbols_repeatable_witness :
    selectorAfter g_szAddrType_init
      [Call.dump (some examplePath), Call.set (some []), Call.set none] = g_szAddrType_init ∧
    dumpSymbols (exampleHost libfoo 0) (selectorAfter g_szAddrType_init
      [Call.dump (some examplePath), Call.set (some []), Call.set none]) (some examplePath)
      = dumpSymbols (exampleHost libfoo 0) g_szAddrType_init (some examplePath) :=
  dumpSymbols_repeatable (exampleHost libfoo 0) g_szAddrType_init (some examplePath)
    [Call.dump (some examplePath), Call.set (some []), Call.set none]
    (by
      intro c hc t ht
      simp only [List.mem_cons, List.mem_singleton, List.not_mem_nil, or_false] at hc
      rcases hc with rfl | rfl | rfl
      · cases ht
      · cases ht; decide
      · cases ht)

/-! ## Release of the mapping -/

theorem log_bind {α β : Type} (s : Step α) (f : α → Step β) :
    (∃ e, s.val = .error e ∧ (s >>= f).log = s.log ∧ (s >>= f).val = .error e) ∨
      ∃ a, s.val = .ok a ∧ (s >>= f).log = s.log ++ (f a).log ∧ (s >>= f).val = (f a).val := by
  show (∃ e, s.val = .error e ∧ (Step.andThen s f).log = s.log ∧
      (Step.andThen s f).val = .error e) ∨
    ∃ a, s.val = .ok a ∧ (Step.andThen s f).log = s.log ++ (f a).log ∧
      (Step.andThen s f).val = (f a).val
  unfold Step.andThen
  cases hv : s.val with
  | error e => exact Or.inl ⟨e, rfl, rfl, rfl⟩
  | ok a => exact Or.inr ⟨a, rfl, rfl, rfl⟩

theorem keeps_bind {α β : Type} {s : Step α} {f : α → Step β} (hs : s.Keeps)
    (hf : ∀ a, (f a).Keeps) : (s >>= f).Keeps := by
  unfold Step.Keeps at *
  rcases log_bind s f with ⟨e, _, hl, _⟩ | ⟨a, _, hl, _⟩
  · rw [hl]; exact hs
  · rw [hl, List.filter_append, hs, hf a]; rfl

theorem releases_bind {α β : Type} {s : Step α} {f : α → Step β} {size : Nat} (hs : s.Keeps)
    (hf : ∀ a, (f a).Releases size) : (s >>= f).Releases size := by
  unfold Step.Keeps at hs
  rcases log_bind s f with ⟨e, _, hl, hv⟩ | ⟨a, _, hl, hv⟩
  · refine ⟨fun r hr => ?_, fun e' _ => ?_⟩
    · rw [hv] at hr; cases hr
    · rw [hl]; exact hs
  · refine ⟨fun r hr => ?_, fun e' he => ?_⟩
    · rw [hl, List.filter_append, hs, List.nil_append]
      exact (hf a).1 r (hv ▸ hr)
    · rw [hl, List.filter_append, hs, List.nil_append]
      exact (hf a).2 e' (hv ▸ he)

theorem keeps_pure {α : Type} (x : α) : (pure x : Step α).Keeps := rfl

theorem keeps_load (img : List Nat) (f : Field) (p len : Nat) : (load img f p len).Keeps := rfl

theorem keeps_strcmp (img : List Nat) : ∀ (lit : List Nat) (p : Nat), (strcmp img p lit).Keeps := by
  intro lit
  induction lit with
  | nil =>
    intro p
    unfold strcmp
    exact keeps_bind (keeps_load _ _ _ _) (fun _ => keeps_pure _)
  | cons l ls ih =>
    intro p
    unfold strcmp
    refine keeps_bind (keeps_load _ _ _ _) (fun c => ?_)
    dsimp only
    split
    · exact ih (p + 1)
    · exact keeps_pure _

theorem keeps_cstrFrom : ∀ (rest : List Nat) (p : Nat), (cstrFrom rest p).Keeps := by
  intro rest
  induction rest with
  | nil => intro p; rfl
  | cons b rest ih =>
    intro p
    unfold cstrFrom
    split
    · rfl
    · exact keeps_bind rfl (fun _ => keeps_bind (ih (p + 1)) (fun _ => keeps_pure _))

theorem keeps_sections (W : Nat) (img : List Nat) (sections shstrtab : Nat) :
    ∀ (n i : Nat) (x y : Option Nat),
      (dumpSymbols_sections W img sections shstrtab n i x y).Keeps := by
  intro n
  induction n with
  | zero => intro i x y; unfold dumpSymbols_sections; exact keeps_pure _
  | succ n ih =>
    intro i x y
    unfold dumpSymbols_sections
    refine keeps_bind (keeps_load _ _ _ _) (fun v => keeps_bind (keeps_strcmp _ _ _) (fun c => ?_))
    dsimp only
    split
    · exact ih _ _ _
    · refine keeps_bind (keeps_strcmp _ _ _) (fun c' => ?_)
      dsimp only
      split
      · exact ih _ _ _
      · exact ih _ _ _

theorem keeps_symbols {V : Type} (W : Nat) (build : Nat → Option V) (setOk : List Nat → Bool)
    (l_addr : Nat) (img : List Nat) (symtab strtab : Nat) :
    ∀ (n i : Nat) (d : List (List Nat × V)),
      (dumpSymbols_symbols W build setOk l_addr img symtab strtab n i d).Keeps := by
  intro n
  induction n with
  | zero => intro i d; unfold dumpSymbols_symbols; exact keeps_pure _
  | succ n ih =>
    intro i d
    unfold dumpSymbols_symbols
    refine keeps_bind (keeps_load _ _ _ _) (fun v => keeps_bind (keeps_load _ _ _ _)
      (fun w => keeps_bind (keeps_load _ _ _ _) (fun x => ?_)))
    dsimp only
    split
    · exact ih _ _
    · refine keeps_bind rfl (fun _ => keeps_bind (keeps_load _ _ _ _) (fun y => ?_))
      dsimp only
      split
      · exact ih _ _
      · refine keeps_bind (keeps_cstrFrom _ _) (fun name => ?_)
        dsimp only
        split
        · exact ih _ _
        · exact ih _ _

theorem releases_return {α : Type} (size : Nat) (x : α) :
    (emit (.munmap size) >>= fun _ => (pure x : Step α)).Releases size :=
  ⟨fun _ _ => rfl, fun e he => (by cases he)⟩

theorem releases_fault {α : Type} (size : Nat) (f : Fault) :
    (fault f : Step α).Releases size :=
  ⟨fun r hr => (by cases hr), fun _ _ => rfl⟩

theorem releases_mapped {V : Type} (W : Nat) (build : Nat → Option V)
    (setOk : List Nat → Bool) (dictOk : Bool) (l_addr : Nat) (img : List Nat) :
    (dumpSymbols_mapped W build setOk dictOk l_addr img).Releases img.length := by
  unfold dumpSymbols_mapped
  refine releases_bind (keeps_load _ _ _ _) (fun e_shoff => releases_bind ?_ (fun m => ?_))
  · split
    · exact keeps_pure _
    · exact keeps_bind (keeps_load _ _ _ _) (fun _ => keeps_pure _)
  · dsimp only
    split
    · exact releases_return _ _
    · refine releases_bind (keeps_load _ _ _ _) (fun _ => releases_bind (keeps_load _ _ _ _)
        (fun _ => releases_bind (keeps_load _ _ _ _) (fun _ => releases_bind (keeps_load _ _ _ _)
        (fun _ => releases_bind (keeps_sections _ _ _ _ _ _ _ _) (fun found => ?_)))))
      dsimp only
      split
      · refine releases_bind (keeps_load _ _ _ _) (fun _ => releases_bind (keeps_load _ _ _ _)
          (fun _ => releases_bind (keeps_load _ _ _ _) (fun _ => releases_bind
          (keeps_load _ _ _ _) (fun _ => ?_))))
        dsimp only
        split
        · exact releases_fault _ _
        · split
          · exact releases_return _ _
          · exact releases_bind (keeps_symbols _ _ _ _ _ _ _ _ _ _)
              (fun _ => releases_return _ _)
      · exact releases_return _ _

theorem keeps_unmapped {V : Type} (h : Host V) (g : List Nat) (args : Option (List Nat))
    (hno : ¬ ∃ p m i, args = some p ∧ h.Maps p m i) : (dumpSymbols h g args).Keeps := by
  unfold dumpSymbols
  by_cases hl : h.linux = false
  · rw [if_pos hl]; rfl
  · rw [if_neg hl]
    cases args with
    | none => rfl
    | some szPath =>
      dsimp only
      cases hd : h.dlopen szPath with
      | none => rfl
      | some dlmap =>
        dsimp only
        cases ho : h.openFile dlmap.l_name with
        | none => rfl
        | some img =>
          dsimp only
          by_cases hf : h.fstatOk = false
          · rw [if_pos hf]; rfl
          · rw [if_neg hf]
            by_cases hc : h.mmapOk = false ∨ img.length = 0 ∨ 2 ^ h.ptrBits ≤ img.length
            · rw [if_pos hc]; rfl
            · exfalso
              refine hno ⟨szPath, dlmap, img, rfl, ?_, hd, ho, ?_, ?_, ?_, ?_⟩
              · cases hx : h.linux with
                | false => exact absurd hx hl
                | true => rfl
              · cases hx : h.fstatOk with
                | false => exact absurd hx hf
                | true => rfl
              · cases hx : h.mmapOk with
                | false => exact absurd (Or.inl hx) hc
                | true => rfl
              · rcases Nat.eq_zero_or_pos img.length with hz | hz
                · exact absurd (Or.inr (Or.inl hz)) hc
                · exact hz
              · exact Nat.lt_of_not_le (fun hle => hc (Or.inr (Or.inr hle)))

/-- C13. On every path of `dumpSymbols` on which the file is mapped and the function returns
(the success path and each early return: `e_shoff` zero or `e_shstrndx` undefined, `.symtab` or
`.strtab` missing, `PyDict_New` failing), `munmap` is called exactly once, on the size that was
mapped; on a path on which the mapping is not created no `munmap` is performed. -/
theorem dumpSymbols_unmaps_once {V : Type} (h : Host V) (g szPath : List Nat) (dlmap : LinkMap)
    (img : List Nat) (r : PyResult V) (hm : h.Maps szPath dlmap img)
    (hr : (dumpSymbols h g (some szPath)).val = .ok r) :
    (dumpSymbols h g (some szPath)).log.filter Event.isMunmap = [.munmap img.length] ∧
    Event.mmap img.length ∈ (dumpSymbols h g (some szPath)).log ∧
    ∀ (h' : Host V) (g' : List Nat) (args' : Option (List Nat)),
      (¬ ∃ p m i, args' = some p ∧ h'.Maps p m i) →
      (dumpSymbols h' g' args').log.filter Event.isMunmap = [] := by
  refine ⟨?_, ?_, fun h' g' args' hno => keeps_unmapped h' g' args' hno⟩
  · rw [dumpSymbols_of_maps h g szPath dlmap img hm] at hr ⊢
    show List.filter Event.isMunmap (mapEvents szPath dlmap img ++ _) = _
    rw [List.filter_append]
    exact (releases_mapped h.ptrBits (h.Py_BuildValue g) h.setItemOk h.PyDict_New dlmap.l_addr
      img).1 r hr
  · rw [dumpSymbols_of_maps h g szPath dlmap img hm]
    show Event.mmap img.length ∈ mapEvents szPath dlmap img ++ _
    simp [mapEvents]

/-- Witness of C13: the run on `libfoo` returns the dictionary and unmaps once. -/
theorem dumpSymbols_unmaps_once_witness :
    (dumpSymbols (exampleHost libfoo 0) g_szAddrType_init (some examplePath)).val
      = .ok (.dict [(fooName, 0x1000)]) ∧
    ((dumpSymbols (exampleHost libfoo 0) g_szAddrType_init (some examplePath)).log.filter
      Event.isMunmap = [.munmap libfoo.length] ∧
    Event.mmap libfoo.length ∈
      (dumpSymbols (exampleHost libfoo 0) g_szAddrType_init (some examplePath)).log ∧
    ∀ (h' : Host Nat) (g' : List Nat) (args' : Option (List Nat)),
      (¬ ∃ p m i, args' = some p ∧ h'.Maps p m i) →
      (dumpSymbols h' g' args').log.filter Event.isMunmap = []) :=
  ⟨by decide,
    dumpSymbols_unmaps_once (exampleHost libfoo 0) g_szAddrType_init examplePath
      ⟨0, examplePath⟩ libfoo (.dict [(fooName, 0x1000)])
      (exampleHost_maps libfoo 0 (by decide) (by decide)) (by decide)⟩

/-! ## One step of the section scan -/

theorem runs_sections_step (W : Nat) (img : List Nat) (fs : List Field)
    (hfit : img.length < 2 ^ W) (hok : SectionsOk img) (h1 : Field.sh_name ∈ fs)
    (h2 : Field.section_name ∈ fs) (k : Nat) (hk : k < e_shnum img) (s : List Nat)
    (hs : sectionName img k = some s) (x y : Option Nat) :
    (dumpSymbols_sections W img (ptr W 0 (e_shoff img))
      (ptr W 0 (sh_offset img (e_shstrndx img))) 1 k x y).Runs img.length fs
      (if s = dotSymtab then some (shdr img k) else x,
        if s = dotStrtab then some (shdr img k) else y) [] := by
  have hb := hok.shdr_bound hk
  have hs' : stringAt img (sh_offset img (e_shstrndx img) + sh_name img k) = some s := hs
  have hp := (stringAt_cases hs').1
  have hhdr : ptr W (ptr W 0 (e_shoff img)) (40 * k) = shdr img k :=
    ptr_base (by unfold shdr at hb; omega)
  have hhdr0 : ptr W (shdr img k) 0 = shdr img k := ptr_eq (by omega)
  have hnm : ptr W (ptr W 0 (sh_offset img (e_shstrndx img))) (sh_name img k)
      = sh_offset img (e_shstrndx img) + sh_name img k := ptr_base (by omega)
  unfold dumpSymbols_sections
  simp only [hhdr, hhdr0]
  refine runs_then (runs_load img .sh_name (shdr img k) 4 fs (by omega) h1 (by decide))
    (runs_then (a := decide (s = dotSymtab)) ?_ ?_)
  · show (strcmp img (ptr W (ptr W 0 (sh_offset img (e_shstrndx img))) (sh_name img k))
      dotSymtab).Runs img.length fs (decide (s = dotSymtab)) []
    rw [hnm]
    exact runs_strcmp img fs h2 dotSymtab dotSymtab_nonzero _ s hs'
  · by_cases hsym : s = dotSymtab
    · have hne : ¬ s = dotStrtab := fun e => dotSymtab_ne_dotStrtab (hsym.symm.trans e)
      simp only [hsym, decide_True, if_true]
      unfold dumpSymbols_sections
      refine runs_cast (runs_pure _ _ _) ?_ rfl
      rw [if_neg (fun e => dotSymtab_ne_dotStrtab e)]
    · simp only [hsym, decide_False, Bool.false_eq_true, if_false]
      refine runs_then (a := decide (s = dotStrtab)) ?_ ?_
      · show (strcmp img (ptr W (ptr W 0 (sh_offset img (e_shstrndx img))) (sh_name img k))
          dotStrtab).Runs img.length fs (decide (s = dotStrtab)) []
        rw [hnm]
        exact runs_strcmp img fs h2 dotStrtab dotStrtab_nonzero _ s hs'
      · by_cases hstr : s = dotStrtab
        · simp only [hstr, decide_True, if_true]
          unfold dumpSymbols_sections
          exact runs_pure _ _ _
        · simp only [hstr, decide_False, Bool.false_eq_true, if_false]
          unfold dumpSymbols_sections
          exact runs_pure _ _ _

/-- C16. In the section scan of `dumpSymbols`, the header of a section whose name is the string
`s` becomes `symtab_hdr` exactly when `s` is ".symtab" byte for byte and `strtab_hdr` exactly
when `s` is ".strtab"; with any other name both choices stay as they were. In particular the
file whose sections are named ".symta", ".shstrtab", ".symtab2" and ".dynstr" has neither
table. -/
theorem dumpSymbols_sections_exact (W : Nat) (img : List Nat) (hfit : img.length < 2 ^ W)
    (hok : SectionsOk img) (k : Nat) (hk : k < e_shnum img) (s : List Nat)
    (hs : sectionName img k = some s) (symtab_hdr strtab_hdr : Option Nat) :
    (dumpSymbols_sections W img (ptr W 0 (e_shoff img))
      (ptr W 0 (sh_offset img (e_shstrndx img))) 1 k symtab_hdr strtab_hdr).val
      = .ok (if s = dotSymtab then some (shdr img k) else symtab_hdr,
        if s = dotStrtab then some (shdr img k) else strtab_hdr) ∧
    ((List.range 4).map (sectionName libLookalike)
      = [some [46, 115, 121, 109, 116, 97], some [46, 115, 104, 115, 116, 114, 116, 97, 98],
        some [46, 115, 121, 109, 116, 97, 98, 50], some [46, 100, 121, 110, 115, 116, 114]] ∧
    (dumpSymbols_sections 64 libLookalike (ptr 64 0 (e_shoff libLookalike))
      (ptr 64 0 (sh_offset libLookalike (e_shstrndx libLookalike))) 4 0 none none).val
      = .ok (none, none)) :=
  ⟨(runs_sections_step W img [.sh_name, .section_name] hfit hok (by decide) (by decide) k hk s hs
    symtab_hdr strtab_hdr).1, by decide, by decide⟩

/-- Witness of C16: section 2 of `libfoo` is named ".symtab", section 3 ".strtab". -/
theorem dumpSymbols_sections_exact_witness :
    SectionsOk libfoo ∧ sectionName libfoo 2 = some dotSymtab ∧
    ((dumpSymbols_sections 64 libfoo (ptr 64 0 (e_shoff libfoo))
      (ptr 64 0 (sh_offset libfoo (e_shstrndx libfoo))) 1 2 none none).val
      = .ok (if dotSymtab = dotSymtab then some (shdr libfoo 2) else none,
        if dotSymtab = dotStrtab then some (shdr libfoo 2) else none) ∧
    ((List.range 4).map (sectionName libLookalike)
      = [some [46, 115, 121, 109, 116, 97], some [46, 115, 104, 115, 116, 114, 116, 97, 98],
        some [46, 115, 121, 109, 116, 97, 98, 50], some [46, 100, 121, 110, 115, 116, 114]] ∧
    (dumpSymbols_sections 64 libLookalike (ptr 64 0 (e_shoff libLookalike))
      (ptr 64 0 (sh_offset libLookalike (e_shstrndx libLookalike))) 4 0 none none).val
      = .ok (none, none))) :=
  ⟨libfoo_wellFormed.sections, by decide,
    dumpSymbols_sections_exact 64 libfoo (by decide) libfoo_wellFormed.sections 2 (by decide)
      dotSymtab (by decide) none none⟩

/-! ## The reads of one field -/

theorem reads_bind {α β : Type} {s : Step α} {f : α → Step β} {fld : Field} {a : α} {b : β}
    {es1 es2 : List (Nat × Nat)} (h1 : s.Reads fld a es1) (h2 : (f a).Reads fld b es2) :
    (s >>= f).Reads fld b (es1 ++ es2) := by
  obtain ⟨hv1, hl1⟩ := h1
  obtain ⟨hv2, hl2⟩ := h2
  rcases log_bind s f with ⟨e, he, _, _⟩ | ⟨a', ha', hl, hv⟩
  · rw [hv1] at he; cases he
  · rw [hv1] at ha'
    cases ha'
    exact ⟨hv.trans hv2, by rw [hl, List.filterMap_append, hl1, hl2]⟩

theorem reads_then {α β : Type} {s : Step α} {f : α → Step β} {fld : Field} {a : α} {b : β}
    {es : List (Nat × Nat)} (h1 : s.Reads fld a []) (h2 : (f a).Reads fld b es) :
    (s >>= f).Reads fld b es :=
  reads_bind h1 h2

theorem reads_cast {α : Type} {s : Step α} {fld : Field} {x y : α} {es es' : List (Nat × Nat)}
    (h : s.Reads fld x es) (hx : x = y) (he : es = es') : s.Reads fld y es' := by
  subst hx; subst he; exact h

theorem reads_pure {α : Type} (fld : Field) (x : α) : (pure x : Step α).Reads fld x [] :=
  ⟨rfl, rfl⟩

theorem reads_quiet {α : Type} {s : Step α} {size : Nat} {fs : List Field} {x : α}
    {es : List Nat} (fld : Field) (h : s.Runs size fs x es) (hf : fld ∉ fs) :
    s.Reads fld x [] := by
  refine ⟨h.1, ?_⟩
  rw [List.filterMap_eq_nil_iff]
  intro e he
  have hal := h.2.1 e he
  cases e with
  | read f off len =>
    have hmem : f ∈ fs := hal.2
    have hne : ¬ f = fld := fun e => hf (e ▸ hmem)
    simp [Event.readOf, hne]
  | _ => rfl

theorem reads_load (img : List Nat) (fld : Field) (p len : Nat) (hb : p + len ≤ img.length) :
    (load img fld p len).Reads fld (le img p len) [(p, len)] := by
  refine ⟨by simp [load, hb], ?_⟩
  show List.filterMap (Event.readOf fld) [.read fld p len] = [(p, len)]
  simp [Event.readOf]

theorem reads_other (img : List Nat) (fld f : Field) (p len : Nat)
    (hb : p + len ≤ img.length) (hne : f ≠ fld) :
    (load img f p len).Reads fld (le img p len) [] := by
  refine ⟨by simp [load, hb], ?_⟩
  show List.filterMap (Event.readOf fld) [.read f p len] = []
  simp [Event.readOf, hne]

theorem reads_emit (fld : Field) (e : Event) (he : Event.readOf fld e = none) :
    (emit e).Reads fld () [] := by
  refine ⟨rfl, ?_⟩
  show List.filterMap (Event.readOf fld) [e] = []
  simp [he]

/-- The section scan reads `sh_name` of every header, in index order. -/
theorem reads_sections (W : Nat) (img : List Nat) (hfit : img.length < 2 ^ W)
    (hok : SectionsOk img) :
    ∀ (n i : Nat), i + n = e_shnum img → ∀ (x y : Option Nat), ∃ r,
      (dumpSymbols_sections W img (ptr W 0 (e_shoff img))
        (ptr W 0 (sh_offset img (e_shstrndx img))) n i x y).Reads .sh_name r
        ((List.range' i n).map (fun k => (shdr img k, 4))) := by
  intro n
  induction n with
  | zero =>
    intro i _ x y
    unfold dumpSymbols_sections
    exact ⟨_, reads_pure _ _⟩
  | succ n ih =>
    intro i hi x y
    have hik : i < e_shnum img := by omega
    have hb := hok.shdr_bound hik
    obtain ⟨s, hs⟩ := Option.isSome_iff_exists.1 (hok.names i hik)
    have hs' : stringAt img (sh_offset img (e_shstrndx img) + sh_name img i) = some s := hs
    have hp := (stringAt_cases hs').1
    have hhdr : ptr W (ptr W 0 (e_shoff img)) (40 * i) = shdr img i :=
      ptr_base (by unfold shdr at hb; omega)
    have hhdr0 : ptr W (shdr img i) 0 = shdr img i := ptr_eq (by omega)
    have hnm : ptr W (ptr W 0 (sh_offset img (e_shstrndx img))) (sh_name img i)
        = sh_offset img (e_shstrndx img) + sh_name img i := ptr_base (by omega)
    have hcmp : ∀ lit, (∀ c ∈ lit, c ≠ 0) →
        (strcmp img (ptr W (ptr W 0 (sh_offset img (e_shstrndx img))) (le img (shdr img i) 4))
          lit).Reads .sh_name (decide (s = lit)) [] := by
      intro lit hlit
      have e : le img (shdr img i) 4 = sh_name img i := rfl
      rw [e, hnm]
      exact reads_quiet .sh_name
        (runs_strcmp img [.section_name] (by decide) lit hlit _ s hs') (by decide)
    have hrec : ∀ x' y', ∃ r, (dumpSymbols_sections W img (ptr W 0 (e_shoff img))
        (ptr W 0 (sh_offset img (e_shstrndx img))) n (i + 1) x' y').Reads .sh_name r
        ((List.range' (i + 1) n).map (fun k => (shdr img k, 4))) := ih (i + 1) (by omega)
    have hlist : (List.range' i (n + 1)).map (fun k => (shdr img k, 4))
        = [(shdr img i, 4)] ++ (List.range' (i + 1) n).map (fun k => (shdr img k, 4)) := by
      rw [List.range'_succ]; rfl
    unfold dumpSymbols_sections
    simp only [hhdr, hhdr0]
    rw [hlist]
    by_cases hsym : s = dotSymtab
    · obtain ⟨r, hr⟩ := hrec (some (shdr img i)) y
      refine ⟨r, reads_bind (reads_load img .sh_name (shdr img i) 4 (by omega))
        (reads_then (hcmp dotSymtab dotSymtab_nonzero) ?_)⟩
      simpa [hsym] using hr
    · by_cases hstr : s = dotStrtab
      · obtain ⟨r, hr⟩ := hrec x (some (shdr img i))
        refine ⟨r, reads_bind (reads_load img .sh_name (shdr img i) 4 (by omega))
          (reads_then (hcmp dotSymtab dotSymtab_nonzero) ?_)⟩
        simp only [hsym, decide_False, Bool.false_eq_true, if_false]
        refine reads_then (hcmp dotStrtab dotStrtab_nonzero) ?_
        simpa [hstr] using hr
      · obtain ⟨r, hr⟩ := hrec x y
        refine ⟨r, reads_bind (reads_load img .sh_name (shdr img i) 4 (by omega))
          (reads_then (hcmp dotSymtab dotSymtab_nonzero) ?_)⟩
        simp only [hsym, decide_False, Bool.false_eq_true, if_false]
        refine reads_then (hcmp dotStrtab dotStrtab_nonzero) ?_
        simpa [hstr] using hr

/-- The symbol loop reads `st_shndx` of every entry, 16 bytes apart, in index order. -/
theorem reads_symbols {V : Type} (W : Nat) (build : Nat → Option V) (setOk : List Nat → Bool)
    (l_addr : Nat) (img : List Nat) (a b : Nat) (hfit : img.length < 2 ^ W)
    (hwf : WellFormed img a b) :
    ∀ (n i : Nat), i + n = symbol_count img a → ∀ (d : List (List Nat × V)), ∃ r,
      (dumpSymbols_symbols W build setOk l_addr img (ptr W 0 (sh_offset img a))
        (ptr W 0 (sh_offset img b)) n i d).Reads .st_shndx r
        ((List.range' i n).map (fun j => (symOff img a j + 14, 2))) := by
  intro n
  induction n with
  | zero =>
    intro i _ d
    unfold dumpSymbols_symbols
    exact ⟨_, reads_pure _ _⟩
  | succ n ih =>
    intro i hi d
    have hik : i < symbol_count img a := by omega
    have hb := hwf.entry_bound hik
    have h12 : ptr W (ptr W (ptr W 0 (sh_offset img a)) (16 * i)) 12 = symOff img a i + 12 :=
      ptr_base_field (by unfold symOff at hb; omega)
    have h0 : ptr W (ptr W (ptr W 0 (sh_offset img a)) (16 * i)) 0 = symOff img a i :=
      ptr_base_field (by unfold symOff at hb; omega)
    have h14 : ptr W (ptr W (ptr W 0 (sh_offset img a)) (16 * i)) 14 = symOff img a i + 14 :=
      ptr_base_field (by unfold symOff at hb; omega)
    have h4 : ptr W (ptr W (ptr W 0 (sh_offset img a)) (16 * i)) 4 = symOff img a i + 4 :=
      ptr_base_field (by unfold symOff at hb; omega)
    have hrec : ∀ d', ∃ r, (dumpSymbols_symbols W build setOk l_addr img
        (ptr W 0 (sh_offset img a)) (ptr W 0 (sh_offset img b)) n (i + 1) d').Reads .st_shndx r
        ((List.range' (i + 1) n).map (fun j => (symOff img a j + 14, 2))) := ih (i + 1) (by omega)
    have hlist : (List.range' i (n + 1)).map (fun j => (symOff img a j + 14, 2))
        = [(symOff img a i + 14, 2)] ++ (List.range' (i + 1) n).map (fun j => (symOff img a j + 14, 2)) := by
      rw [List.range'_succ]; rfl
    have hhead : ∀ {r : List (List Nat × V)} {k : Nat → Nat → Nat → Step (List (List Nat × V))},
        (k (le img (symOff img a i + 12) 1) (le img (symOff img a i) 4)
          (le img (symOff img a i + 14) 2)).Reads .st_shndx r
          ((List.range' (i + 1) n).map (fun j => (symOff img a j + 14, 2))) →
        (load img .st_info (symOff img a i + 12) 1 >>= fun u =>
          load img .st_name (symOff img a i) 4 >>= fun v =>
          load img .st_shndx (symOff img a i + 14) 2 >>= fun w => k u v w).Reads .st_shndx r
          ([(symOff img a i + 14, 2)] ++ (List.range' (i + 1) n).map (fun j => (symOff img a j + 14, 2))) :=
      fun hk => reads_then (reads_other img .st_shndx .st_info _ 1 (by omega) (by decide))
        (reads_then (reads_other img .st_shndx .st_name _ 4 (by omega) (by decide))
        (reads_bind (reads_load img .st_shndx _ 2 (by omega)) hk))
    unfold dumpSymbols_symbols
    simp only [h12, h0, h14, h4]
    rw [hlist]
    by_cases hp : passes img a i
    · have hcond : ¬ (le img (symOff img a i + 14) 2 = SHN_UNDEF ∨
          (ELF32_ST_TYPE (le img (symOff img a i + 12) 1) ≠ STT_FUNC ∧
            ELF32_ST_TYPE (le img (symOff img a i + 12) 1) ≠ STT_OBJECT)) := by
        unfold passes st_shndx st_info at hp
        tauto
      have hv : (l_addr + le img (symOff img a i + 4) 4) % 2 ^ W = symAddr W l_addr img a i :=
        rfl
      cases hbv : build (symAddr W l_addr img a i) with
      | none =>
        obtain ⟨r, hr⟩ := hrec d
        refine ⟨r, hhead ?_⟩
        dsimp only
        rw [if_neg hcond]
        refine reads_then (reads_emit _ _ rfl)
          (reads_then (reads_other img .st_shndx .st_value _ 4 (by omega) (by decide)) ?_)
        dsimp only
        rw [hv, hbv]
        exact hr
      | some v =>
        obtain ⟨name, hname⟩ := Option.isSome_iff_exists.1 (hwf.symNames i hik hp)
        have hname' : stringAt img (sh_offset img b + st_name img a i) = some name := hname
        have hnp := (stringAt_cases hname').1
        have hptr : ptr W (ptr W 0 (sh_offset img b)) (le img (symOff img a i) 4)
            = sh_offset img b + st_name img a i := ptr_base (by unfold st_name at hnp; omega)
        by_cases hk : setOk name = true
        · obtain ⟨r, hr⟩ := hrec (PyDict_SetItemString d name v)
          refine ⟨r, hhead ?_⟩
          dsimp only
          rw [if_neg hcond]
          refine reads_then (reads_emit _ _ rfl)
            (reads_then (reads_other img .st_shndx .st_value _ 4 (by omega) (by decide)) ?_)
          dsimp only
          rw [hv, hbv]
          dsimp only
          rw [hptr]
          refine reads_then (reads_quiet .st_shndx
            (runs_cstring img [.sym_name] (by decide) _ name hname') (by decide)) ?_
          rw [if_pos hk]
          exact hr
        · obtain ⟨r, hr⟩ := hrec d
          refine ⟨r, hhead ?_⟩
          dsimp only
          rw [if_neg hcond]
          refine reads_then (reads_emit _ _ rfl)
            (reads_then (reads_other img .st_shndx .st_value _ 4 (by omega) (by decide)) ?_)
          dsimp only
          rw [hv, hbv]
          dsimp only
          rw [hptr]
          refine reads_then (reads_quiet .st_shndx
            (runs_cstring img [.sym_name] (by decide) _ name hname') (by decide)) ?_
          rw [if_neg hk]
          exact hr
    · have hcond : le img (symOff img a i + 14) 2 = SHN_UNDEF ∨
          (ELF32_ST_TYPE (le img (symOff img a i + 12) 1) ≠ STT_FUNC ∧
            ELF32_ST_TYPE (le img (symOff img a i + 12) 1) ≠ STT_OBJECT) := by
        unfold passes st_shndx st_info at hp
        tauto
      obtain ⟨r, hr⟩ := hrec d
      refine ⟨r, hhead ?_⟩
      dsimp only
      rw [if_pos hcond]
      exact hr

theorem reads_check (img : List Nat) (fld : Field) (hh : 52 ≤ img.length)
    (h1 : e_shoff img ≠ 0) (h2 : e_shstrndx img ≠ SHN_UNDEF)
    (hf1 : Field.e_shoff ≠ fld) (hf2 : Field.e_shstrndx ≠ fld) {β : Type}
    (k : Bool → Step β) (x : β) (es : List (Nat × Nat)) (hk : (k false).Reads fld x es) :
    (do
      let e_shoff ← load img .e_shoff 32 4
      let malformed ←
        (if e_shoff = 0 then pure true
         else do
          let e_shstrndx ← load img .e_shstrndx 50 2
          pure (decide (e_shstrndx = SHN_UNDEF)) : Step Bool)
      k malformed : Step β).Reads fld x es := by
  refine reads_then (reads_other img fld .e_shoff 32 4 (by omega) hf1)
    (reads_then (a := false) ?_ hk)
  have h1' : ¬ le img 32 4 = 0 := h1
  rw [if_neg h1']
  refine reads_then (reads_other img fld .e_shstrndx 50 2 (by omega) hf2)
    (reads_cast (reads_pure _ _) ?_ rfl)
  have h2' : ¬ le img 50 2 = SHN_UNDEF := h2
  simp [h2']

theorem reads_scan (W : Nat) (img : List Nat) (fld : Field) (hfit : img.length < 2 ^ W)
    (hok : SectionsOk img) (hf1 : Field.e_shoff ≠ fld) (hf2 : Field.e_shstrndx ≠ fld)
    (hf3 : Field.e_shnum ≠ fld) (hf4 : Field.sh_offset ≠ fld) (es1 : List (Nat × Nat))
    (hsec : ∃ r, (dumpSymbols_sections W img (ptr W 0 (e_shoff img))
      (ptr W 0 (sh_offset img (e_shstrndx img))) (e_shnum img) 0 none none).Reads fld r es1)
    {β : Type} (k : Option Nat × Option Nat → Step β) (x : β) (es : List (Nat × Nat))
    (hk : (k ((lastNamed img dotSymtab (e_shnum img)).map (shdr img),
      (lastNamed img dotStrtab (e_shnum img)).map (shdr img))).Reads fld x es) :
    (do
      let e_shoff ← load img .e_shoff 32 4
      let sections := ptr W 0 e_shoff
      let section_count ← load img .e_shnum 48 2
      let e_shstrndx ← load img .e_shstrndx 50 2
      let shstrtab_hdr := ptr W sections (40 * e_shstrndx)
      let sh_offset ← load img .sh_offset (ptr W shstrtab_hdr 16) 4
      let shstrtab := ptr W 0 sh_offset
      let found ← dumpSymbols_sections W img sections shstrtab section_count 0 none none
      k found : Step β).Reads fld x (es1 ++ es) := by
  have hh := hok.header
  have hb := hok.shdr_bound hok.shstrtab
  have hptr : ptr W (ptr W (ptr W 0 (e_shoff img)) (40 * e_shstrndx img)) 16
      = shdr img (e_shstrndx img) + 16 := ptr_base_field (by unfold shdr at hb; omega)
  have hrun := (runs_sections W img [.sh_name, .section_name] hfit hok (by decide) (by decide)
    (e_shnum img) 0 (by omega)).1
  obtain ⟨r, hr1, hr2⟩ := hsec
  have hsec' : (dumpSymbols_sections W img (ptr W 0 (e_shoff img))
      (ptr W 0 (sh_offset img (e_shstrndx img))) (e_shnum img) 0 none none).Reads fld
      ((lastNamed img dotSymtab (e_shnum img)).map (shdr img),
        (lastNamed img dotStrtab (e_shnum img)).map (shdr img)) es1 := ⟨hrun, hr2⟩
  refine reads_then (reads_other img fld .e_shoff 32 4 (by omega) hf1)
    (reads_then (reads_other img fld .e_shnum 48 2 (by omega) hf3)
    (reads_then (reads_other img fld .e_shstrndx 50 2 (by omega) hf2) ?_))
  show (load img .sh_offset (ptr W (ptr W (ptr W 0 (e_shoff img)) (40 * e_shstrndx img)) 16) 4
    >>= _).Reads fld x (es1 ++ es)
  rw [hptr]
  exact reads_then (reads_other img fld .sh_offset _ 4 (by omega) hf4) (reads_bind hsec' hk)

/-- On a well-formed image the reads of a field of the section scan or of the symbol loop are
those of the scan followed by those of the loop. -/
theorem reads_mapped_wellFormed {V : Type} (W : Nat) (build : Nat → Option V)
    (setOk : List Nat → Bool) (l_addr : Nat) (img : List Nat) (a b : Nat) (fld : Field)
    (hfit : img.length < 2 ^ W) (hwf : WellFormed img a b)
    (hf1 : Field.e_shoff ≠ fld) (hf2 : Field.e_shstrndx ≠ fld) (hf3 : Field.e_shnum ≠ fld)
    (hf4 : Field.sh_offset ≠ fld) (hf5 : Field.sh_size ≠ fld) (hf6 : Field.sh_entsize ≠ fld)
    (es1 es2 : List (Nat × Nat))
    (hsec : ∃ r, (dumpSymbols_sections W img (ptr W 0 (e_shoff img))
      (ptr W 0 (sh_offset img (e_shstrndx img))) (e_shnum img) 0 none none).Reads fld r es1)
    (hsym : ∃ r, (dumpSymbols_symbols W build setOk l_addr img (ptr W 0 (sh_offset img a))
      (ptr W 0 (sh_offset img b)) (symbol_count img a) 0 []).Reads fld r es2) :
    (dumpSymbols_mapped W build setOk true l_addr img).Reads fld
      (.dict (symDict W build setOk l_addr img a b (symbol_count img a))) (es1 ++ es2) := by
  have hok := hwf.sections
  have ha := hok.shdr_bound (lastNamed_lt img dotSymtab _ a hwf.symtab)
  have hb := hok.shdr_bound (lastNamed_lt img dotStrtab _ b hwf.strtab)
  have pa16 : ptr W (shdr img a) 16 = shdr img a + 16 := ptr_eq (by omega)
  have pa20 : ptr W (shdr img a) 20 = shdr img a + 20 := ptr_eq (by omega)
  have pa36 : ptr W (shdr img a) 36 = shdr img a + 36 := ptr_eq (by omega)
  have pb16 : ptr W (shdr img b) 16 = shdr img b + 16 := ptr_eq (by omega)
  have hloop := (runs_symbols W build setOk l_addr img a b Field.all hfit hwf
    (fun f _ => by cases f <;> decide) (symbol_count img a) 0 (by omega)).1
  obtain ⟨r, _, hr2⟩ := hsym
  have hsym' : (dumpSymbols_symbols W build setOk l_addr img (ptr W 0 (sh_offset img a))
      (ptr W 0 (sh_offset img b)) (symbol_count img a) 0 []).Reads fld
      (symDict W build setOk l_addr img a b (symbol_count img a)) es2 := ⟨hloop, hr2⟩
  unfold dumpSymbols_mapped
  refine reads_check img fld hok.header hok.shoff hok.shstrndx hf1 hf2 _ _ _ ?_
  simp only [Bool.false_eq_true, if_false]
  refine reads_scan W img fld hfit hok hf1 hf2 hf3 hf4 es1 hsec _ _ _ ?_
  rw [hwf.symtab, hwf.strtab]
  simp only [Option.map_some', pa16, pa20, pa36, pb16]
  refine reads_then (reads_other img fld .sh_offset _ 4 (by omega) hf4)
    (reads_then (reads_other img fld .sh_offset _ 4 (by omega) hf4)
    (reads_then (reads_other img fld .sh_size _ 4 (by omega) hf5)
    (reads_then (reads_other img fld .sh_entsize _ 4 (by omega) hf6) ?_)))
  have hent : ¬ le img (shdr img a + 36) 4 = 0 := hwf.entsize
  rw [if_neg hent]
  simp only [Bool.true_eq_false, if_false]
  refine reads_cast (reads_bind hsym' (reads_then (reads_emit _ _ rfl) (reads_pure _ _)))
    rfl (by simp)

theorem reads_dumpSymbols {V : Type} (h : Host V) (g : List Nat) (szPath : List Nat)
    (dlmap : LinkMap) (img : List Nat) (hm : h.Maps szPath dlmap img) (fld : Field)
    (x : PyResult V) (es : List (Nat × Nat))
    (hr : (dumpSymbols_mapped h.ptrBits (h.Py_BuildValue g) h.setItemOk h.PyDict_New
      dlmap.l_addr img).Reads fld x es) :
    (dumpSymbols h g (some szPath)).Reads fld x es := by
  rw [dumpSymbols_of_maps h g szPath dlmap img hm]
  refine ⟨hr.1, ?_⟩
  show List.filterMap (Event.readOf fld) (mapEvents szPath dlmap img ++ _) = es
  rw [List.filterMap_append]
  exact hr.2

theorem mem_of_reads {α : Type} {s : Step α} {fld : Field} {x : α} {es : List (Nat × Nat)}
    (h : s.Reads fld x es) {off len : Nat} (hmem : (off, len) ∈ es) :
    Event.read fld off len ∈ s.log := by
  rw [← h.2, List.mem_filterMap] at hmem
  obtain ⟨e, he, hq⟩ := hmem
  cases e with
  | read f o l =>
    by_cases hf : f = fld
    · simp only [Event.readOf, hf, if_true, Option.some.injEq, Prod.mk.injEq] at hq
      rw [hf, hq.1, hq.2] at he
      exact he
    · simp [Event.readOf, hf] at hq
  | _ => simp [Event.readOf] at hq

theorem lastNamed_of_isLast (img lit : List Nat) (k : Nat) (hname : sectionName img k = some lit) :
    ∀ (n : Nat), k < n → (∀ j, j < n → k < j → sectionName img j ≠ some lit) →
      lastNamed img lit n = some k := by
  intro n
  induction n with
  | zero => intro h; omega
  | succ n ih =>
    intro hk hlast
    unfold lastNamed
    rcases Nat.lt_succ_iff_lt_or_eq.1 hk with hlt | heq
    · rw [if_neg (hlast n (Nat.lt_succ_self _) hlt)]
      exact ih hlt (fun j hj hkj => hlast j (Nat.lt_succ_of_lt hj) hkj)
    · subst heq
      rw [if_pos hname]

theorem libTwoSymtabs_sectionsOk : SectionsOk libTwoSymtabs :=
  ⟨by decide, by decide, by decide, by decide, by decide, by decide⟩

theorem libHalfEntsize_wellFormed : WellFormed libHalfEntsize 2 3 :=
  ⟨⟨by decide, by decide, by decide, by decide, by decide, by decide⟩,
    by decide, by decide, by decide, by decide, by decide⟩

/-- C18. When several section headers are named ".symtab" (or ".strtab"), `dumpSymbols` uses
the one with the greatest section index among them: the scan reads `sh_name` of all `e_shnum`
headers in index order, ends with the last header of each name, and the dictionary returned is
built from the table of that `.symtab` and the names of that `.strtab`. -/
theorem dumpSymbols_last_section_wins {V : Type} (h : Host V) (g szPath : List Nat)
    (dlmap : LinkMap) (img : List Nat) (a b : Nat) (hm : h.Maps szPath dlmap img)
    (hdict : h.PyDict_New = true) (hok : SectionsOk img)
    (ha : IsLastNamed img dotSymtab a) (hb : IsLastNamed img dotStrtab b)
    (hent : sh_entsize img a ≠ 0)
    (hentries : sh_offset img a + 16 * symbol_count img a ≤ img.length)
    (hnames : ∀ i < symbol_count img a, passes img a i → (symName img a b i).isSome = true) :
    (dumpSymbols_sections h.ptrBits img (ptr h.ptrBits 0 (e_shoff img))
      (ptr h.ptrBits 0 (sh_offset img (e_shstrndx img))) (e_shnum img) 0 none none).Reads
      .sh_name (some (shdr img a), some (shdr img b))
      ((List.range (e_shnum img)).map (fun k => (shdr img k, 4))) ∧
    (dumpSymbols h g (some szPath)).Reads .sh_name
      (.dict (symDict h.ptrBits (h.Py_BuildValue g) h.setItemOk dlmap.l_addr img a b
        (symbol_count img a)))
      ((List.range (e_shnum img)).map (fun k => (shdr img k, 4))) := by
  have hfit := hm.2.2.2.2.2.2
  have hsa := lastNamed_of_isLast img dotSymtab a ha.2.1 (e_shnum img) ha.1 ha.2.2
  have hsb := lastNamed_of_isLast img dotStrtab b hb.2.1 (e_shnum img) hb.1 hb.2.2
  have hwf : WellFormed img a b := ⟨hok, hsa, hsb, hent, hentries, hnames⟩
  have hsec := reads_sections h.ptrBits img hfit hok (e_shnum img) 0 (by omega) none none
  rw [← List.range_eq_range'] at hsec
  have hrun := (runs_sections h.ptrBits img [.sh_name, .section_name] hfit hok (by decide)
    (by decide) (e_shnum img) 0 (by omega)).1
  rw [hsa, hsb] at hrun
  refine ⟨?_, ?_⟩
  · obtain ⟨r, _, hr2⟩ := hsec
    exact ⟨hrun, hr2⟩
  · have hsym := reads_quiet .sh_name
      (runs_symbols h.ptrBits (h.Py_BuildValue g) h.setItemOk dlmap.l_addr img a b
        [.st_info, .st_name, .st_shndx, .st_value, .sym_name] hfit hwf (fun _ hf => hf)
        (symbol_count img a) 0 (by omega)) (by decide)
    have hmap := reads_mapped_wellFormed h.ptrBits (h.Py_BuildValue g) h.setItemOk dlmap.l_addr
      img a b .sh_name hfit hwf (by decide) (by decide) (by decide) (by decide) (by decide)
      (by decide) _ [] hsec ⟨_, hsym⟩
    rw [List.append_nil] at hmap
    refine reads_dumpSymbols h g szPath dlmap img hm .sh_name _ _ ?_
    rw [hdict]
    exact hmap

/-- Witness of C18: in `libTwoSymtabs` sections 2 and 3 are named ".symtab"; section 3 is used,
whose table gives `foo` the value 0x2222. -/
theorem dumpSymbols_last_section_wins_witness :
    sectionName libTwoSymtabs 2 = some dotSymtab ∧ IsLastNamed libTwoSymtabs dotSymtab 3 ∧
    IsLastNamed libTwoSymtabs dotStrtab 4 ∧
    (dumpSymbols (exampleHost libTwoSymtabs 0) g_szAddrType_init (some examplePath)).val
      = .ok (.dict [(fooName, 0x2222)]) ∧
    ((dumpSymbols_sections 64 libTwoSymtabs (ptr 64 0 (e_shoff libTwoSymtabs))
      (ptr 64 0 (sh_offset libTwoSymtabs (e_shstrndx libTwoSymtabs))) (e_shnum libTwoSymtabs) 0
      none none).Reads
      .sh_name (some (shdr libTwoSymtabs 3), some (shdr libTwoSymtabs 4))
      ((List.range (e_shnum libTwoSymtabs)).map (fun k => (shdr libTwoSymtabs k, 4))) ∧
    (dumpSymbols (exampleHost libTwoSymtabs 0) g_szAddrType_init (some examplePath)).Reads
      .sh_name
      (.dict (symDict 64 ((exampleHost libTwoSymtabs 0).Py_BuildValue g_szAddrType_init)
        (exampleHost libTwoSymtabs 0).setItemOk 0 libTwoSymtabs 3 4
        (symbol_count libTwoSymtabs 3)))
      ((List.range (e_shnum libTwoSymtabs)).map (fun k => (shdr libTwoSymtabs k, 4)))) :=
  ⟨by decide, by decide, by decide, by decide,
    dumpSymbols_last_section_wins (exampleHost libTwoSymtabs 0) g_szAddrType_init examplePath
      ⟨0, examplePath⟩ libTwoSymtabs 3 4
      (exampleHost_maps libTwoSymtabs 0 (by decide) (by decide)) rfl libTwoSymtabs_sectionsOk
      (by decide) (by decide) (by decide) (by decide) (by decide)⟩

/-- C19, counterexample. In `libOddEntsize` the header of `.symtab` has `sh_entsize = 15`, less
than 16, and `sh_size = 29` at `sh_offset = 239`: one entry is visited, the reads of its fields
end at offsets 252, 243 and 255, so no byte at or beyond `sh_offset + sh_size = 268` is read. -/
theorem dumpSymbols_odd_entsize_inside :
    sh_entsize libOddEntsize 2 = 15 ∧ sh_offset libOddEntsize 2 + sh_size libOddEntsize 2 = 268 ∧
    (dumpSymbols (exampleHost libOddEntsize 0) g_szAddrType_init (some examplePath)).val
      = .ok (.dict []) ∧
    (dumpSymbols (exampleHost libOddEntsize 0) g_szAddrType_init
      (some examplePath)).log.filterMap Event.symEnd? = [252, 243, 255] := by
  decide

/-- C19, amended. On a well-formed image `dumpSymbols` reads symbol entry `i` at file offset
`sh_offset + 16 * i` (its `st_info` at 12 and its `st_shndx` at 14 from there) for every
`i < sh_size / sh_entsize`, whatever `sh_entsize` is; these offsets are those of the declared
entries, `sh_offset + sh_entsize * i`, if and only if `sh_entsize = 16` or the count is at
most 1; and when `sh_entsize < 16` divides a non-zero `sh_size`, the last byte read, the second
byte of `st_shndx` of the last entry, lies at or beyond `sh_offset + sh_size`. -/
theorem dumpSymbols_entry_stride {V : Type} (h : Host V) (g szPath : List Nat)
    (dlmap : LinkMap) (img : List Nat) (a b : Nat) (hm : h.Maps szPath dlmap img)
    (hdict : h.PyDict_New = true) (hwf : WellFormed img a b) :
    (dumpSymbols h g (some szPath)).entries
      = (List.range (sh_size img a / sh_entsize img a)).map
        (fun i => sh_offset img a + 16 * i + 12) ∧
    (dumpSymbols h g (some szPath)).log.filterMap (Event.readOf .st_shndx)
      = (List.range (sh_size img a / sh_entsize img a)).map
        (fun i => (sh_offset img a + 16 * i + 14, 2)) ∧
    ((∀ i, i < sh_size img a / sh_entsize img a →
        sh_offset img a + 16 * i = sh_offset img a + sh_entsize img a * i) ↔
      (sh_entsize img a = 16 ∨ sh_size img a / sh_entsize img a ≤ 1)) ∧
    (sh_entsize img a < 16 → sh_entsize img a ∣ sh_size img a → 0 < sh_size img a →
      Event.read .st_shndx
        (sh_offset img a + 16 * (sh_size img a / sh_entsize img a - 1) + 14) 2 ∈
        (dumpSymbols h g (some szPath)).log ∧
      sh_offset img a + sh_size img a
        ≤ sh_offset img a + 16 * (sh_size img a / sh_entsize img a - 1) + 15) := by
  have hfit := hm.2.2.2.2.2.2
  have hr := runs_wellFormed h g szPath dlmap img a b hm hwf
  rw [hdict] at hr
  have hsec := reads_quiet .st_shndx
    (runs_sections h.ptrBits img [.sh_name, .section_name] hfit hwf.sections (by decide)
      (by decide) (e_shnum img) 0 (by omega)) (by decide)
  have hsym := reads_symbols h.ptrBits (h.Py_BuildValue g) h.setItemOk dlmap.l_addr img a b
    hfit hwf (symbol_count img a) 0 (by omega) []
  rw [← List.range_eq_range'] at hsym
  have hmap := reads_mapped_wellFormed h.ptrBits (h.Py_BuildValue g) h.setItemOk dlmap.l_addr
    img a b .st_shndx hfit hwf (by decide) (by decide) (by decide) (by decide) (by decide)
    (by decide) [] _ ⟨_, hsec⟩ hsym
  rw [List.nil_append, ← hdict] at hmap
  have hreads := reads_dumpSymbols h g szPath dlmap img hm .st_shndx _ _ hmap
  refine ⟨hr.2.2, hreads.2, ?_, ?_⟩
  · constructor
    · intro hall
      by_cases hc : sh_size img a / sh_entsize img a ≤ 1
      · exact Or.inr hc
      · left
        have h1 := hall 1 (by omega)
        omega
    · rintro (h16 | hc) i hi
      · rw [h16]
      · have : i = 0 := by omega
        subst this
        simp
  · intro hlt hdvd hpos
    have hne : sh_entsize img a ≠ 0 := hwf.entsize
    have hmul : sh_size img a / sh_entsize img a * sh_entsize img a = sh_size img a :=
      Nat.div_mul_cancel hdvd
    have hcount : 0 < sh_size img a / sh_entsize img a :=
      Nat.div_pos (Nat.le_of_dvd hpos hdvd) (Nat.pos_of_ne_zero hne)
    have hle : sh_size img a / sh_entsize img a * sh_entsize img a
        ≤ sh_size img a / sh_entsize img a * 15 :=
      Nat.mul_le_mul_left _ (by omega)
    refine ⟨mem_of_reads hreads ?_, by omega⟩
    refine List.mem_map.2 ⟨sh_size img a / sh_entsize img a - 1, ?_, rfl⟩
    rw [List.mem_range]
    show sh_size img a / sh_entsize img a - 1 < sh_size img a / sh_entsize img a
    omega

/-- Witness of C19, amended: `libHalfEntsize` declares two entries of 8 bytes in 16 bytes; the
second entry read lies wholly beyond the table. -/
theorem dumpSymbols_entry_stride_witness :
    WellFormed libHalfEntsize 2 3 ∧ sh_entsize libHalfEntsize 2 = 8 ∧
    sh_size libHalfEntsize 2 = 16 ∧
    ((dumpSymbols (exampleHost libHalfEntsize 0) g_szAddrType_init (some examplePath)).entries
      = (List.range (sh_size libHalfEntsize 2 / sh_entsize libHalfEntsize 2)).map
        (fun i => sh_offset libHalfEntsize 2 + 16 * i + 12) ∧
    (dumpSymbols (exampleHost libHalfEntsize 0) g_szAddrType_init
      (some examplePath)).log.filterMap (Event.readOf .st_shndx)
      = (List.range (sh_size libHalfEntsize 2 / sh_entsize libHalfEntsize 2)).map
        (fun i => (sh_offset libHalfEntsize 2 + 16 * i + 14, 2)) ∧
    ((∀ i, i < sh_size libHalfEntsize 2 / sh_entsize libHalfEntsize 2 →
        sh_offset libHalfEntsize 2 + 16 * i
          = sh_offset libHalfEntsize 2 + sh_entsize libHalfEntsize 2 * i) ↔
      (sh_entsize libHalfEntsize 2 = 16 ∨
        sh_size libHalfEntsize 2 / sh_entsize libHalfEntsize 2 ≤ 1)) ∧
    (sh_entsize libHalfEntsize 2 < 16 → sh_entsize libHalfEntsize 2 ∣ sh_size libHalfEntsize 2 →
      0 < sh_size libHalfEntsize 2 →
      Event.read .st_shndx (sh_offset libHalfEntsize 2 +
          16 * (sh_size libHalfEntsize 2 / sh_entsize libHalfEntsize 2 - 1) + 14) 2 ∈
        (dumpSymbols (exampleHost libHalfEntsize 0) g_szAddrType_init (some examplePath)).log ∧
      sh_offset libHalfEntsize 2 + sh_size libHalfEntsize 2
        ≤ sh_offset libHalfEntsize 2 +
          16 * (sh_size libHalfEntsize 2 / sh_entsize libHalfEntsize 2 - 1) + 15)) :=
  ⟨libHalfEntsize_wellFormed, by decide, by decide,
    dumpSymbols_entry_stride (exampleHost libHalfEntsize 0) g_szAddrType_init examplePath
      ⟨0, examplePath⟩ libHalfEntsize 2 3
      (exampleHost_maps libHalfEntsize 0 (by decide) (by decide)) rfl
      libHalfEntsize_wellFormed⟩

/-! ## Two files under the same run -/

theorem bind_eq_ok {α β : Type} (s : Step α) (f : α → Step β) (a : α) (h : s.val = .ok a) :
    (s >>= f) = ⟨s.log ++ (f a).log, (f a).val⟩ := by
  show Step.andThen s f = _
  unfold Step.andThen
  rw [h]

theorem bind_eq_error {α β : Type} (s : Step α) (f : α → Step β) (e : Fault)
    (h : s.val = .error e) : (s >>= f) = ⟨s.log, .error e⟩ := by
  show Step.andThen s f = _
  unfold Step.andThen
  rw [h]

theorem sameIf_refl {α : Type} (P : Event → Prop) (s : Step α) : Step.SameIf P s s :=
  fun _ => rfl

theorem sameIf_bind {α β : Type} {P : Event → Prop} {s1 s2 : Step α} {f1 f2 : α → Step β}
    (hs : Step.SameIf P s2 s1) (hf : ∀ a, Step.SameIf P (f2 a) (f1 a)) :
    Step.SameIf P (s2 >>= f2) (s1 >>= f1) := by
  intro hP
  cases hv : s1.val with
  | error e =>
    rw [bind_eq_error s1 f1 e hv] at hP ⊢
    have h21 : s2 = s1 := hs hP
    rw [h21, bind_eq_error s1 f2 e hv]
  | ok a =>
    rw [bind_eq_ok s1 f1 a hv] at hP ⊢
    have h21 : s2 = s1 := hs (fun e he => hP e (List.mem_append_left _ he))
    have hfa : f2 a = f1 a := hf a (fun e he => hP e (List.mem_append_right _ he))
    rw [h21, bind_eq_ok s1 f2 a hv, hfa]

theorem sameIf_load (img1 img2 : List Nat) (hlen : img2.length = img1.length) (f : Field)
    (hf : f ≠ .st_info) (p len : Nat) :
    Step.SameIf (Agree img1 img2) (load img2 f p len) (load img1 f p len) := by
  intro hP
  have h := hP (.read f p len) (List.mem_singleton.2 rfl)
  have hval : le img1 p len = le img2 p len := by
    simpa [Agree, hf] using h
  unfold load
  rw [hlen, hval]

theorem sameIf_info {β : Type} (img1 img2 : List Nat) (hlen : img2.length = img1.length)
    (p len : Nat) {f1 f2 : Nat → Step β}
    (hf : ∀ v1 v2, v1 % 16 = v2 % 16 → Step.SameIf (Agree img1 img2) (f2 v2) (f1 v1)) :
    Step.SameIf (Agree img1 img2) (load img2 .st_info p len >>= f2)
      (load img1 .st_info p len >>= f1) := by
  intro hP
  by_cases hb : p + len ≤ img1.length
  · have hb2 : p + len ≤ img2.length := by rw [hlen]; exact hb
    have hv1 : (load img1 .st_info p len).val = .ok (le img1 p len) := by simp [load, hb]
    have hv2 : (load img2 .st_info p len).val = .ok (le img2 p len) := by simp [load, hb2]
    rw [bind_eq_ok _ f1 _ hv1] at hP ⊢
    rw [bind_eq_ok _ f2 _ hv2]
    have h := hP (.read .st_info p len) (List.mem_append_left _ (List.mem_singleton.2 rfl))
    have hmod : le img1 p len % 16 = le img2 p len % 16 := by
      simpa [Agree] using h
    have hfa := hf _ _ hmod (fun e he => hP e (List.mem_append_right _ he))
    rw [hfa]
    rfl
  · have hb2 : ¬ p + len ≤ img2.length := by rw [hlen]; exact hb
    have hv1 : (load img1 .st_info p len).val = .error (.outOfBounds p len) := by
      simp [load, hb]
    have hv2 : (load img2 .st_info p len).val = .error (.outOfBounds p len) := by
      simp [load, hb2]
    rw [bind_eq_error _ f1 _ hv1, bind_eq_error _ f2 _ hv2]
    rfl

theorem sameIf_strcmp (img1 img2 : List Nat) (hlen : img2.length = img1.length) :
    ∀ (lit : List Nat) (p : Nat),
      Step.SameIf (Agree img1 img2) (strcmp img2 p lit) (strcmp img1 p lit) := by
  intro lit
  induction lit with
  | nil =>
    intro p
    unfold strcmp
    exact sameIf_bind (sameIf_load img1 img2 hlen _ (by decide) p 1) (fun _ => sameIf_refl _ _)
  | cons l ls ih =>
    intro p
    unfold strcmp
    refine sameIf_bind (sameIf_load img1 img2 hlen _ (by decide) p 1) (fun c => ?_)
    dsimp only
    split
    · exact ih (p + 1)
    · exact sameIf_refl _ _

theorem cstring_lt (img : List Nat) (p : Nat) (hp : p < img.length) :
    cstring img p =
      if byteAt img p = 0 then ⟨[.read .sym_name p 1], .ok []⟩
      else emit (.read .sym_name p 1) >>= fun _ =>
        cstring img (p + 1) >>= fun s => pure (byteAt img p :: s) := by
  have hb : byteAt img p = img[p] % 256 := by
    unfold byteAt; rw [List.getD_eq_getElem img 0 hp]
  unfold cstring
  rw [List.drop_eq_getElem_cons hp, hb]
  rfl

theorem cstring_ge (img : List Nat) (p : Nat) (hp : img.length ≤ p) :
    cstring img p = ⟨[.read .sym_name p 1], .error (.outOfBounds p 1)⟩ := by
  unfold cstring
  rw [List.drop_eq_nil_of_le hp]
  rfl

theorem sameIf_cstring (img1 img2 : List Nat) (hlen : img2.length = img1.length) :
    ∀ (m p : Nat), img1.length - p = m →
      Step.SameIf (Agree img1 img2) (cstring img2 p) (cstring img1 p) := by
  intro m
  induction m with
  | zero =>
    intro p hm
    rw [cstring_ge img1 p (by omega), cstring_ge img2 p (by omega)]
    exact sameIf_refl _ _
  | succ m ih =>
    intro p hm hP
    have hp1 : p < img1.length := by omega
    have hp2 : p < img2.length := by omega
    rw [cstring_lt img1 p hp1] at hP ⊢
    rw [cstring_lt img2 p hp2]
    have hmem : Event.read .sym_name p 1 ∈
        (if byteAt img1 p = 0 then (⟨[.read .sym_name p 1], .ok []⟩ : Step (List Nat))
          else emit (.read .sym_name p 1) >>= fun _ =>
            cstring img1 (p + 1) >>= fun s => pure (byteAt img1 p :: s)).log := by
      split
      · exact List.mem_singleton.2 rfl
      · rw [bind_eq_ok (emit (.read .sym_name p 1)) _ () rfl]
        exact List.mem_append_left _ (List.mem_singleton.2 rfl)
    have hag := hP _ hmem
    have hbyte : byteAt img1 p = byteAt img2 p := by
      have : le img1 p 1 = le img2 p 1 := by simpa [Agree] using hag
      rw [le_one, le_one] at this
      exact this
    rw [← hbyte]
    by_cases hz : byteAt img1 p = 0
    · rw [if_pos hz, if_pos hz]
    · rw [if_neg hz] at hP
      rw [if_neg hz, if_neg hz]
      exact sameIf_bind (sameIf_refl _ _)
        (fun _ => sameIf_bind (ih (p + 1) (by omega)) (fun _ => sameIf_refl _ _)) hP

theorem sameIf_sections (W : Nat) (img1 img2 : List Nat) (hlen : img2.length = img1.length)
    (sections shstrtab : Nat) :
    ∀ (n i : Nat) (x y : Option Nat),
      Step.SameIf (Agree img1 img2) (dumpSymbols_sections W img2 sections shstrtab n i x y)
        (dumpSymbols_sections W img1 sections shstrtab n i x y) := by
  intro n
  induction n with
  | zero => intro i x y; unfold dumpSymbols_sections; exact sameIf_refl _ _
  | succ n ih =>
    intro i x y
    unfold dumpSymbols_sections
    refine sameIf_bind (sameIf_load img1 img2 hlen _ (by decide) _ _)
      (fun v => sameIf_bind (sameIf_strcmp img1 img2 hlen _ _) (fun c => ?_))
    dsimp only
    split
    · exact ih _ _ _
    · refine sameIf_bind (sameIf_strcmp img1 img2 hlen _ _) (fun c' => ?_)
      dsimp only
      split
      · exact ih _ _ _
      · exact ih _ _ _

theorem sameIf_symbols {V : Type} (W : Nat) (build : Nat → Option V) (setOk : List Nat → Bool)
    (l_addr : Nat) (img1 img2 : List Nat) (hlen : img2.length = img1.length)
    (symtab strtab : Nat) :
    ∀ (n i : Nat) (d : List (List Nat × V)),
      Step.SameIf (Agree img1 img2)
        (dumpSymbols_symbols W build setOk l_addr img2 symtab strtab n i d)
        (dumpSymbols_symbols W build setOk l_addr img1 symtab strtab n i d) := by
  intro n
  induction n with
  | zero => intro i d; unfold dumpSymbols_symbols; exact sameIf_refl _ _
  | succ n ih =>
    intro i d
    unfold dumpSymbols_symbols
    refine sameIf_info img1 img2 hlen _ _ (fun v1 v2 hv => ?_)
    have hty : ELF32_ST_TYPE v2 = ELF32_ST_TYPE v1 := by
      unfold ELF32_ST_TYPE
      exact hv.symm
    dsimp only
    rw [hty]
    refine sameIf_bind (sameIf_load img1 img2 hlen _ (by decide) _ _)
      (fun w => sameIf_bind (sameIf_load img1 img2 hlen _ (by decide) _ _) (fun x => ?_))
    split
    · exact ih _ _
    · refine sameIf_bind (sameIf_refl _ _)
        (fun _ => sameIf_bind (sameIf_load img1 img2 hlen _ (by decide) _ _) (fun z => ?_))
      dsimp only
      split
      · exact ih _ _
      · refine sameIf_bind (sameIf_cstring img1 img2 hlen _ _ rfl) (fun name => ?_)
        split
        · exact ih _ _
        · exact ih _ _

theorem sameIf_mapped {V : Type} (W : Nat) (build : Nat → Option V)
    (setOk : List Nat → Bool) (dictOk : Bool) (l_addr : Nat) (img1 img2 : List Nat)
    (hlen : img2.length = img1.length) :
    Step.SameIf (Agree img1 img2) (dumpSymbols_mapped W build setOk dictOk l_addr img2)
      (dumpSymbols_mapped W build setOk dictOk l_addr img1) := by
  unfold dumpSymbols_mapped
  rw [hlen]
  refine sameIf_bind (sameIf_load img1 img2 hlen _ (by decide) _ _)
    (fun e_shoff => sameIf_bind ?_ (fun m => ?_))
  · split
    · exact sameIf_refl _ _
    · exact sameIf_bind (sameIf_load img1 img2 hlen _ (by decide) _ _)
        (fun _ => sameIf_refl _ _)
  · dsimp only
    split
    · exact sameIf_refl _ _
    · refine sameIf_bind (sameIf_load img1 img2 hlen _ (by decide) _ _)
        (fun _ => sameIf_bind (sameIf_load img1 img2 hlen _ (by decide) _ _)
        (fun _ => sameIf_bind (sameIf_load img1 img2 hlen _ (by decide) _ _)
        (fun _ => sameIf_bind (sameIf_load img1 img2 hlen _ (by decide) _ _)
        (fun _ => sameIf_bind (sameIf_sections W img1 img2 hlen _ _ _ _ _ _)
        (fun found => ?_)))))
      dsimp only
      split
      · refine sameIf_bind (sameIf_load img1 img2 hlen _ (by decide) _ _)
          (fun _ => sameIf_bind (sameIf_load img1 img2 hlen _ (by decide) _ _)
          (fun _ => sameIf_bind (sameIf_load img1 img2 hlen _ (by decide) _ _)
          (fun _ => sameIf_bind (sameIf_load img1 img2 hlen _ (by decide) _ _)
          (fun _ => ?_))))
        dsimp only
        split
        · exact sameIf_refl _ _
        · split
          · exact sameIf_refl _ _
          · exact sameIf_bind (sameIf_symbols W build setOk l_addr img1 img2 hlen _ _ _ _ _)
              (fun _ => sameIf_refl _ _)
      · exact sameIf_refl _ _

theorem sameIf_dumpSymbols {V : Type} (h : Host V) (g : List Nat) (args : Option (List Nat))
    (img1 img2 : List Nat) (hlen : img2.length = img1.length) :
    Step.SameIf (Agree img1 img2) (dumpSymbols (h.withFile img2) g args)
      (dumpSymbols (h.withFile img1) g args) := by
  unfold dumpSymbols
  dsimp only [Host.withFile]
  by_cases hl : h.linux = false
  · rw [if_pos hl, if_pos hl]; exact sameIf_refl _ _
  · rw [if_neg hl, if_neg hl]
    cases args with
    | none => exact sameIf_refl _ _
    | some szPath =>
      dsimp only
      cases hd : h.dlopen szPath with
      | none => exact sameIf_refl _ _
      | some dlmap =>
        dsimp only
        refine sameIf_bind (sameIf_refl _ _) (fun _ => sameIf_bind (sameIf_refl _ _)
          (fun _ => sameIf_bind (sameIf_refl _ _) (fun _ => sameIf_bind (sameIf_refl _ _)
          (fun _ => ?_))))
        cases ho : h.openFile dlmap.l_name with
        | none => exact sameIf_refl _ _
        | some img =>
          dsimp only [Option.map]
          rw [hlen]
          refine sameIf_bind (sameIf_refl _ _) (fun _ => ?_)
          by_cases hf : h.fstatOk = false
          · rw [if_pos hf, if_pos hf]; exact sameIf_refl _ _
          · rw [if_neg hf, if_neg hf]
            refine sameIf_bind (sameIf_refl _ _) (fun _ => ?_)
            by_cases hc : h.mmapOk = false ∨ img1.length = 0 ∨ 2 ^ h.ptrBits ≤ img1.length
            · rw [if_pos hc, if_pos hc]; exact sameIf_refl _ _
            · rw [if_neg hc, if_neg hc]
              exact sameIf_bind (sameIf_refl _ _)
                (fun _ => sameIf_mapped _ _ _ _ _ img1 img2 hlen)

theorem byteAt_set_ne (img : List Nat) (k c o : Nat) (h : o ≠ k) :
    byteAt (img.set k c) o = byteAt img o := by
  unfold byteAt
  rw [List.getD_eq_getElem?_getD, List.getD_eq_getElem?_getD, List.getElem?_set_ne (Ne.symm h)]

theorem byteAt_ge (img : List Nat) (o : Nat) (h : img.length ≤ o) : byteAt img o = 0 := by
  unfold byteAt
  rw [List.getD_eq_default _ _ h]

theorem le_congr (img1 img2 : List Nat) :
    ∀ (len off : Nat), (∀ o, off ≤ o → o < off + len → byteAt img1 o = byteAt img2 o) →
      le img1 off len = le img2 off len := by
  intro len
  induction len with
  | zero => intro off _; rfl
  | succ n ih =>
    intro off h
    unfold le
    rw [h off (Nat.le_refl _) (by omega), ih (off + 1) (fun o h1 h2 => h o (by omega) (by omega))]

theorem le_mod_16 (img : List Nat) (off len : Nat) (hlen : len ≠ 0) :
    le img off len % 16 = byteAt img off % 16 := by
  cases len with
  | zero => exact absurd rfl hlen
  | succ n =>
    unfold le
    omega

theorem le_mod_16_congr (img1 img2 : List Nat) (off len : Nat)
    (h : byteAt img1 off % 16 = byteAt img2 off % 16) :
    le img1 off len % 16 = le img2 off len % 16 := by
  by_cases hlen : len = 0
  · rw [hlen]; rfl
  · rw [le_mod_16 img1 off len hlen, le_mod_16 img2 off len hlen, h]

theorem agree_of_le_eq (img1 img2 : List Nat) (f : Field) (off len : Nat)
    (h : le img1 off len = le img2 off len) : Agree img1 img2 (.read f off len) := by
  show if f = Field.st_info then le img1 off len % 16 = le img2 off len % 16
    else le img1 off len = le img2 off len
  split
  · rw [h]
  · exact h

theorem libOverlapFoo_wellFormed : WellFormed libOverlapFoo 2 3 :=
  ⟨⟨by decide, by decide, by decide, by decide, by decide, by decide⟩,
    by decide, by decide, by decide, by decide, by decide⟩

theorem libOverlapBar_wellFormed : WellFormed libOverlapBar 2 3 :=
  ⟨⟨by decide, by decide, by decide, by decide, by decide, by decide⟩,
    by decide, by decide, by decide, by decide, by decide⟩

/-! ## Where the reads start -/

theorem beyond_pure {α : Type} (x : α) (lo : Nat) : (pure x : Step α).Beyond lo :=
  fun _ he => (List.not_mem_nil _ he).elim

theorem beyond_fault {α : Type} (x : Fault) (lo : Nat) : (fault x : Step α).Beyond lo :=
  fun _ he => (List.not_mem_nil _ he).elim

theorem beyond_emit (e : Event) (lo : Nat) (he : e.beyond lo) : (emit e).Beyond lo := by
  intro e' he'
  rw [List.mem_singleton.1 he']
  exact he

theorem beyond_bind {α β : Type} {s : Step α} {f : α → Step β} {lo : Nat} (h1 : s.Beyond lo)
    (h2 : ∀ a, s.val = .ok a → (f a).Beyond lo) : (s >>= f).Beyond lo := by
  intro e he
  cases hv : s.val with
  | error x =>
    rw [bind_eq_error s f x hv] at he
    exact h1 e he
  | ok a =>
    rw [bind_eq_ok s f a hv] at he
    rcases List.mem_append.1 he with h | h
    · exact h1 e h
    · exact h2 a hv e h

theorem load_ok {img : List Nat} {f : Field} {p len v : Nat}
    (h : (load img f p len).val = .ok v) : v = le img p len := by
  unfold load at h
  by_cases hb : p + len ≤ img.length
  · rw [if_pos hb] at h
    exact (Except.ok.inj h).symm
  · rw [if_neg hb] at h
    cases h

theorem beyond_load (img : List Nat) (f : Field) (p len lo : Nat) (hp : lo ≤ p) :
    (load img f p len).Beyond lo := by
  intro e he
  rw [List.mem_singleton.1 he]
  exact hp

theorem beyond_strcmp (img : List Nat) (lo : Nat) :
    ∀ (lit : List Nat) (p : Nat), lo ≤ p → (strcmp img p lit).Beyond lo := by
  intro lit
  induction lit with
  | nil =>
    intro p hp
    unfold strcmp
    exact beyond_bind (beyond_load _ _ _ _ _ hp) (fun _ _ => beyond_pure _ _)
  | cons l ls ih =>
    intro p hp
    unfold strcmp
    refine beyond_bind (beyond_load _ _ _ _ _ hp) (fun c _ => ?_)
    split
    · exact ih (p + 1) (by omega)
    · exact beyond_pure _ _

theorem beyond_cstrFrom (lo : Nat) :
    ∀ (rest : List Nat) (p : Nat), lo ≤ p → (cstrFrom rest p).Beyond lo := by
  intro rest
  induction rest with
  | nil =>
    intro p hp e he
    unfold cstrFrom at he
    rw [List.mem_singleton.1 he]
    exact hp
  | cons b rest ih =>
    intro p hp
    unfold cstrFrom
    split
    · intro e he
      rw [List.mem_singleton.1 he]
      exact hp
    · exact beyond_bind (beyond_emit _ _ hp)
        (fun _ _ => beyond_bind (ih (p + 1) (by omega)) (fun _ _ => beyond_pure _ _))

theorem beyond_cstring (img : List Nat) (lo p : Nat) (hp : lo ≤ p) :
    (cstring img p).Beyond lo :=
  beyond_cstrFrom lo _ p hp

/-- The section scan reads nothing before `lo` when the headers and the names it reaches start
at `lo` or later. -/
theorem beyond_sections (W : Nat) (img : List Nat) (sections shstrtab lo : Nat) :
    ∀ (n i : Nat) (x y : Option Nat),
      (∀ k, i ≤ k → k < i + n → lo ≤ ptr W (ptr W sections (40 * k)) 0 ∧
        lo ≤ ptr W shstrtab (le img (ptr W (ptr W sections (40 * k)) 0) 4)) →
      (dumpSymbols_sections W img sections shstrtab n i x y).Beyond lo := by
  intro n
  induction n with
  | zero => intro i x y _; unfold dumpSymbols_sections; exact beyond_pure _ _
  | succ n ih =>
    intro i x y h
    obtain ⟨hp, hq⟩ := h i (Nat.le_refl _) (by omega)
    have ih' := fun x y => ih (i + 1) x y (fun k h1 h2 => h k (by omega) (by omega))
    unfold dumpSymbols_sections
    refine beyond_bind (beyond_load _ _ _ _ _ hp) (fun v hv => ?_)
    have hv' := load_ok hv
    subst hv'
    refine beyond_bind (beyond_strcmp _ _ _ _ hq) (fun c _ => ?_)
    dsimp only
    split
    · exact ih' _ _
    · refine beyond_bind (beyond_strcmp _ _ _ _ hq) (fun c' _ => ?_)
      dsimp only
      split
      · exact ih' _ _
      · exact ih' _ _

/-- The symbol loop reads nothing before `lo` when the entries, and the names of the entries
that pass the filter, start at `lo` or later. -/
theorem beyond_symbols {V : Type} (W : Nat) (build : Nat → Option V) (setOk : List Nat → Bool)
    (l_addr : Nat) (img : List Nat) (symtab strtab lo : Nat) :
    ∀ (n i : Nat) (d : List (List Nat × V)),
      (∀ k, i ≤ k → k < i + n →
        lo ≤ ptr W (ptr W symtab (16 * k)) 12 ∧ lo ≤ ptr W (ptr W symtab (16 * k)) 0 ∧
        lo ≤ ptr W (ptr W symtab (16 * k)) 14 ∧ lo ≤ ptr W (ptr W symtab (16 * k)) 4 ∧
        (¬ (le img (ptr W (ptr W symtab (16 * k)) 14) 2 = SHN_UNDEF ∨
            (ELF32_ST_TYPE (le img (ptr W (ptr W symtab (16 * k)) 12) 1) ≠ STT_FUNC ∧
              ELF32_ST_TYPE (le img (ptr W (ptr W symtab (16 * k)) 12) 1) ≠ STT_OBJECT)) →
          lo ≤ ptr W strtab (le img (ptr W (ptr W symtab (16 * k)) 0) 4))) →
      (dumpSymbols_symbols W build setOk l_addr img symtab strtab n i d).Beyond lo := by
  intro n
  induction n with
  | zero => intro i d _; unfold dumpSymbols_symbols; exact beyond_pure _ _
  | succ n ih =>
    intro i d h
    obtain ⟨h12, h0, h14, h4, hname⟩ := h i (Nat.le_refl _) (by omega)
    have ih' := fun d => ih (i + 1) d (fun k h1 h2 => h k (by omega) (by omega))
    unfold dumpSymbols_symbols
    refine beyond_bind (beyond_load _ _ _ _ _ h12) (fun v1 hv1 => ?_)
    have e1 := load_ok hv1
    subst e1
    refine beyond_bind (beyond_load _ _ _ _ _ h0) (fun v2 hv2 => ?_)
    have e2 := load_ok hv2
    subst e2
    refine beyond_bind (beyond_load _ _ _ _ _ h14) (fun v3 hv3 => ?_)
    have e3 := load_ok hv3
    subst e3
    split
    · exact ih' _
    · rename_i hcond
      refine beyond_bind (beyond_emit _ _ trivial)
        (fun _ _ => beyond_bind (beyond_load _ _ _ _ _ h4) (fun v4 _ => ?_))
      dsimp only
      split
      · exact ih' _
      · refine beyond_bind (beyond_cstring _ _ _ (hname hcond)) (fun name _ => ?_)
        split
        · exact ih' _
        · exact ih' _

theorem check_val {img : List Nat} {m : Bool}
    (hm : (if le img 32 4 = 0 then pure true
      else load img .e_shstrndx 50 2 >>= fun x => pure (decide (x = SHN_UNDEF)) : Step Bool).val
        = .ok m)
    (hz : e_shoff img = 0 ∨ e_shstrndx img = SHN_UNDEF) : m = true := by
  by_cases h1 : le img 32 4 = 0
  · rw [if_pos h1] at hm
    exact (Except.ok.inj hm).symm
  · rw [if_neg h1] at hm
    have h2 : le img 50 2 = SHN_UNDEF := by
      rcases hz with h | h
      · exact absurd h h1
      · exact h
    cases hv : (load img .e_shstrndx 50 2).val with
    | error x =>
      rw [bind_eq_error _ _ x hv] at hm
      cases hm
    | ok a =>
      rw [bind_eq_ok _ _ a hv] at hm
      have ha := load_ok hv
      rw [ha, h2] at hm
      exact (Except.ok.inj hm).symm

theorem beyond_check (img : List Nat) (lo : Nat) (hlo : lo ≤ 32) :
    (if le img 32 4 = 0 then pure true
      else load img .e_shstrndx 50 2 >>= fun x => pure (decide (x = SHN_UNDEF)) :
        Step Bool).Beyond lo := by
  split
  · exact beyond_pure _ _
  · exact beyond_bind (beyond_load _ _ _ _ _ (by omega)) (fun _ _ => beyond_pure _ _)

theorem sections_ptrs {W : Nat} {img : List Nat} (hfit : img.length < 2 ^ W)
    (hok : SectionsOk img) {k : Nat} (hk : k < e_shnum img) :
    ptr W (ptr W (ptr W 0 (e_shoff img)) (40 * k)) 0 = shdr img k ∧
    ptr W (ptr W 0 (sh_offset img (e_shstrndx img))) (le img (shdr img k) 4)
      = sh_offset img (e_shstrndx img) + sh_name img k := by
  have hb := hok.shdr_bound hk
  obtain ⟨s, hs⟩ := Option.isSome_iff_exists.1 (hok.names k hk)
  have hs' : stringAt img (sh_offset img (e_shstrndx img) + sh_name img k) = some s := hs
  have hp := (stringAt_cases hs').1
  refine ⟨?_, ?_⟩
  · have h1 : ptr W (ptr W 0 (e_shoff img)) (40 * k) = shdr img k :=
      ptr_base (by unfold shdr at hb; omega)
    rw [h1]
    exact ptr_eq (by omega)
  · exact ptr_base (by unfold sh_name at hp; omega)

theorem symbols_ptrs {W : Nat} {img : List Nat} {a b : Nat} (hfit : img.length < 2 ^ W)
    (hwf : WellFormed img a b) {k : Nat} (hk : k < symbol_count img a) :
    ptr W (ptr W (ptr W 0 (sh_offset img a)) (16 * k)) 12 = symOff img a k + 12 ∧
    ptr W (ptr W (ptr W 0 (sh_offset img a)) (16 * k)) 0 = symOff img a k ∧
    ptr W (ptr W (ptr W 0 (sh_offset img a)) (16 * k)) 14 = symOff img a k + 14 ∧
    ptr W (ptr W (ptr W 0 (sh_offset img a)) (16 * k)) 4 = symOff img a k + 4 ∧
    (passes img a k → ptr W (ptr W 0 (sh_offset img b)) (le img (symOff img a k) 4)
      = sh_offset img b + st_name img a k) := by
  have hb := hwf.entry_bound hk
  refine ⟨ptr_base_field (by unfold symOff at hb; omega),
    ptr_base_field (by unfold symOff at hb; omega),
    ptr_base_field (by unfold symOff at hb; omega),
    ptr_base_field (by unfold symOff at hb; omega), fun hp => ?_⟩
  obtain ⟨name, hname⟩ := Option.isSome_iff_exists.1 (hwf.symNames k hk hp)
  have hname' : stringAt img (sh_offset img b + st_name img a k) = some name := hname
  have hnp := (stringAt_cases hname').1
  exact ptr_base (by unfold st_name at hnp; omega)

theorem beyond_scan (W : Nat) (img : List Nat) (lo : Nat) (hfit : img.length < 2 ^ W)
    (hok : SectionsOk img) (hsh : lo ≤ e_shoff img)
    (hstr : lo ≤ sh_offset img (e_shstrndx img)) :
    (dumpSymbols_sections W img (ptr W 0 (e_shoff img))
      (ptr W 0 (sh_offset img (e_shstrndx img))) (e_shnum img) 0 none none).Beyond lo := by
  refine beyond_sections W img _ _ lo _ _ _ _ (fun k _ hk => ?_)
  obtain ⟨h1, h2⟩ := sections_ptrs hfit hok (show k < e_shnum img by omega)
  rw [h1, h2]
  unfold shdr
  exact ⟨by omega, by omega⟩

theorem beyond_entries {V : Type} (W : Nat) (build : Nat → Option V)
    (setOk : List Nat → Bool) (l_addr : Nat) (img : List Nat) (a b lo : Nat)
    (hfit : img.length < 2 ^ W) (hwf : WellFormed img a b) (ha : lo ≤ sh_offset img a)
    (hb : lo ≤ sh_offset img b) :
    (dumpSymbols_symbols W build setOk l_addr img (ptr W 0 (sh_offset img a))
      (ptr W 0 (sh_offset img b)) (symbol_count img a) 0 []).Beyond lo := by
  refine beyond_symbols W build setOk l_addr img _ _ lo _ _ _ (fun k _ hk => ?_)
  obtain ⟨h12, h0, h14, h4, hn⟩ := symbols_ptrs hfit hwf (show k < symbol_count img a by omega)
  rw [h12, h0, h14, h4]
  unfold symOff
  refine ⟨by omega, by omega, by omega, by omega, fun hc => ?_⟩
  have hp : passes img a k := by
    unfold passes st_shndx st_info symOff
    tauto
  have := hn hp
  unfold symOff at this
  rw [this]
  omega

theorem beyond_mapped {V : Type} (W : Nat) (build : Nat → Option V)
    (setOk : List Nat → Bool) (dictOk : Bool) (l_addr : Nat) (img : List Nat) (lo : Nat)
    (hlo : lo ≤ 32) (hfit : img.length < 2 ^ W) (hfar : TablesFrom lo img) :
    (dumpSymbols_mapped W build setOk dictOk l_addr img).Beyond lo := by
  unfold dumpSymbols_mapped
  refine beyond_bind (beyond_load _ _ _ _ _ hlo) (fun v hv => ?_)
  have e0 := load_ok hv
  subst e0
  refine beyond_bind (beyond_check img lo hlo) (fun m hm => ?_)
  dsimp only
  cases m with
  | true =>
    simp only [if_true]
    exact beyond_bind (beyond_emit _ _ trivial) (fun _ _ => beyond_pure _ _)
  | false =>
    simp only [Bool.false_eq_true, if_false]
    rcases hfar with hz | ⟨hok, hsh, hstr, hsym⟩
    · exact absurd (check_val hm hz) (by decide)
    · have hh := hok.header
      have hb := hok.shdr_bound hok.shstrtab
      have hptr : ptr W (ptr W (ptr W 0 (le img 32 4)) (40 * le img 50 2)) 16
          = shdr img (e_shstrndx img) + 16 :=
        ptr_base_field (by unfold shdr e_shoff e_shstrndx at hb; omega)
      refine beyond_bind (beyond_load _ _ _ _ _ hlo) (fun v1 hv1 => ?_)
      have e1 := load_ok hv1
      subst e1
      refine beyond_bind (beyond_load _ _ _ _ _ (by omega)) (fun v2 hv2 => ?_)
      have e2 := load_ok hv2
      subst e2
      refine beyond_bind (beyond_load _ _ _ _ _ (by omega)) (fun v3 hv3 => ?_)
      have e3 := load_ok hv3
      subst e3
      rw [hptr]
      refine beyond_bind (beyond_load _ _ _ _ _ (by unfold shdr; omega)) (fun v4 hv4 => ?_)
      have e4 := load_ok hv4
      subst e4
      refine beyond_bind (beyond_scan W img lo hfit hok hsh hstr) (fun found hfound => ?_)
      have hr := (runs_sections W img Field.all hfit hok (by decide) (by decide) (e_shnum img) 0
        (by omega)).1
      have hf : found = ((lastNamed img dotSymtab (e_shnum img)).map (shdr img),
          (lastNamed img dotStrtab (e_shnum img)).map (shdr img)) :=
        Except.ok.inj (hfound.symm.trans hr)
      subst hf
      cases ha : lastNamed img dotSymtab (e_shnum img) with
      | none =>
        cases lastNamed img dotStrtab (e_shnum img) <;>
          exact beyond_bind (beyond_emit _ _ trivial) (fun _ _ => beyond_pure _ _)
      | some a =>
        cases hb : lastNamed img dotStrtab (e_shnum img) with
        | none => exact beyond_bind (beyond_emit _ _ trivial) (fun _ _ => beyond_pure _ _)
        | some b =>
          obtain ⟨hwf, hoa, hob⟩ := hsym a b ha hb
          have hba := hok.shdr_bound (lastNamed_lt img dotSymtab _ a ha)
          have hbb := hok.shdr_bound (lastNamed_lt img dotStrtab _ b hb)
          have pa16 : ptr W (shdr img a) 16 = shdr img a + 16 := ptr_eq (by omega)
          have pa20 : ptr W (shdr img a) 20 = shdr img a + 20 := ptr_eq (by omega)
          have pa36 : ptr W (shdr img a) 36 = shdr img a + 36 := ptr_eq (by omega)
          have pb16 : ptr W (shdr img b) 16 = shdr img b + 16 := ptr_eq (by omega)
          simp only [Option.map_some', pa16, pa20, pa36, pb16]
          refine beyond_bind (beyond_load _ _ _ _ _ (by unfold shdr; omega)) (fun w1 hw1 => ?_)
          have f1 := load_ok hw1
          subst f1
          refine beyond_bind (beyond_load _ _ _ _ _ (by unfold shdr; omega)) (fun w2 hw2 => ?_)
          have f2 := load_ok hw2
          subst f2
          refine beyond_bind (beyond_load _ _ _ _ _ (by unfold shdr; omega)) (fun w3 hw3 => ?_)
          have f3 := load_ok hw3
          subst f3
          refine beyond_bind (beyond_load _ _ _ _ _ (by unfold shdr; omega)) (fun w4 hw4 => ?_)
          have f4 := load_ok hw4
          subst f4
          split
          · exact beyond_fault _ _
          · split
            · exact beyond_bind (beyond_emit _ _ trivial) (fun _ _ => beyond_pure _ _)
            · exact beyond_bind (beyond_entries W build setOk l_addr img a b lo hfit hwf hoa hob)
                (fun _ _ => beyond_bind (beyond_emit _ _ trivial) (fun _ _ => beyond_pure _ _))

theorem beyond_dumpSymbols {V : Type} (h : Host V) (g : List Nat) (args : Option (List Nat))
    (lo : Nat)
    (hmapped : ∀ szPath dlmap img, args = some szPath → h.Maps szPath dlmap img →
      (dumpSymbols_mapped h.ptrBits (h.Py_BuildValue g) h.setItemOk h.PyDict_New dlmap.l_addr
        img).Beyond lo) :
    (dumpSymbols h g args).Beyond lo := by
  unfold dumpSymbols
  by_cases hl : h.linux = false
  · rw [if_pos hl]; exact beyond_pure _ _
  · rw [if_neg hl]
    cases args with
    | none => exact beyond_pure _ _
    | some szPath =>
      dsimp only
      cases hd : h.dlopen szPath with
      | none => exact beyond_bind (beyond_emit _ _ trivial) (fun _ _ => beyond_pure _ _)
      | some dlmap =>
        dsimp only
        refine beyond_bind (beyond_emit _ _ trivial) (fun _ _ => beyond_bind
          (beyond_emit _ _ trivial) (fun _ _ => beyond_bind (beyond_emit _ _ trivial)
          (fun _ _ => beyond_bind (beyond_emit _ _ trivial) (fun _ _ => ?_))))
        cases ho : h.openFile dlmap.l_name with
        | none => exact beyond_bind (beyond_emit _ _ trivial) (fun _ _ => beyond_pure _ _)
        | some img =>
          dsimp only
          refine beyond_bind (beyond_emit _ _ trivial) (fun _ _ => ?_)
          by_cases hf : h.fstatOk = false
          · rw [if_pos hf]
            exact beyond_bind (beyond_emit _ _ trivial) (fun _ _ => beyond_pure _ _)
          · rw [if_neg hf]
            refine beyond_bind (beyond_emit _ _ trivial) (fun _ _ => ?_)
            by_cases hc : h.mmapOk = false ∨ img.length = 0 ∨ 2 ^ h.ptrBits ≤ img.length
            · rw [if_pos hc]
              exact beyond_bind (beyond_emit _ _ trivial) (fun _ _ => beyond_pure _ _)
            · rw [if_neg hc]
              refine beyond_bind (beyond_emit _ _ trivial) (fun _ _ => ?_)
              refine hmapped szPath dlmap img rfl ⟨?_, hd, ho, ?_, ?_, ?_, ?_⟩
              · cases hx : h.linux with
                | false => exact absurd hx hl
                | true => rfl
              · cases hx : h.fstatOk with
                | false => exact absurd hx hf
                | true => rfl
              · cases hx : h.mmapOk with
                | false => exact absurd (Or.inl hx) hc
                | true => rfl
              · exact Nat.pos_of_ne_zero (fun h0 => hc (Or.inr (Or.inl h0)))
              · exact Nat.lt_of_not_le (fun h0 => hc (Or.inr (Or.inr h0)))

theorem maps_withFile {V : Type} {h : Host V} {img img' : List Nat} {szPath : List Nat}
    {dlmap : LinkMap} (hm : (h.withFile img).Maps szPath dlmap img') : img' = img := by
  have ho : (h.openFile dlmap.l_name).map (fun _ => img) = some img' := hm.2.2.1
  cases hx : h.openFile dlmap.l_name with
  | none => rw [hx] at ho; cases ho
  | some x =>
    rw [hx] at ho
    exact (Option.some.inj ho).symm

theorem beyond_withFile {V : Type} (h : Host V) (g : List Nat) (args : Option (List Nat))
    (img : List Nat) (lo : Nat) (hlo : lo ≤ 32) (hfar : TablesFrom lo img) :
    (dumpSymbols (h.withFile img) g args).Beyond lo := by
  refine beyond_dumpSymbols _ g args lo (fun szPath dlmap img' _ hm => ?_)
  have himg := maps_withFile hm
  subst himg
  exact beyond_mapped _ _ _ _ _ _ lo hlo hm.2.2.2.2.2.2 hfar

theorem libfoo_tablesFrom : TablesFrom (EI_CLASS + 1) libfoo := by
  refine Or.inr ⟨libfoo_wellFormed.sections, by decide, by decide, fun a b ha hb => ?_⟩
  have ha' : some 2 = some a := (by decide : some 2 = lastNamed _ _ _).trans ha
  have hb' : some 3 = some b := (by decide : some 3 = lastNamed _ _ _).trans hb
  cases ha'
  cases hb'
  exact ⟨libfoo_wellFormed, by decide, by decide⟩

/-- C17, the claim as worded fails. The two files `libClassName ELFCLASS32` and
`libClassName ELFCLASS64` differ in the class byte `e_ident[4]` only, and `dumpSymbols` returns
different dictionaries for them under the same host: the string table of these files is set at
file offset 0, the symbol has `st_name = 4`, so the key is the string that starts at the class
byte. -/
theorem dumpSymbols_class_byte_in_name :
    libClassName ELFCLASS64 = (libClassName ELFCLASS32).set EI_CLASS ELFCLASS64 ∧
    (dumpSymbols ((exampleHost (libClassName ELFCLASS32) 0).withFile (libClassName ELFCLASS32))
      g_szAddrType_init (some examplePath)).val = .ok (.dict [([1, 1, 1], 0x1000)]) ∧
    (dumpSymbols ((exampleHost (libClassName ELFCLASS32) 0).withFile (libClassName ELFCLASS64))
      g_szAddrType_init (some examplePath)).val = .ok (.dict [([2, 1, 1], 0x1000)]) := by
  decide

/-- C17, amended. `dumpSymbols` never reads the class byte `e_ident[4]`: for every host (so
every load bias), every argument and every file in which nothing that the headers locate starts
at or before the class byte (`TablesFrom`: no section table, or headers in bounds with the
section header table and the section names after byte 4 and, when `.symtab` and `.strtab` are
both present, a well-formed image with the symbol table and the symbol names after byte 4), no
read of the run covers file offset 4, and the run on the file with any other class byte is the
same run: the same reads at the same offsets and widths (the 32-bit layouts) and the same
result. In particular an image marked `ELFCLASS64` is parsed like the one marked `ELFCLASS32`,
not rejected. -/
theorem dumpSymbols_ignores_class {V : Type} (h : Host V) (g : List Nat)
    (args : Option (List Nat)) (img : List Nat) (cls : Nat)
    (hfar : TablesFrom (EI_CLASS + 1) img) :
    (∀ e ∈ (dumpSymbols (h.withFile img) g args).log, ¬ e.covers EI_CLASS) ∧
    dumpSymbols (h.withFile (img.set EI_CLASS cls)) g args
      = dumpSymbols (h.withFile img) g args := by
  have hread : ∀ e ∈ (dumpSymbols (h.withFile img) g args).log, ¬ e.covers EI_CLASS := by
    intro e he hc
    have hb := beyond_withFile h g args img (EI_CLASS + 1) (by decide) hfar e he
    cases e with
    | read f off len => exact absurd hc.1 (Nat.not_le.2 hb)
    | _ => exact hc
  refine ⟨hread, ?_⟩
  refine sameIf_dumpSymbols h g args img (img.set EI_CLASS cls) (List.length_set _ _ _) ?_
  intro e he
  cases e with
  | read f off len =>
    have hc := hread _ he
    refine agree_of_le_eq _ _ f off len (le_congr _ _ len off (fun o h1 h2 => ?_))
    have hne : o ≠ EI_CLASS := by
      intro ho
      exact hc ⟨ho ▸ h1, ho ▸ h2⟩
    exact (byteAt_set_ne img EI_CLASS cls o hne).symm
  | _ => trivial

/-- Witness of C17, amended: `libfoo` marked `ELFCLASS64` yields `foo` all the same. -/
theorem dumpSymbols_ignores_class_witness :
    TablesFrom (EI_CLASS + 1) libfoo ∧
    ((∀ e ∈ (dumpSymbols ((exampleHost libfoo 0x7f0000000000).withFile libfoo) g_szAddrType_init
      (some examplePath)).log, ¬ e.covers EI_CLASS) ∧
    dumpSymbols ((exampleHost libfoo 0x7f0000000000).withFile (libfoo.set EI_CLASS ELFCLASS64))
        g_szAddrType_init (some examplePath)
      = dumpSymbols ((exampleHost libfoo 0x7f0000000000).withFile libfoo) g_szAddrType_init
        (some examplePath)) ∧
    (dumpSymbols ((exampleHost libfoo 0x7f0000000000).withFile (libfoo.set EI_CLASS ELFCLASS64))
      g_szAddrType_init (some examplePath)).val = .ok (.dict [(fooName, 0x7f0000001000)]) :=
  ⟨libfoo_tablesFrom,
    dumpSymbols_ignores_class (exampleHost libfoo 0x7f0000000000) g_szAddrType_init
      (some examplePath) libfoo ELFCLASS64 libfoo_tablesFrom,
    by decide⟩

/-- C20, the claim as worded fails. The files `libOverlapFoo` and `libOverlapBar` are well
formed with `sh_entsize = 16` and differ only in `st_size` of entry 2 of the symbol table, and
`dumpSymbols` returns different dictionaries for them under the same host: the string table of
these files is set at the offset of the symbol table, and the name of the defined symbol starts
at the `st_size` of entry 2. -/
theorem dumpSymbols_size_in_name :
    WellFormed libOverlapFoo 2 3 ∧ WellFormed libOverlapBar 2 3 ∧
    sh_entsize libOverlapFoo 2 = 16 ∧ sh_entsize libOverlapBar 2 = 16 ∧
    libOverlapBar.length = libOverlapFoo.length ∧
    (∀ o < libOverlapFoo.length, byteAt libOverlapFoo o ≠ byteAt libOverlapBar o →
      symOff libOverlapFoo 2 2 + 8 ≤ o ∧ o < symOff libOverlapFoo 2 2 + 12) ∧
    (dumpSymbols ((exampleHost libOverlapFoo 0).withFile libOverlapFoo) g_szAddrType_init
      (some examplePath)).val = .ok (.dict [(fooName, 0x1000)]) ∧
    (dumpSymbols ((exampleHost libOverlapFoo 0).withFile libOverlapBar) g_szAddrType_init
      (some examplePath)).val = .ok (.dict [(barName, 0x1000)]) :=
  ⟨libOverlapFoo_wellFormed, libOverlapBar_wellFormed, by decide, by decide, by decide,
    by decide, by decide, by decide⟩

/-- C20, amended. For every host (so every load bias), every well-formed image with
`sh_entsize = 16` and every second image of the same length that differs from it only in
`st_size` (bytes 8 to 11), in `st_other` (byte 13) or in the upper four bits of `st_info`
(byte 12) of entries of the symbol table, provided no read of the run other than a read of
`st_info` covers a byte that differs (no section header, section name or symbol name lies over
those bytes), the run of `dumpSymbols` on the second image is the run on the first one and
returns the same dictionary: the one of the defined function and object symbols of the first
image, whatever their binding. -/
theorem dumpSymbols_ignores_binding {V : Type} (h : Host V) (g szPath : List Nat)
    (dlmap : LinkMap) (img1 img2 : List Nat) (a b : Nat)
    (hm : (h.withFile img1).Maps szPath dlmap img1) (hwf : WellFormed img1 a b)
    (_hent : sh_entsize img1 a = 16) (hlen : img2.length = img1.length)
    (hdiff : ∀ o < img1.length, byteAt img1 o ≠ byteAt img2 o →
      ∃ i, i < symbol_count img1 a ∧
        ((symOff img1 a i + 8 ≤ o ∧ o < symOff img1 a i + 12) ∨ o = symOff img1 a i + 13 ∨
          (o = symOff img1 a i + 12 ∧ byteAt img1 o % 16 = byteAt img2 o % 16)))
    (hsep : ∀ o < img1.length, byteAt img1 o ≠ byteAt img2 o →
      ∀ e ∈ (dumpSymbols (h.withFile img1) g (some szPath)).log,
        e.covers o → e.field? = some .st_info) :
    dumpSymbols (h.withFile img2) g (some szPath)
      = dumpSymbols (h.withFile img1) g (some szPath) ∧
    (dumpSymbols (h.withFile img2) g (some szPath)).val
      = .ok (if h.PyDict_New = true then
          .dict (symDict h.ptrBits (h.Py_BuildValue g) h.setItemOk dlmap.l_addr img1 a b
            (symbol_count img1 a))
        else .None) := by
  have hruns := runs_wellFormed (h.withFile img1) g szPath dlmap img1 a b hm hwf
  have hlt : ∀ o, byteAt img1 o ≠ byteAt img2 o → o < img1.length := by
    intro o hne
    by_contra hge
    have hge1 : img1.length ≤ o := Nat.le_of_not_lt hge
    exact hne (by rw [byteAt_ge img1 o hge1, byteAt_ge img2 o (by rw [hlen]; exact hge1)])
  have hsame : dumpSymbols (h.withFile img2) g (some szPath)
      = dumpSymbols (h.withFile img1) g (some szPath) := by
    refine sameIf_dumpSymbols h g (some szPath) img1 img2 hlen ?_
    intro e he
    cases e with
    | read f off len =>
      by_cases hf : f = .st_info
      · subst hf
        have hmem : off ∈ (dumpSymbols (h.withFile img1) g (some szPath)).entries :=
          List.mem_filterMap.2 ⟨_, he, rfl⟩
        rw [hruns.2.2] at hmem
        have hoff : ∃ j, off = symOff img1 a j + 12 := by
          split at hmem
          · obtain ⟨j, _, hj⟩ := List.mem_map.1 hmem
            exact ⟨j, hj.symm⟩
          · exact absurd hmem (List.not_mem_nil _)
        obtain ⟨j, hj⟩ := hoff
        have hnib : byteAt img1 off % 16 = byteAt img2 off % 16 := by
          by_cases hb : byteAt img1 off = byteAt img2 off
          · rw [hb]
          · obtain ⟨i, _, hi⟩ := hdiff off (hlt off hb) hb
            unfold symOff at hi hj
            rcases hi with hi | hi | hi
            · omega
            · omega
            · exact hi.2
        show if Field.st_info = Field.st_info then le img1 off len % 16 = le img2 off len % 16
          else le img1 off len = le img2 off len
        rw [if_pos rfl]
        exact le_mod_16_congr img1 img2 off len hnib
      · refine agree_of_le_eq _ _ f off len (le_congr _ _ len off (fun o h1 h2 => ?_))
        by_contra hb
        have hfield := hsep o (hlt o hb) hb _ he ⟨h1, h2⟩
        exact hf (Option.some.inj hfield)
    | _ => trivial
  refine ⟨hsame, ?_⟩
  rw [hsame]
  exact hruns.1

theorem dumpSymbols_ignores_binding_witness :
    (((exampleHost libfoo 0x7f0000000000).withFile libfoo).Maps examplePath
      ⟨0x7f0000000000, examplePath⟩ libfoo ∧ WellFormed libfoo 2 3 ∧
      sh_entsize libfoo 2 = 16 ∧ libfooWeak.length = libfoo.length) ∧
    byteAt libfoo (symOff libfoo 2 1 + 12) ≠ byteAt libfooWeak (symOff libfoo 2 1 + 12) ∧
    dumpSymbols ((exampleHost libfoo 0x7f0000000000).withFile libfooWeak) g_szAddrType_init
        (some examplePath)
      = dumpSymbols ((exampleHost libfoo 0x7f0000000000).withFile libfoo) g_szAddrType_init
        (some examplePath) ∧
    (dumpSymbols ((exampleHost libfoo 0x7f0000000000).withFile libfooWeak) g_szAddrType_init
      (some examplePath)).val = .ok (.dict [(fooName, 0x7f0000001000)]) :=
  ⟨⟨⟨rfl, rfl, rfl, rfl, rfl, by decide, by decide⟩, libfoo_wellFormed, by decide, by decide⟩,
    by decide,
    dumpSymbols_ignores_binding (exampleHost libfoo 0x7f0000000000) g_szAddrType_init
      examplePath ⟨0x7f0000000000, examplePath⟩ libfoo libfooWeak 2 3
      ⟨rfl, rfl, rfl, rfl, rfl, by decide, by decide⟩ libfoo_wellFormed (by decide) (by decide)
      (by decide) (by decide)⟩

end Symdump
